import Mathlib

/-!
# GraphStaff backend: access control and result cache

A shallow embedding of `backend/src/auth.js` and `backend/src/resolvers.js`.

* JavaScript exceptions are values of `JsError`; a function that may throw returns `Except JsError`.
* `null` / `undefined` are `none`.
* `Date.now()` is an explicit argument (milliseconds, an integer).
* The `Map` behind the cache is an association list in insertion order.
-/

set_option autoImplicit false

namespace GraphStaff

/-! ## Errors -/

/-- The classes of the exceptions that the backend throws or lets through. `external` stands for
an exception raised by a collaborator (the document store, the JavaScript runtime). -/
inductive ErrorClass where
  | AuthenticationError
  | ForbiddenError
  | Error
  | SyntaxError
  | external (name : String)
  deriving DecidableEq, Repr

/-- A thrown JavaScript exception: its class and its message. -/
structure JsError where
  cls : ErrorClass
  message : String
  deriving DecidableEq, Repr

/-! ## Documents -/

/-- A MongoDB `ObjectId`; `toString` gives its text form. -/
structure ObjectId where
  hex : String
  deriving DecidableEq, Repr

/-- The source's `_id.toString()`. -/
def ObjectId.toString (o : ObjectId) : String := o.hex

/-- A stored user (`userSchema` in `auth.js`). `role` is a string: the schema's enum is enforced by
the store on validation only, and `checkRole` compares it as a string. -/
structure UserDoc where
  _id : ObjectId
  username : String
  password : String
  role : String
  email : String
  name : String
  employeeId : Option ObjectId
  createdAt : Int
  updatedAt : Int
  deriving DecidableEq, Repr

/-! ## Access control (`auth.js` `checkRole`, `resolvers.js` `requireAuth`, `requireRole`) -/

/-- The source's
```
const checkRole = (user, requiredRoles) => {
  if (!user) return false;
  if (!requiredRoles || requiredRoles.length === 0) return true;
  return requiredRoles.includes(user.role);
};
```
-/
def checkRole (user : Option UserDoc) (requiredRoles : Option (List String)) : Bool :=
  match user with
  | none => false
  | some u =>
    match requiredRoles with
    | none => true
    | some roles => if roles.length = 0 then true else roles.contains u.role

/-- The exception `requireAuth` throws. -/
def notLoggedIn : JsError := ⟨.AuthenticationError, "You must be logged in"⟩

/-- The exception `requireRole` throws. -/
def noPermission : JsError :=
  ⟨.ForbiddenError, "You don\x27t have permission to perform this action"⟩

/-- The source's
```
const requireAuth = (user) => {
  if (!user) throw new AuthenticationError('You must be logged in');
  return user;
};
```
-/
def requireAuth (user : Option UserDoc) : Except JsError UserDoc :=
  match user with
  | none => .error notLoggedIn
  | some u => .ok u

/-- The source's
```
const requireRole = (user, roles) => {
  if (!checkRole(user, roles)) throw new ForbiddenError(...);
  return user;
};
```
The value returned is the argument `user` itself. -/
def requireRole (user : Option UserDoc) (roles : Option (List String)) :
    Except JsError (Option UserDoc) :=
  if !checkRole user roles then .error noPermission else .ok user

/-! ## The JavaScript `Map` -/

/-- A `Map` with string keys: its entries in insertion order. -/
abbrev JsMap (β : Type) := List (String × β)

namespace JsMap

variable {β : Type}

/-- The method `Map.prototype.get`: the value stored under `k`, if any. -/
def get : JsMap β → String → Option β
  | [], _ => none
  | (k', v) :: rest, k => if k' = k then some v else get rest k

/-- The method `Map.prototype.set`: overwrite the value under `k` in place, or append a new entry. -/
def set : JsMap β → String → β → JsMap β
  | [], k, v => [(k, v)]
  | (k', v') :: rest, k, v => if k' = k then (k, v) :: rest else (k', v') :: set rest k v

/-- The method `Map.prototype.delete`: drop the entry under `k`. -/
def delete : JsMap β → String → JsMap β
  | [], _ => []
  | (k', v') :: rest, k => if k' = k then delete rest k else (k', v') :: delete rest k

/-- The method `Map.prototype.clear`. -/
def clear (_ : JsMap β) : JsMap β := []

end JsMap

/-! ## The result cache (`resolvers.js`, `const cache = { ... }`) -/

/-- What `cache.set` stores: `{ value, timestamp: Date.now() }`. -/
structure CacheEntry (α : Type) where
  value : α
  timestamp : Int
  deriving DecidableEq, Repr

/-- The state of the `cache` object: its `employees` map. (`ttl` is a constant.) -/
structure Cache (α : Type) where
  employees : JsMap (CacheEntry α)
  deriving DecidableEq, Repr

namespace Cache

variable {α : Type}

/-- The field `ttl: 60000`. -/
def ttl : Int := 60000

/-- The cache at start-up: `employees: new Map()`. -/
def empty : Cache α := ⟨[]⟩

/-- The source's
```
set(key, value) { this.employees.set(key, { value, timestamp: Date.now() }); }
```
-/
def set (c : Cache α) (now : Int) (key : String) (value : α) : Cache α :=
  ⟨JsMap.set c.employees key ⟨value, now⟩⟩

/-- The source's
```
get(key) {
  const entry = this.employees.get(key);
  if (!entry) return null;
  if (Date.now() - entry.timestamp > this.ttl) {
    this.employees.delete(key);
    return null;
  }
  return entry.value;
}
```
The result is the returned value together with the cache afterwards. -/
def get (c : Cache α) (now : Int) (key : String) : Option α × Cache α :=
  match JsMap.get c.employees key with
  | none => (none, c)
  | some entry =>
    if now - entry.timestamp > ttl then (none, ⟨JsMap.delete c.employees key⟩)
    else (some entry.value, c)

/-- The source's `invalidate(key) { this.employees.delete(key); }`. -/
def invalidate (c : Cache α) (key : String) : Cache α :=
  ⟨JsMap.delete c.employees key⟩

/-- The source's `invalidateAll() { this.employees.clear(); }`. -/
def invalidateAll (c : Cache α) : Cache α :=
  ⟨JsMap.clear c.employees⟩

/-- The entry stored under a key, if any (the underlying `Map` lookup, without expiry). -/
def entry (c : Cache α) (key : String) : Option (CacheEntry α) :=
  JsMap.get c.employees key

end Cache

/-! ## Employee records and result payloads -/

/-- A stored employee (`employeeSchema` in `models.js`, with `timestamps: true`), as `.lean()` and
`toObject()` give it. Numbers the schema declares `Number` are exact rationals here. -/
structure EmployeeDoc where
  _id : ObjectId
  name : String
  age : Option Int
  class_ : Option String
  subjects : List String
  attendance : Option Rat
  createdAt : Int
  updatedAt : Int
  deriving DecidableEq, Repr

/-- The object the resolvers return for an employee:
`{ id: emp._id.toString(), ...emp, _id: undefined }`. -/
structure FormattedEmployee where
  id : String
  _id : Option ObjectId
  name : String
  age : Option Int
  class_ : Option String
  subjects : List String
  attendance : Option Rat
  createdAt : Int
  updatedAt : Int
  deriving DecidableEq, Repr

/-- The source's
```
{ id: emp._id.toString(), ...emp, _id: undefined }
```
-/
def formatEmployee (emp : EmployeeDoc) : FormattedEmployee :=
  { id := emp._id.toString
    _id := none
    name := emp.name
    age := emp.age
    class_ := emp.class_
    subjects := emp.subjects
    attendance := emp.attendance
    createdAt := emp.createdAt
    updatedAt := emp.updatedAt }

/-- A JavaScript number as far as `totalPages` needs it: an integer, `Infinity` or `NaN`. -/
inductive JsNumber where
  | int (n : Int)
  | posInf
  | nan
  deriving DecidableEq, Repr

/-- The comparison `page < x` of an integer with a JavaScript number. -/
def JsNumber.gtInt (x : JsNumber) (page : Int) : Bool :=
  match x with
  | .int n => decide (page < n)
  | .posInf => true
  | .nan => false

/-- The source's `Math.ceil(totalCount / limit)` for a count `totalCount >= 0` and an integer
`limit` (exact while the count is below `2^53`): division by zero gives `Infinity`, or `NaN` for
`0 / 0`; a negative `limit` gives the ceiling of a non-positive quotient. -/
def ceilDiv (totalCount : Nat) (limit : Int) : JsNumber :=
  if 0 < limit then .int (Int.ofNat ((totalCount + limit.toNat - 1) / limit.toNat))
  else if limit < 0 then .int (-(Int.ofNat (totalCount / limit.natAbs)))
  else if totalCount = 0 then .nan
  else .posInf

/-- Rounding of an integer to the nearest IEEE double (ties to even): the value of a JavaScript
product of integers whose exact result is `n`. Integers below `2^53` in magnitude are exact. -/
def roundToDouble (n : Int) : Int :=
  let a := n.natAbs
  if a < 2 ^ 53 then n
  else
    let e := Nat.log2 a - 52
    let q := a / 2 ^ e
    let r := a % 2 ^ e
    let half := 2 ^ (e - 1)
    let q1 := if half < r ∨ (r = half ∧ q % 2 = 1) then q + 1 else q
    n.sign * Int.ofNat (q1 * 2 ^ e)

/-- The field `pageInfo` of an employee page. -/
structure PageInfo where
  hasNextPage : Bool
  hasPreviousPage : Bool
  totalPages : JsNumber
  totalCount : Nat
  currentPage : Int
  deriving DecidableEq, Repr

/-- The object `Query.employees` builds: `{ employees: formattedEmployees, pageInfo }`. -/
structure EmployeePage where
  employees : List FormattedEmployee
  pageInfo : PageInfo
  deriving DecidableEq, Repr

/-- A value held by the cache or returned by a read resolver: the cache is shared by
`Query.employees` (pages) and `Query.employee` (single records). -/
inductive Payload where
  | page (result : EmployeePage)
  | employee (formattedEmployee : FormattedEmployee)
  deriving DecidableEq, Repr

/-! ## The document store (mongoose), as an interface -/

/-- A JavaScript `RegExp` object: its source and flags. -/
structure RegExp where
  source : String
  flags : String
  deriving DecidableEq, Repr

/-- The filter `Query.employees` sends: `{}` or `{ name: new RegExp(filterName, 'i') }`. -/
structure EmployeeFilter where
  name : Option RegExp
  deriving DecidableEq, Repr

/-- The filter `Query.users` sends: `{}` or `{ role }`. -/
structure UserFilter where
  role : Option String
  deriving DecidableEq, Repr

/-- The arguments of `addEmployee` (`new Employee(args)`). -/
structure EmployeeInput where
  name : String
  age : Option Int
  class_ : Option String
  subjects : Option (List String)
  attendance : Option Rat
  deriving DecidableEq, Repr

/-- The `...updates` of `updateEmployee`: the fields given. -/
structure EmployeeUpdates where
  name : Option String
  age : Option Int
  class_ : Option String
  subjects : Option (List String)
  attendance : Option Rat
  deriving DecidableEq, Repr

/-- The update documents sent to `User.findByIdAndUpdate`: `{ employeeId }` or `{ role }`. -/
inductive UserUpdate where
  | employeeId (employeeId : String)
  | role (role : String)
  deriving DecidableEq, Repr

/-- The fields `register` hands to `User.create`: `{ username, password, email, name, role }`.
The `role` is `none` when `register` received an explicit `null`. -/
structure UserInput where
  username : String
  password : String
  email : String
  name : String
  role : Option String
  deriving DecidableEq, Repr

/-- The conditions sent to `User.findOne`: `{ username }` (login) or
`{ $or: [{ username }, { email }] }` (register). -/
inductive UserQuery where
  | byUsername (username : String)
  | byUsernameOrEmail (username email : String)
  deriving DecidableEq, Repr

/-- A call issued to the document store. -/
inductive DbCall where
  | employeeCountDocuments (filter : EmployeeFilter)
  | employeeFind (filter : EmployeeFilter) (sortField : String) (sortDir : Int) (skip : Int)
      (limit : Int)
  | employeeFindById (id : String)
  | employeeSave (args : EmployeeInput)
  | employeeFindByIdAndUpdate (id : String) (updates : EmployeeUpdates)
  | employeeFindByIdAndDelete (id : String)
  | userFind (filter : UserFilter)
  | userFindByIdAndUpdate (userId : String) (update : UserUpdate)
  | userFindOne (query : UserQuery)
  | userCreate (fields : UserInput)
  | userFindById (id : Option String)
  deriving DecidableEq, Repr

/-- The mongoose operations the resolvers call, over a store state `σ`. Reads return a result or
throw; writes also return the store afterwards. -/
structure Storage (σ : Type) where
  /-- The call `Employee.countDocuments(filter)`. -/
  countDocuments : EmployeeFilter → σ → Except JsError Nat
  /-- The call `Employee.find(filter).sort({ [field]: dir }).skip(skip).limit(limit).lean()`. -/
  find : EmployeeFilter → String → Int → Int → Int → σ → Except JsError (List EmployeeDoc)
  /-- The call `Employee.findById(id).lean()`. -/
  findById : String → σ → Except JsError (Option EmployeeDoc)
  /-- The call `new Employee(args).save()`. -/
  save : EmployeeInput → σ → Except JsError EmployeeDoc × σ
  /-- The call `Employee.findByIdAndUpdate(id, updates, { new: true, runValidators: true })`. -/
  findByIdAndUpdate : String → EmployeeUpdates → σ → Except JsError (Option EmployeeDoc) × σ
  /-- The call `Employee.findByIdAndDelete(id)`. -/
  findByIdAndDelete : String → σ → Except JsError (Option EmployeeDoc) × σ
  /-- The call `User.find(filter).lean()`. -/
  userFind : UserFilter → σ → Except JsError (List UserDoc)
  /-- The call `User.findByIdAndUpdate(userId, update, { new: true })`. -/
  userFindByIdAndUpdate : String → UserUpdate → σ → Except JsError (Option UserDoc) × σ
  /-- The call `User.findOne(query)`. -/
  userFindOne : UserQuery → σ → Except JsError (Option UserDoc)
  /-- The call `User.create(fields)`. `preSave` is the schema's pre-save hook (`auth.js`), which
  mongoose runs on the new document, its `password` modified, before writing it. -/
  userCreate : (UserInput → UserInput) → UserInput → σ → Except JsError UserDoc × σ
  /-- The call `User.findById(id)`; `id` is `none` when the argument is `undefined`. -/
  userFindById : Option String → σ → Except JsError (Option UserDoc)

/-- The state a resolver runs in: the store, the process-wide cache, and the store calls issued so
far (oldest first). -/
structure World (σ : Type) where
  db : σ
  cache : Cache Payload
  log : List DbCall

/-- Record a store call. -/
def World.call {σ : Type} (w : World σ) (c : DbCall) : World σ :=
  { w with log := w.log ++ [c] }

/-- The GraphQL context built in `server.js`: `{ user, req }` (only `user` is read here). -/
structure Context where
  user : Option UserDoc
  deriving DecidableEq, Repr

/-! ## Read resolvers (`resolvers.js`, `Query`) -/

/-- The arguments of `Query.employees` as GraphQL hands them over; `none` is an argument left out
(`undefined`), which takes the default of
`{ page = 1, limit = 10, sortBy = 'name', sortOrder = 'asc', filterName }`. An explicit `null`,
which a default does not replace, is not among the values of this type. `page` and `limit` are
GraphQL `Int`s. -/
structure EmployeesArgs where
  page : Option Int
  limit : Option Int
  sortBy : Option String
  sortOrder : Option String
  filterName : Option String
  deriving DecidableEq, Repr

/-- JavaScript truthiness of an optional string: present and not empty. -/
def truthy (s : Option String) : Bool :=
  match s with
  | none => false
  | some str => str != ""

/-- The source's
```
const cacheKey = `${page}_${limit}_${sortBy}_${sortOrder}_${filterName || ''}`;
```
-/
def employeesCacheKey (page limit : Int) (sortBy sortOrder : String)
    (filterName : Option String) : String :=
  toString page ++ "_" ++ toString limit ++ "_" ++ sortBy ++ "_" ++ sortOrder ++ "_" ++
    (if truthy filterName then filterName.getD "" else "")

/-- The cache key `Query.employees` uses for its arguments, defaults applied. -/
def EmployeesArgs.cacheKey (args : EmployeesArgs) : String :=
  employeesCacheKey (args.page.getD 1) (args.limit.getD 10) (args.sortBy.getD "name")
    (args.sortOrder.getD "asc") args.filterName

/-- The allow-list of sort fields in `Query.employees`. -/
def sortAllowList : List String :=
  ["name", "age", "class", "attendance", "createdAt", "updatedAt"]

/-- The source's `safeSortBy`. -/
def safeSortBy (sortBy : String) : String :=
  if sortAllowList.contains sortBy then sortBy else "name"

/-- The source's `safeSortOrder`: `sortOrder === 'desc' ? -1 : 1`. -/
def safeSortOrder (sortOrder : String) : Int :=
  if sortOrder = "desc" then -1 else 1

/-- The source's `filterName ? { name: new RegExp(filterName, 'i') } : {}`, with the runtime's
`RegExp` constructor `newRegExp source flags` (which throws on a malformed pattern). -/
def buildFilter (newRegExp : String → String → Except JsError RegExp)
    (filterName : Option String) : Except JsError EmployeeFilter :=
  if truthy filterName then
    match newRegExp (filterName.getD "") "i" with
    | .error e => .error e
    | .ok re => .ok ⟨some re⟩
  else .ok ⟨none⟩

/-- The source's `pageInfo` object. -/
def mkPageInfo (page limit : Int) (totalCount : Nat) : PageInfo :=
  let totalPages := ceilDiv totalCount limit
  { hasNextPage := totalPages.gtInt page
    hasPreviousPage := decide (1 < page)
    totalPages := totalPages
    totalCount := totalCount
    currentPage := page }

/-- The source's `Query.employees` on a cache miss, after the lookup: build the sort clause and the
filter, count, query, format, store the result under `cacheKey` at time `later`, return it. -/
def employeesFromStorage {σ : Type} (S : Storage σ)
    (newRegExp : String → String → Except JsError RegExp)
    (page limit : Int) (sortBy sortOrder : String) (filterName : Option String)
    (cacheKey : String) (later : Int) (w : World σ) : Except JsError Payload × World σ :=
  let sortField := safeSortBy sortBy
  let sortDir := safeSortOrder sortOrder
  match buildFilter newRegExp filterName with
  | .error e => (.error e, w)
  | .ok filter =>
    let w1 := w.call (.employeeCountDocuments filter)
    match S.countDocuments filter w1.db with
    | .error e => (.error e, w1)
    | .ok totalCount =>
      let skip := roundToDouble ((page - 1) * limit)
      let w2 := w1.call (.employeeFind filter sortField sortDir skip limit)
      match S.find filter sortField sortDir skip limit w2.db with
      | .error e => (.error e, w2)
      | .ok employees =>
        let formattedEmployees := employees.map formatEmployee
        let result : EmployeePage :=
          { employees := formattedEmployees, pageInfo := mkPageInfo page limit totalCount }
        (.ok (.page result), { w2 with cache := w2.cache.set later cacheKey (.page result) })

/-- The source's `Query.employees`. `now` is `Date.now()` at the cache lookup and `later` is
`Date.now()` at the `cache.set` after the store has answered. A cached value is an object, hence
truthy, so `if (cachedResult)` is the test for a hit. -/
def Query.employees {σ : Type} (S : Storage σ)
    (newRegExp : String → String → Except JsError RegExp)
    (args : EmployeesArgs) (context : Option Context) (now later : Int) (w : World σ) :
    Except JsError Payload × World σ :=
  let page := args.page.getD 1
  let limit := args.limit.getD 10
  let sortBy := args.sortBy.getD "name"
  let sortOrder := args.sortOrder.getD "asc"
  match context with
  | none => (.error ⟨.Error, "Invalid GraphQL context"⟩, w)
  | some _ =>
    let cacheKey := employeesCacheKey page limit sortBy sortOrder args.filterName
    match w.cache.get now cacheKey with
    | (some cachedResult, c) => (.ok cachedResult, { w with cache := c })
    | (none, c) =>
      employeesFromStorage S newRegExp page limit sortBy sortOrder args.filterName cacheKey later
        { w with cache := c }

/-- The source's `Query.employee`: `null` is `none`. -/
def Query.employee {σ : Type} (S : Storage σ) (id : String) (now later : Int) (w : World σ) :
    Except JsError (Option Payload) × World σ :=
  let cacheKey := "employee_" ++ id
  match w.cache.get now cacheKey with
  | (some cachedEmployee, c) => (.ok (some cachedEmployee), { w with cache := c })
  | (none, c) =>
    let w1 := ({ w with cache := c } : World σ).call (.employeeFindById id)
    match S.findById id w1.db with
    | .error e => (.error e, w1)
    | .ok none => (.ok none, w1)
    | .ok (some employee) =>
      let formattedEmployee := formatEmployee employee
      (.ok (some (.employee formattedEmployee)),
        { w1 with cache := w1.cache.set later cacheKey (.employee formattedEmployee) })

/-- The source's `Query.users`. -/
def Query.users {σ : Type} (S : Storage σ) (role : Option String) (context : Context)
    (w : World σ) : Except JsError (List UserDoc) × World σ :=
  let user := context.user
  match requireAuth user with
  | .error e => (.error e, w)
  | .ok _ =>
    match requireRole user (some ["ADMIN"]) with
    | .error e => (.error e, w)
    | .ok _ =>
      let filter : UserFilter := if truthy role then ⟨role⟩ else ⟨none⟩
      let w1 := w.call (.userFind filter)
      match S.userFind filter w1.db with
      | .error e => (.error e, w1)
      | .ok users => (.ok users, w1)

/-! ## Mutations (`resolvers.js`, `Mutation`) -/

/-- The exception of `updateEmployee` and `deleteEmployee` for an id the store does not hold. -/
def employeeNotFound (id : String) : JsError :=
  ⟨.Error, "Employee with ID " ++ id ++ " not found"⟩

/-- The exception of `assignEmployeeToUser` and `updateUserRole` for an unknown user id. -/
def userNotFound (userId : String) : JsError :=
  ⟨.Error, "User with ID " ++ userId ++ " not found"⟩

/-- The source's `context?.user`. -/
def contextUser (context : Option Context) : Option UserDoc :=
  match context with
  | none => none
  | some c => c.user

/-- The source's `Mutation.addEmployee`. -/
def Mutation.addEmployee {σ : Type} (S : Storage σ) (args : EmployeeInput)
    (context : Option Context) (w : World σ) : Except JsError FormattedEmployee × World σ :=
  let user := contextUser context
  match requireAuth user with
  | .error e => (.error e, w)
  | .ok _ =>
    match requireRole user (some ["ADMIN"]) with
    | .error e => (.error e, w)
    | .ok _ =>
      let w1 := w.call (.employeeSave args)
      match S.save args w1.db with
      | (.error e, db) => (.error e, { w1 with db := db })
      | (.ok employee, db) =>
        let formattedEmployee := formatEmployee employee
        (.ok formattedEmployee, { w1 with db := db, cache := w1.cache.invalidateAll })

/-- The source's `Mutation.updateEmployee`. -/
def Mutation.updateEmployee {σ : Type} (S : Storage σ) (id : String) (updates : EmployeeUpdates)
    (context : Option Context) (w : World σ) : Except JsError FormattedEmployee × World σ :=
  let user := contextUser context
  match requireAuth user with
  | .error e => (.error e, w)
  | .ok _ =>
    match requireRole user (some ["ADMIN"]) with
    | .error e => (.error e, w)
    | .ok _ =>
      let w1 := w.call (.employeeFindByIdAndUpdate id updates)
      match S.findByIdAndUpdate id updates w1.db with
      | (.error e, db) => (.error e, { w1 with db := db })
      | (.ok none, db) => (.error (employeeNotFound id), { w1 with db := db })
      | (.ok (some employee), db) =>
        let formattedEmployee := formatEmployee employee
        (.ok formattedEmployee,
          { w1 with db := db, cache := (w1.cache.invalidate ("employee_" ++ id)).invalidateAll })

/-- The source's `Mutation.deleteEmployee`; `Boolean(doc)` of a found document is `true`. -/
def Mutation.deleteEmployee {σ : Type} (S : Storage σ) (id : String) (context : Context)
    (w : World σ) : Except JsError Bool × World σ :=
  let user := context.user
  match requireAuth user with
  | .error e => (.error e, w)
  | .ok _ =>
    match requireRole user (some ["ADMIN"]) with
    | .error e => (.error e, w)
    | .ok _ =>
      let w1 := w.call (.employeeFindByIdAndDelete id)
      match S.findByIdAndDelete id w1.db with
      | (.error e, db) => (.error e, { w1 with db := db })
      | (.ok none, db) => (.error (employeeNotFound id), { w1 with db := db })
      | (.ok (some _), db) =>
        (.ok true,
          { w1 with db := db, cache := (w1.cache.invalidate ("employee_" ++ id)).invalidateAll })

/-- The shared body of `assignEmployeeToUser` and `updateUserRole`: guard, update, fail if the
user is unknown. -/
def updateUserGuarded {σ : Type} (S : Storage σ) (userId : String) (update : UserUpdate)
    (context : Context) (w : World σ) : Except JsError UserDoc × World σ :=
  let user := context.user
  match requireAuth user with
  | .error e => (.error e, w)
  | .ok _ =>
    match requireRole user (some ["ADMIN"]) with
    | .error e => (.error e, w)
    | .ok _ =>
      let w1 := w.call (.userFindByIdAndUpdate userId update)
      match S.userFindByIdAndUpdate userId update w1.db with
      | (.error e, db) => (.error e, { w1 with db := db })
      | (.ok none, db) => (.error (userNotFound userId), { w1 with db := db })
      | (.ok (some updatedUser), db) => (.ok updatedUser, { w1 with db := db })

/-- The source's `Mutation.assignEmployeeToUser`. -/
def Mutation.assignEmployeeToUser {σ : Type} (S : Storage σ) (userId employeeId : String)
    (context : Context) (w : World σ) : Except JsError UserDoc × World σ :=
  updateUserGuarded S userId (.employeeId employeeId) context w

/-- The source's `Mutation.updateUserRole`. -/
def Mutation.updateUserRole {σ : Type} (S : Storage σ) (userId role : String)
    (context : Context) (w : World σ) : Except JsError UserDoc × World σ :=
  updateUserGuarded S userId (.role role) context w

/-! ## Accounts (`auth.js` pre-save hook and `generateToken`, `resolvers.js` `login`, `register`) -/

/-- The source's
```
userSchema.pre('save', async function(next) {
  if (this.isModified('password')) this.password = await bcrypt.hash(this.password, 10);
  next();
});
```
`bcryptHash plain rounds` is `bcrypt.hash`. -/
def userPreSave (bcryptHash : String → Nat → String) (passwordModified : Bool)
    (doc : UserInput) : UserInput :=
  if passwordModified then { doc with password := bcryptHash doc.password 10 } else doc

/-- The source's
```
const generateToken = (userId) => jwt.sign({ userId }, process.env.JWT_SECRET, { expiresIn: '7d' });
```
`jwtSign userId expiresIn now` is `jwt.sign` under the configured secret, at time `now`. -/
def generateToken (jwtSign : ObjectId → String → Int → String) (userId : ObjectId) (now : Int) :
    String :=
  jwtSign userId "7d" now

/-- The object `login` and `register` return: `{ token, user }`. -/
structure AuthPayload where
  token : String
  user : UserDoc
  deriving DecidableEq, Repr

/-- An optional GraphQL argument as the resolver receives it: left out (`undefined`), given as an
explicit `null`, or given a value. -/
inductive JsArg (α : Type) where
  | undefined
  | null
  | value (a : α)
  deriving DecidableEq, Repr

/-- The value of a destructured parameter with a default (`{ role = 'EMPLOYEE' }`): the default
replaces `undefined` only; an explicit `null` stays `null` (`none`). -/
def JsArg.withDefault {α : Type} (d : α) : JsArg α → Option α
  | .undefined => some d
  | .null => none
  | .value a => some a

/-- The arguments of `register`. The schema declares `role: Role` (nullable), so the argument can
be left out, be `null`, or name a role. -/
structure RegisterArgs where
  username : String
  password : String
  email : String
  name : String
  role : JsArg String
  deriving DecidableEq, Repr

/-- The exception of `login` for an unknown user and for a wrong password alike. -/
def invalidCredentials : JsError := ⟨.AuthenticationError, "Invalid username or password"⟩

/-- The exception of `register` when a non-admin asks for the `ADMIN` role. -/
def onlyAdmins : JsError := ⟨.ForbiddenError, "Only admins can create admin accounts"⟩

/-- The exception of `register` for a taken username or email. -/
def alreadyInUse : JsError := ⟨.Error, "Username or email already in use"⟩

/-- The source's `Mutation.login`. `bcryptCompare plain digest` is `bcrypt.compare`. -/
def Mutation.login {σ : Type} (S : Storage σ) (bcryptCompare : String → String → Bool)
    (jwtSign : ObjectId → String → Int → String) (username password : String) (now : Int)
    (w : World σ) : Except JsError AuthPayload × World σ :=
  let w1 := w.call (.userFindOne (.byUsername username))
  match S.userFindOne (.byUsername username) w1.db with
  | .error e => (.error e, w1)
  | .ok none => (.error invalidCredentials, w1)
  | .ok (some user) =>
    let valid := bcryptCompare password user.password
    if !valid then (.error invalidCredentials, w1)
    else
      let token := generateToken jwtSign user._id now
      (.ok ⟨token, user⟩, w1)

/-- The admin check at the head of `register`:
```
if (role === 'ADMIN') { if (!user || user.role !== 'ADMIN') throw new ForbiddenError(...); }
```
-/
def registerAdminCheck (role : Option String) (user : Option UserDoc) : Except JsError Unit :=
  if role = some "ADMIN" then
    match user with
    | none => .error onlyAdmins
    | some u => if u.role ≠ "ADMIN" then .error onlyAdmins else .ok ()
  else .ok ()

/-- The source's `Mutation.register`. -/
def Mutation.register {σ : Type} (S : Storage σ) (bcryptHash : String → Nat → String)
    (jwtSign : ObjectId → String → Int → String) (args : RegisterArgs) (context : Context)
    (now : Int) (w : World σ) : Except JsError AuthPayload × World σ :=
  let role := args.role.withDefault "EMPLOYEE"
  match registerAdminCheck role context.user with
  | .error e => (.error e, w)
  | .ok _ =>
    let w1 := w.call (.userFindOne (.byUsernameOrEmail args.username args.email))
    match S.userFindOne (.byUsernameOrEmail args.username args.email) w1.db with
    | .error e => (.error e, w1)
    | .ok (some _) => (.error alreadyInUse, w1)
    | .ok none =>
      let fields : UserInput := ⟨args.username, args.password, args.email, args.name, role⟩
      let w2 := w1.call (.userCreate fields)
      match S.userCreate (userPreSave bcryptHash true) fields w2.db with
      | (.error e, db) => (.error e, { w2 with db := db })
      | (.ok newUser, db) =>
        let token := generateToken jwtSign newUser._id now
        (.ok ⟨token, newUser⟩, { w2 with db := db })

/-! ## Authentication of a request (`auth.js` `authenticate`, `resolvers.js` `Query.me`) -/

/-- The part of the HTTP request `authenticate` reads: `req.headers.authorization`. -/
structure Request where
  authorization : Option String
  deriving DecidableEq, Repr

/-- The decoded payload of a token as far as `authenticate` reads it: `decoded.userId`. -/
structure JwtPayload where
  userId : Option String
  deriving DecidableEq, Repr

/-- The source's
```
const token = authHeader.startsWith('Bearer ') ? authHeader.substring(7) : '';
```
The seven characters of the prefix are ASCII, so `substring(7)` drops seven characters. -/
def bearerToken (authHeader : String) : String :=
  if "Bearer ".toList.isPrefixOf authHeader.toList then String.mk (authHeader.toList.drop 7)
  else ""

/-- The source's `authenticate`. Both `try` blocks end in `catch { return null }`, so every
exception (of `jwt.verify`, of the store) becomes `null`. `jwtVerify token now` is
`jwt.verify(token, process.env.JWT_SECRET)` at time `now`. -/
def authenticate {σ : Type} (S : Storage σ) (jwtVerify : String → Int → Except JsError JwtPayload)
    (req : Request) (now : Int) (w : World σ) : Option UserDoc × World σ :=
  let authHeader := if truthy req.authorization then req.authorization.getD "" else ""
  let token := bearerToken authHeader
  if token = "" then (none, w)
  else
    match jwtVerify token now with
    | .error _ => (none, w)
    | .ok decoded =>
      let w1 := w.call (.userFindById decoded.userId)
      match S.userFindById decoded.userId w1.db with
      | .error _ => (none, w1)
      | .ok user => (user, w1)

/-- The source's `Query.me`: `requireAuth(user); return user;`. -/
def Query.me {σ : Type} (context : Context) (w : World σ) : Except JsError UserDoc × World σ :=
  match requireAuth context.user with
  | .error e => (.error e, w)
  | .ok user => (.ok user, w)

/-- Seven days in milliseconds: the `expiresIn: '7d'` of `generateToken`. -/
def sevenDays : Int := 7 * 24 * 60 * 60 * 1000

/-- The error of `jwt.verify` for a token past its expiry. -/
def tokenExpired : JsError := ⟨.external "TokenExpiredError", "jwt expired"⟩

/-- Modelled from the spec: the Token Service (the `jsonwebtoken` library, an external
collaborator) as far as one token goes. "`issue(userId)`: signs `{userId}` with a server-held
secret, expiry = now + 7 days"; "`verify(token) -> userId | fails`: fails ... on ... expiry
elapsed". The token issued for `userId` at time `t0` with `expiresIn = '7d'` is not empty, and
verifying it at time `now` gives the payload `{ userId }` while less than seven days have
elapsed and throws afterwards. -/
def TokenContract (jwtSign : ObjectId → String → Int → String)
    (jwtVerify : String → Int → Except JsError JwtPayload) (userId : ObjectId) (t0 : Int) : Prop :=
  jwtSign userId "7d" t0 ≠ "" ∧
  ∀ now : Int, jwtVerify (jwtSign userId "7d" t0) now =
    if now - t0 < sevenDays then .ok ⟨some userId.toString⟩ else .error tokenExpired

/-! ## The server (`server.js`): rate limiter, rate-limit middleware, `formatError` -/

/-- What the rate limiter keeps for an ip: `{ count, timestamp }`. -/
structure RateEntry where
  count : Nat
  timestamp : Int
  deriving DecidableEq, Repr

/-- The state of the `rateLimiter` object: its `requests` map. -/
structure RateLimiter where
  requests : JsMap RateEntry
  deriving DecidableEq, Repr

namespace RateLimiter

/-- The field `resetTime: 60000`. -/
def resetTime : Int := 60000

/-- The field `limit: 1000`. -/
def limit : Nat := 1000

/-- The source's
```
isRateLimited(ip) {
  const now = Date.now();
  const userRequests = this.requests.get(ip) || { count: 0, timestamp: now };
  if (now - userRequests.timestamp > this.resetTime) {
    userRequests.count = 1;
    userRequests.timestamp = now;
  } else {
    userRequests.count += 1;
  }
  this.requests.set(ip, userRequests);
  return userRequests.count > this.limit;
}
```
-/
def isRateLimited (rl : RateLimiter) (ip : String) (now : Int) : Bool × RateLimiter :=
  let userRequests : RateEntry := (JsMap.get rl.requests ip).getD ⟨0, now⟩
  let updated : RateEntry :=
    if now - userRequests.timestamp > resetTime then ⟨1, now⟩
    else ⟨userRequests.count + 1, userRequests.timestamp⟩
  (decide (updated.count > limit), ⟨JsMap.set rl.requests ip updated⟩)

/-- The limiter after a sequence of calls `isRateLimited(ip)` at the given times, oldest first. -/
def runCalls (rl : RateLimiter) (calls : List (String × Int)) : RateLimiter :=
  calls.foldl (fun r c => (r.isRateLimited c.1 c.2).2) rl

end RateLimiter

/-- The fixed window in the specification's words, for the calls of one ip: the state is the
start of the current window and the number of calls in it. "A window starts at the first call
for the ip", and "a new window starts (count reset to 1) at the first call made more than 60000
ms after the current window's start"; any other call is one more call of the current window. -/
def windowStep (window : Option (Int × Nat)) (t : Int) : Int × Nat :=
  match window with
  | none => (t, 1)
  | some (start, calls) => if t - start > 60000 then (t, 1) else (start, calls + 1)

/-- The window after the calls of one ip at the given times, oldest first. -/
def windowAfter (times : List Int) : Option (Int × Nat) :=
  times.foldl (fun window t => some (windowStep window t)) none

/-- The times of the calls for one ip in a sequence of calls, in order. -/
def timesOf (ip : String) (calls : List (String × Int)) : List Int :=
  (calls.filter (fun c => decide (c.1 = ip))).map (fun c => c.2)

/-- The error the middleware throws for a limited ip. -/
def rateLimitExceeded : JsError := ⟨.Error, "Rate limit exceeded. Please try again later."⟩

/-- The source's `error.message.includes('Rate limit')`. -/
def mentionsRateLimit (error : JsError) : Bool :=
  decide ("Rate limit".toList <:+: error.message.toList)

/-- The source's
```
const rateLimitMiddleware = async (resolve, root, args, context, info) => {
  try {
    const ip = context?.req?.ip || '127.0.0.1';
    if (rateLimiter.isRateLimited(ip)) throw new Error('Rate limit exceeded. ...');
    return await resolve(root, args, context, info);
  } catch (error) {
    if (error.message.includes('Rate limit')) throw error;
    return await resolve(root, args, context, info);
  }
};
```
`resolve` is the wrapped resolver as a function on the state `τ` it runs in; `ip` is
`context?.req?.ip`. A rejection of `await resolve(...)` inside the `try` lands in the `catch`. -/
def rateLimitMiddleware {τ α : Type} (resolve : τ → Except JsError α × τ) (ip : Option String)
    (now : Int) (rl : RateLimiter) (s : τ) : Except JsError α × RateLimiter × τ :=
  let ip := if truthy ip then ip.getD "" else "127.0.0.1"
  match rl.isRateLimited ip now with
  | (true, rl1) =>
    if mentionsRateLimit rateLimitExceeded then (.error rateLimitExceeded, rl1, s)
    else
      match resolve s with
      | (r, s1) => (r, rl1, s1)
  | (false, rl1) =>
    match resolve s with
    | (.ok v, s1) => (.ok v, rl1, s1)
    | (.error error, s1) =>
      if mentionsRateLimit error then (.error error, rl1, s1)
      else
        match resolve s1 with
        | (r, s2) => (r, rl1, s2)

/-- The `extensions` object of a GraphQL error as far as `formatError` reads it: its `code`. -/
structure GraphQLExtensions where
  code : Option String
  deriving DecidableEq, Repr

/-- A GraphQL error as `formatError` sees it: its message and its `extensions`, if any. The error
`new Error(msg)` has no extensions. -/
structure GraphQLError where
  message : String
  extensions : Option GraphQLExtensions
  deriving DecidableEq, Repr

/-- The source's `error.extensions?.code`. -/
def GraphQLError.code (error : GraphQLError) : Option String :=
  match error.extensions with
  | none => none
  | some ext => ext.code

/-- The source's
```
formatError: (error) => {
  if (error.extensions?.code === 'INTERNAL_SERVER_ERROR') return new Error('Internal server error');
  return error;
}
```
-/
def formatError (error : GraphQLError) : GraphQLError :=
  if error.code = some "INTERNAL_SERVER_ERROR" then ⟨"Internal server error", none⟩
  else error

/-! ## A reference document store -/

/-- The state of the reference store: the two collections in insertion order, a counter for fresh
ids and the store's clock (for `createdAt` / `updatedAt`). -/
structure MemDb where
  employees : List EmployeeDoc
  users : List UserDoc
  nextId : Nat
  clock : Int
  deriving DecidableEq, Repr

namespace MemDb

/-- Whether a document passes a filter; `test re name` is the store's regular-expression match. -/
def selects (test : RegExp → String → Bool) (filter : EmployeeFilter) (d : EmployeeDoc) : Bool :=
  match filter.name with
  | none => true
  | some re => test re d.name

/-- Order on optional values with the missing value first. -/
def optLe {α : Type} (le : α → α → Bool) : Option α → Option α → Bool
  | none, _ => true
  | some _, none => false
  | some x, some y => le x y

/-- Ascending order of two documents on a sort field; on an unknown field all documents tie. -/
def fieldLe (field : String) (a b : EmployeeDoc) : Bool :=
  if field = "name" then decide (¬ b.name < a.name)
  else if field = "age" then optLe (fun x y => decide (x ≤ y)) a.age b.age
  else if field = "class" then optLe (fun x y => decide (¬ y < x)) a.class_ b.class_
  else if field = "attendance" then optLe (fun x y => decide (x ≤ y)) a.attendance b.attendance
  else if field = "createdAt" then decide (a.createdAt ≤ b.createdAt)
  else if field = "updatedAt" then decide (a.updatedAt ≤ b.updatedAt)
  else true

/-- The clause `.sort({ [field]: dir })`: a stable sort, descending when `dir` is `-1`. -/
def sortDocs (field : String) (dir : Int) (docs : List EmployeeDoc) : List EmployeeDoc :=
  List.insertionSort
    (fun a b => (if dir = -1 then fieldLe field b a else fieldLe field a b) = true) docs

/-- The clause `.limit(limit)`: `0` is no limit, a negative limit counts as its absolute value. -/
def applyLimit (limit : Int) (docs : List EmployeeDoc) : List EmployeeDoc :=
  if limit = 0 then docs else docs.take limit.natAbs

/-- The error of the store for a negative skip. -/
def badSkip : JsError := ⟨.external "MongoServerError", "Skip value must be non-negative"⟩

/-- The validation error of the store for a missing (empty) required `name`. -/
def nameRequired : JsError := ⟨.external "ValidationError", "Path name is required."⟩

/-- Apply the given fields of an update to a document. -/
def applyUpdates (d : EmployeeDoc) (u : EmployeeUpdates) (now : Int) : EmployeeDoc :=
  { d with
    name := u.name.getD d.name
    age := u.age.orElse (fun _ => d.age)
    class_ := u.class_.orElse (fun _ => d.class_)
    subjects := u.subjects.getD d.subjects
    attendance := u.attendance.orElse (fun _ => d.attendance)
    updatedAt := now }

/-- Apply a user update document. -/
def applyUserUpdate (u : UserDoc) (upd : UserUpdate) (now : Int) : UserDoc :=
  match upd with
  | .employeeId e => { u with employeeId := some ⟨e⟩, updatedAt := now }
  | .role r => { u with role := r, updatedAt := now }

/-- Whether a user passes a filter. -/
def selectsUser (filter : UserFilter) (u : UserDoc) : Bool :=
  match filter.role with
  | none => true
  | some r => u.role = r

/-- Whether a user meets the conditions of a `findOne`. -/
def matchesUser (query : UserQuery) (u : UserDoc) : Bool :=
  match query with
  | .byUsername username => u.username = username
  | .byUsernameOrEmail username email => u.username = username || u.email = email

/-- The schema's `role: { enum: ['ADMIN', 'EMPLOYEE'] }`. -/
def roleEnum : List String := ["ADMIN", "EMPLOYEE"]

/-- The validation error of the store for a role outside the enum. -/
def roleInvalid : JsError := ⟨.external "ValidationError", "role is not a valid enum value"⟩

/-- The validation error of the store for a missing (empty) required path of a user: `username`,
`password`, `email` and `name` are `required: true` in `userSchema`. -/
def userRequired : JsError :=
  ⟨.external "ValidationError", "User validation failed: a required path is missing"⟩

/-- The `required: true` validators of `userSchema`: `username`, `password`, `email` and `name`
are not empty. They run before the pre-save hook, on the password as given. -/
def requiredPresent (fields : UserInput) : Bool :=
  fields.username != "" && fields.password != "" && fields.email != "" && fields.name != ""

/-- The error of the store for a violated unique index (`username`, `email`). -/
def duplicateKey : JsError := ⟨.external "MongoServerError", "E11000 duplicate key error"⟩

end MemDb

/-- Modelled from the spec: the document store is an external collaborator "providing
find/sort/skip/limit/count/insert/update/delete by id and by filter"; a page is the sorted list of
the matching records with the first `skip` dropped and at most `limit` taken. This is that store
over in-memory lists, with the validations of the two schemas: `name` is required for an
employee; for a user `username`, `password`, `email` and `name` are required (an empty text does
not pass `required: true`), "`role` is one of the two enumerated values" (a `null` role is not),
and `create(fields)` fails "if `username` or `email` already in use". `test` is the store's
regular-expression match. -/
def memStorage (test : RegExp → String → Bool) : Storage MemDb where
  countDocuments filter db := .ok (db.employees.filter (MemDb.selects test filter)).length
  find filter field dir skip limit db :=
    if skip < 0 then .error MemDb.badSkip
    else .ok (MemDb.applyLimit limit
      ((MemDb.sortDocs field dir (db.employees.filter (MemDb.selects test filter))).drop
        skip.toNat))
  findById id db := .ok (db.employees.find? (fun d => decide (d._id.toString = id)))
  save args db :=
    if args.name = "" then (.error MemDb.nameRequired, db)
    else
      let doc : EmployeeDoc :=
        { _id := ⟨toString db.nextId⟩
          name := args.name
          age := args.age
          class_ := args.class_
          subjects := args.subjects.getD []
          attendance := args.attendance
          createdAt := db.clock
          updatedAt := db.clock }
      (.ok doc, { db with employees := db.employees ++ [doc], nextId := db.nextId + 1 })
  findByIdAndUpdate id updates db :=
    match db.employees.find? (fun d => decide (d._id.toString = id)) with
    | none => (.ok none, db)
    | some d =>
      if updates.name = some "" then (.error MemDb.nameRequired, db)
      else
        let d1 := MemDb.applyUpdates d updates db.clock
        (.ok (some d1),
          { db with
            employees := db.employees.map (fun x => if x._id.toString = id then d1 else x) })
  findByIdAndDelete id db :=
    match db.employees.find? (fun d => decide (d._id.toString = id)) with
    | none => (.ok none, db)
    | some d =>
      (.ok (some d),
        { db with employees := db.employees.filter (fun x => decide (x._id.toString ≠ id)) })
  userFind filter db := .ok (db.users.filter (MemDb.selectsUser filter))
  userFindByIdAndUpdate userId update db :=
    match db.users.find? (fun u => decide (u._id.toString = userId)) with
    | none => (.ok none, db)
    | some u =>
      let u1 := MemDb.applyUserUpdate u update db.clock
      (.ok (some u1),
        { db with users := db.users.map (fun x => if x._id.toString = userId then u1 else x) })
  userFindOne query db := .ok (db.users.find? (MemDb.matchesUser query))
  userCreate preSave fields db :=
    if !MemDb.requiredPresent fields then (.error MemDb.userRequired, db)
    else
      match fields.role with
      | none => (.error MemDb.roleInvalid, db)
      | some role =>
        if role ∉ MemDb.roleEnum then (.error MemDb.roleInvalid, db)
        else if db.users.any (fun x => x.username = fields.username || x.email = fields.email) then
          (.error MemDb.duplicateKey, db)
        else
          let saved := preSave fields
          let doc : UserDoc :=
            { _id := ⟨toString db.nextId⟩
              username := saved.username
              password := saved.password
              role := saved.role.getD role
              email := saved.email
              name := saved.name
              employeeId := none
              createdAt := db.clock
              updatedAt := db.clock }
          (.ok doc, { db with users := db.users ++ [doc], nextId := db.nextId + 1 })
  userFindById id db :=
    match id with
    | none => .ok none
    | some i => .ok (db.users.find? (fun u => decide (u._id.toString = i)))

/-! ## Sequential executions of the resolvers on the reference store -/

/-- The external primitives a run of the resolvers uses: the store's matcher, the `RegExp`
constructor, `bcrypt.hash`, `bcrypt.compare` and `jwt.sign`. -/
structure Env where
  test : RegExp → String → Bool
  newRegExp : String → String → Except JsError RegExp
  bcryptHash : String → Nat → String
  bcryptCompare : String → String → Bool
  jwtSign : ObjectId → String → Int → String

/-- One invocation of a resolver, with its arguments, its context and the times it reads. -/
inductive Op where
  | employees (args : EmployeesArgs) (context : Option Context) (now later : Int)
  | employee (id : String) (now later : Int)
  | me (context : Context)
  | users (role : Option String) (context : Context)
  | addEmployee (args : EmployeeInput) (context : Option Context)
  | updateEmployee (id : String) (updates : EmployeeUpdates) (context : Option Context)
  | deleteEmployee (id : String) (context : Context)
  | login (username password : String) (now : Int)
  | register (args : RegisterArgs) (context : Context) (now : Int)
  | assignEmployeeToUser (userId employeeId : String) (context : Context)
  | updateUserRole (userId role : String) (context : Context)

/-- The caller of an invocation: `context.user` (`login`, and `employee`, which reads no
context, have none). -/
def Op.caller : Op → Option UserDoc
  | .employees _ context _ _ => contextUser context
  | .employee _ _ _ => none
  | .me context => context.user
  | .users _ context => context.user
  | .addEmployee _ context => contextUser context
  | .updateEmployee _ _ context => contextUser context
  | .deleteEmployee _ context => context.user
  | .login _ _ _ => none
  | .register _ context _ => context.user
  | .assignEmployeeToUser _ _ context => context.user
  | .updateUserRole _ _ context => context.user

/-- The world after one invocation has run to completion, successfully or with failure. -/
def Op.run (env : Env) (op : Op) (w : World MemDb) : World MemDb :=
  match op with
  | .employees args context now later =>
    (Query.employees (memStorage env.test) env.newRegExp args context now later w).2
  | .employee id now later => (Query.employee (memStorage env.test) id now later w).2
  | .me context => (Query.me context w).2
  | .users role context => (Query.users (memStorage env.test) role context w).2
  | .addEmployee args context => (Mutation.addEmployee (memStorage env.test) args context w).2
  | .updateEmployee id updates context =>
    (Mutation.updateEmployee (memStorage env.test) id updates context w).2
  | .deleteEmployee id context => (Mutation.deleteEmployee (memStorage env.test) id context w).2
  | .login username password now =>
    (Mutation.login (memStorage env.test) env.bcryptCompare env.jwtSign username password now w).2
  | .register args context now =>
    (Mutation.register (memStorage env.test) env.bcryptHash env.jwtSign args context now w).2
  | .assignEmployeeToUser userId employeeId context =>
    (Mutation.assignEmployeeToUser (memStorage env.test) userId employeeId context w).2
  | .updateUserRole userId role context =>
    (Mutation.updateUserRole (memStorage env.test) userId role context w).2

/-- The world after a sequence of invocations, each running to completion before the next. -/
def runOps (env : Env) (ops : List Op) (w : World MemDb) : World MemDb :=
  ops.foldl (fun v op => op.run env v) w

/-- What a fresh store query for the listing arguments returns on a store: `employees` on an
empty cache. -/
def freshEmployees (env : Env) (args : EmployeesArgs) (db : MemDb) : Except JsError Payload :=
  (Query.employees (memStorage env.test) env.newRegExp args (some ⟨none⟩) 0 0
    ⟨db, Cache.empty, []⟩).1

/-- What a fresh store query for an id returns on a store: `employee` on an empty cache. -/
def freshEmployee (env : Env) (id : String) (db : MemDb) : Except JsError (Option Payload) :=
  (Query.employee (memStorage env.test) id 0 0 ⟨db, Cache.empty, []⟩).1

/-- Cache coherence after the invocations `ran`: every cache entry was stored by one of them, an
`employees` under the key of its arguments or an `employee` under the key of its id, at the time
of that invocation's `cache.set`, and holds the payload a fresh store query for those arguments
(that id) returns on the current store. -/
def Coherent (env : Env) (ran : List Op) (w : World MemDb) : Prop :=
  ∀ (key : String) (entry : CacheEntry Payload), w.cache.entry key = some entry →
    (∃ (args : EmployeesArgs) (context : Option Context) (now later : Int),
      Op.employees args context now later ∈ ran ∧ key = args.cacheKey ∧
      entry.timestamp = later ∧ freshEmployees env args w.db = .ok entry.value) ∨
    (∃ (id : String) (now later : Int),
      Op.employee id now later ∈ ran ∧ key = "employee_" ++ id ∧
      entry.timestamp = later ∧ freshEmployee env id w.db = .ok (some entry.value))

/-- The users of the store whose role is `ADMIN`. -/
def admins (db : MemDb) : List UserDoc :=
  db.users.filter (fun u => decide (u.role = "ADMIN"))

/-! ## Regular expressions: a fragment

`new RegExp(filterName, 'i')` is evaluated by the JavaScript runtime and the match by the store.
Both are parameters of the model (`newRegExp`, `test`). The definitions below give their
behaviour on a fragment on which the two engines agree: patterns made of ordinary printable ASCII
characters, `.` and parentheses, matched against names of printable ASCII characters. -/

/-- The syntax characters of a pattern: `^ $ . * + ? ( ) [ ] |`, the backslash and the braces. -/
def regExpSyntaxChars : List Char :=
  "^$.*+?()[]|".toList ++ [Char.ofNat 92, Char.ofNat 123, Char.ofNat 125]

/-- An ordinary pattern character: printable ASCII, not a syntax character. It matches itself. -/
def isOrdinaryChar (c : Char) : Bool :=
  decide (32 ≤ c.toNat) && decide (c.toNat ≤ 126) && !regExpSyntaxChars.contains c

/-- Whether a pattern source lies in the fragment. -/
def inFragment (source : String) : Bool :=
  source.toList.all (fun c => isOrdinaryChar c || c == '.' || c == '(' || c == ')')

/-- Whether the parentheses of a pattern are balanced, `depth` groups being open. -/
def parensBalanced : List Char → Nat → Bool
  | [], depth => depth == 0
  | c :: cs, depth =>
    if c = '(' then parensBalanced cs (depth + 1)
    else if c = ')' then
      match depth with
      | 0 => false
      | d + 1 => parensBalanced cs d
    else parensBalanced cs depth

/-- The `SyntaxError` of the `RegExp` constructor (the engine appends its reason to the message). -/
def invalidRegExp (source : String) : JsError :=
  ⟨.SyntaxError, "Invalid regular expression: /" ++ source ++ "/"⟩

/-- The constructor `new RegExp(source, flags)` on the fragment: an unterminated group or an
unmatched `)` is a `SyntaxError`. -/
def fragmentNewRegExp (source flags : String) : Except JsError RegExp :=
  if parensBalanced source.toList 0 then .ok ⟨source, flags⟩ else .error (invalidRegExp source)

/-- The code of a character with the ASCII capitals `A`-`Z` folded onto `a`-`z`. -/
def foldCase (c : Char) : Nat :=
  if 65 ≤ c.toNat ∧ c.toNat ≤ 90 then c.toNat + 32 else c.toNat

/-- Whether one pattern character matches one character of the subject: `.` matches every
character but a line feed; an ordinary character matches itself, up to ASCII case when
`ignoreCase`. -/
def atomMatches (ignoreCase : Bool) (p c : Char) : Bool :=
  if p = '.' then c != Char.ofNat 10
  else if ignoreCase then foldCase p == foldCase c
  else p == c

/-- Whether the pattern matches a prefix of the subject. -/
def matchesAt (ignoreCase : Bool) : List Char → List Char → Bool
  | [], _ => true
  | _ :: _, [] => false
  | p :: ps, c :: cs => atomMatches ignoreCase p c && matchesAt ignoreCase ps cs

/-- Whether the pattern matches somewhere in the subject (an unanchored search). -/
def searchFrom (ignoreCase : Bool) (pat : List Char) : List Char → Bool
  | [] => matchesAt ignoreCase pat []
  | c :: cs => matchesAt ignoreCase pat (c :: cs) || searchFrom ignoreCase pat cs

/-- The match of a regular expression of the fragment against a name: groups only bracket a
sequence, so the pattern is its characters without the parentheses; the flag `i` ignores case. -/
def fragmentTest (re : RegExp) (name : String) : Bool :=
  searchFrom (re.flags.toList.contains 'i')
    (re.source.toList.filter (fun c => c != '(' && c != ')')) name.toList

/-- The text `filterName` occurs in `name` as a substring, ASCII case ignored. -/
def occursIgnoringCase (filterName name : String) : Prop :=
  filterName.toList.map foldCase <:+: name.toList.map foldCase

/-- Modelled from the spec: "`filterName`, if present, performs a case-insensitive substring match
against `name`". The regular-expression engines (the `RegExp` constructor of the runtime and the
matcher of the store) are external collaborators; this is what the sentence asks of them for a
text of ordinary characters: the constructor accepts the text, and the expression it builds
matches a name exactly when the text occurs in the name, ASCII case ignored. -/
def LiteralContract (newRegExp : String → String → Except JsError RegExp)
    (test : RegExp → String → Bool) : Prop :=
  ∀ source : String, source.toList.all isOrdinaryChar = true →
    ∃ re : RegExp, newRegExp source "i" = .ok re ∧
      ∀ name : String, test re name = true ↔ occursIgnoringCase source name

/-! ## Sample data -/

/-- A sample administrator. -/
def sampleAdmin : UserDoc :=
  ⟨⟨"u0"⟩, "admin", "digest", "ADMIN", "admin@x.com", "Admin", none, 0, 0⟩

/-- A sample employee record. -/
def sampleAlice : EmployeeDoc :=
  ⟨⟨"0"⟩, "Alice", some 41, some "A", ["maths"], some 88, 0, 0⟩

/-- A sample store: one employee, one administrator. -/
def sampleDb : MemDb := ⟨[sampleAlice], [sampleAdmin], 1, 0⟩

/-- A sample `RegExp` constructor: accepts every source. -/
def sampleNewRegExp (source flags : String) : Except JsError RegExp := .ok ⟨source, flags⟩

/-- A sample matcher for the reference store: the name equals the source up to ASCII case. -/
def sampleTest (re : RegExp) (name : String) : Bool := re.source.toLower == name.toLower

/-- The default arguments of `Query.employees`: none given. -/
def noArgs : EmployeesArgs := ⟨none, none, none, none, none⟩

/-- The page `Query.employees` computes for `noArgs` on `sampleDb`. -/
def samplePage : Payload :=
  .page ⟨[formatEmployee sampleAlice], mkPageInfo 1 10 1⟩

/-- A sample digest function standing for `bcrypt.hash`. -/
def sampleHash (plain : String) (rounds : Nat) : String :=
  "digest-" ++ toString rounds ++ "-" ++ plain

/-- A sample verifier standing for `bcrypt.compare`, matching `sampleHash` at cost 10. -/
def sampleCompare (plain digest : String) : Bool := digest == sampleHash plain 10

/-- A sample signer standing for `jwt.sign`. -/
def sampleSign (userId : ObjectId) (expiresIn : String) (now : Int) : String :=
  "jwt-" ++ userId.hex ++ "-" ++ expiresIn ++ "-" ++ toString now

/-- Sample registration arguments: scenario A of the specification. -/
def aliceArgs : RegisterArgs := ⟨"alice", "secret1", "a@x.com", "Alice", .undefined⟩

/-- A sample verifier standing for `jwt.verify`: it knows the one token that `sampleSign` issued
to the sample administrator at time `0`, and rejects every other text. -/
def sampleVerify (token : String) (now : Int) : Except JsError JwtPayload :=
  if token = sampleSign sampleAdmin._id "7d" 0 then
    if now - 0 < sevenDays then .ok ⟨some sampleAdmin._id.toString⟩ else .error tokenExpired
  else .error ⟨.external "JsonWebTokenError", "invalid token"⟩

/-- Sample listing arguments: sort by `name`, order `asc`, filter `x_li`. -/
def keyArgsA : EmployeesArgs := ⟨none, none, some "name", some "asc", some "x_li"⟩

/-- Sample listing arguments: sort by `name`, order `asc_x`, filter `li`. -/
def keyArgsB : EmployeesArgs := ⟨none, none, some "name", some "asc_x", some "li"⟩

/-- The page of a query that selects nothing, with the default `page` and `limit`. -/
def emptyPage : Payload := .page ⟨[], mkPageInfo 1 10 0⟩

/-- Sample primitives for a run of the resolvers. -/
def sampleEnv : Env := ⟨sampleTest, sampleNewRegExp, sampleHash, sampleCompare, sampleSign⟩

/-- A sample user whose role is not `ADMIN`. -/
def sampleClerk : UserDoc :=
  ⟨⟨"u1"⟩, "clerk", "digest", "EMPLOYEE", "clerk@x.com", "Clerk", none, 0, 0⟩

/-! ## Lemmas on the `Map` model -/

namespace JsMap

variable {β : Type}

theorem get_set_self (m : JsMap β) (k : String) (v : β) : get (set m k v) k = some v := by
  induction m with
  | nil => simp [set, get]
  | cons p rest ih =>
    obtain ⟨k1, v1⟩ := p
    by_cases h : k1 = k
    · simp [set, get, h]
    · simp [set, get, h, ih]

theorem get_set_other (m : JsMap β) (k k2 : String) (v : β) (hne : k2 ≠ k) :
    get (set m k v) k2 = get m k2 := by
  induction m with
  | nil => simp [set, get, Ne.symm hne]
  | cons p rest ih =>
    obtain ⟨k1, v1⟩ := p
    by_cases h : k1 = k
    · subst h
      simp [set, get, Ne.symm hne]
    · by_cases h2 : k1 = k2
      · subst h2
        simp [set, get, h]
      · simp [set, get, h, h2, ih]

theorem get_delete_self (m : JsMap β) (k : String) : get (delete m k) k = none := by
  induction m with
  | nil => simp [delete, get]
  | cons p rest ih =>
    obtain ⟨k1, v1⟩ := p
    by_cases h : k1 = k
    · simp [delete, h, ih]
    · simp [delete, get, h, ih]

theorem get_delete_other (m : JsMap β) (k k2 : String) (hne : k2 ≠ k) :
    get (delete m k) k2 = get m k2 := by
  induction m with
  | nil => simp [delete, get]
  | cons p rest ih =>
    obtain ⟨k1, v1⟩ := p
    by_cases h : k1 = k
    · subst h
      simp [delete, get, Ne.symm hne, ih]
    · by_cases h2 : k1 = k2
      · subst h2
        simp [delete, get, h]
      · simp [delete, get, h, h2, ih]

theorem delete_eq_filter (m : JsMap β) (k : String) :
    delete m k = m.filter (fun p => decide (p.1 ≠ k)) := by
  induction m with
  | nil => simp [delete]
  | cons p rest ih =>
    obtain ⟨k1, v1⟩ := p
    by_cases h : k1 = k
    · simp [delete, h, ih]
    · simp [delete, h, ih]

theorem delete_of_get_none (m : JsMap β) (k : String) (h : get m k = none) : delete m k = m := by
  induction m with
  | nil => simp [delete]
  | cons p rest ih =>
    obtain ⟨k1, v1⟩ := p
    by_cases h1 : k1 = k
    · simp [get, h1] at h
    · simp [get, h1] at h
      simp [delete, h1, ih h]

theorem delete_delete (m : JsMap β) (k : String) : delete (delete m k) k = delete m k :=
  delete_of_get_none _ _ (get_delete_self m k)

end JsMap

/-! ## Access control -/

/-- **C2.** For a present user and a non-empty list of allowed roles, `requireRole` returns that
same user exactly when the user's role is in the list, and otherwise throws the `ForbiddenError`. -/
theorem requireRole_nonempty (u : UserDoc) (roles : List String) (hne : roles ≠ []) :
    (requireRole (some u) (some roles) = .ok (some u) ↔ u.role ∈ roles) ∧
    (u.role ∉ roles → requireRole (some u) (some roles) = .error noPermission) ∧
    noPermission.cls = .ForbiddenError := by
  have hlen : roles.length ≠ 0 := by
    intro h
    exact hne (List.length_eq_zero.mp h)
  refine ⟨?_, ?_, rfl⟩
  · by_cases hm : u.role ∈ roles
    · simp [requireRole, checkRole, hlen, hm]
    · simp [requireRole, checkRole, hlen, hm]
  · intro hm
    simp [requireRole, checkRole, hlen, hm]

/-- Witness for C2: an `EMPLOYEE` checked against `["ADMIN"]`. -/
theorem requireRole_nonempty_witness :
    (["ADMIN"] : List String) ≠ [] ∧
    ((requireRole (some ⟨⟨"u1"⟩, "eve", "x", "EMPLOYEE", "e@x.com", "Eve", none, 0, 0⟩)
        (some ["ADMIN"]) =
        .ok (some ⟨⟨"u1"⟩, "eve", "x", "EMPLOYEE", "e@x.com", "Eve", none, 0, 0⟩) ↔
      "EMPLOYEE" ∈ (["ADMIN"] : List String)) ∧
    ("EMPLOYEE" ∉ (["ADMIN"] : List String) →
      requireRole (some ⟨⟨"u1"⟩, "eve", "x", "EMPLOYEE", "e@x.com", "Eve", none, 0, 0⟩)
        (some ["ADMIN"]) = .error noPermission) ∧
    noPermission.cls = .ForbiddenError) :=
  ⟨by decide,
    requireRole_nonempty ⟨⟨"u1"⟩, "eve", "x", "EMPLOYEE", "e@x.com", "Eve", none, 0, 0⟩ ["ADMIN"]
      (by decide)⟩

/-- Counterexample for C3: with no user, `requireRole` throws even for an empty or absent list of
roles, so it does not pass for every user argument. -/
theorem requireRole_absent_user_throws :
    ¬ (∀ (user : Option UserDoc) (roles : Option (List String)),
        (roles = none ∨ roles = some []) → requireRole user roles = .ok user) := by
  intro h
  have h1 := h none (some []) (Or.inr rfl)
  simp [requireRole, checkRole] at h1

/-- **C3 (amended).** With an empty or absent list of roles `requireRole` passes for every present
user and returns that user; with no user it throws the `ForbiddenError` whatever the list is. -/
theorem requireRole_unrestricted :
    (∀ u : UserDoc, requireRole (some u) none = .ok (some u) ∧
      requireRole (some u) (some []) = .ok (some u)) ∧
    (∀ roles : Option (List String), requireRole none roles = .error noPermission) ∧
    noPermission.cls = .ForbiddenError := by
  refine ⟨fun u => ⟨?_, ?_⟩, fun roles => ?_, rfl⟩
  · simp [requireRole, checkRole]
  · simp [requireRole, checkRole]
  · simp [requireRole, checkRole]

/-- **C4.** `requireAuth` throws exactly when the user is absent, and what it throws is the
`AuthenticationError`; for a present user it returns that user. It is a function of its argument
alone: it reads and writes no state. -/
theorem requireAuth_spec :
    (∀ user : Option UserDoc, (∃ e, requireAuth user = .error e) ↔ user = none) ∧
    requireAuth none = .error notLoggedIn ∧
    notLoggedIn.cls = .AuthenticationError ∧
    (∀ u : UserDoc, requireAuth (some u) = .ok u) := by
  refine ⟨fun user => ?_, rfl, rfl, fun u => rfl⟩
  cases user with
  | none => simp [requireAuth]
  | some u => simp [requireAuth]

/-! ## The result cache -/

/-- **C5.** `cache.get(k)` at time `now`, with `ttl = 60000`: without an entry for `k` it returns
nothing and leaves the cache as it is; with an entry no older than `ttl` (the boundary
`now - timestamp = ttl` included) it returns the stored value and leaves the cache as it is; with
an older entry it returns nothing and the cache afterwards is the old one with the entry for `k`
removed, every other entry unchanged. -/
theorem cache_get_spec {α : Type} (c : Cache α) (k : String) (now : Int) :
    (Cache.ttl = 60000) ∧
    (c.entry k = none → c.get now k = (none, c)) ∧
    (∀ e, c.entry k = some e → now - e.timestamp ≤ Cache.ttl →
      c.get now k = (some e.value, c)) ∧
    (∀ e, c.entry k = some e → now - e.timestamp = Cache.ttl →
      c.get now k = (some e.value, c)) ∧
    (∀ e, c.entry k = some e → now - e.timestamp > Cache.ttl →
      (c.get now k).1 = none ∧
      (c.get now k).2.entry k = none ∧
      (∀ k2, k2 ≠ k → (c.get now k).2.entry k2 = c.entry k2) ∧
      (c.get now k).2.employees = c.employees.filter (fun p => decide (p.1 ≠ k))) := by
  refine ⟨rfl, ?_, ?_, ?_, ?_⟩
  · intro h
    simp only [Cache.entry] at h
    simp [Cache.get, h]
  · intro e h hle
    simp only [Cache.entry] at h
    simp [Cache.get, h, not_lt.mpr hle]
  · intro e h heq
    simp only [Cache.entry] at h
    simp [Cache.get, h, heq]
  · intro e h hgt
    simp only [Cache.entry] at h
    have hget : c.get now k = (none, ⟨JsMap.delete c.employees k⟩) := by
      simp [Cache.get, h, hgt]
    rw [hget]
    refine ⟨rfl, ?_, ?_, ?_⟩
    · exact JsMap.get_delete_self _ _
    · intro k2 hne
      exact JsMap.get_delete_other _ _ _ hne
    · exact JsMap.delete_eq_filter _ _

/-- **C6.** After `cache.set(k, v)` at time `t`, `cache.get(k)` at any time `t2` with
`t2 - t <= 60000` returns `v`, whatever the cache held under `k` before; the entry now stored is
`v` with timestamp `t`, and no other key's entry is changed. -/
theorem cache_get_after_set {α : Type} (c : Cache α) (k : String) (v : α) (t t2 : Int)
    (hle : t2 - t ≤ 60000) :
    ((c.set t k v).get t2 k).1 = some v ∧
    (c.set t k v).entry k = some ⟨v, t⟩ ∧
    (∀ k2, k2 ≠ k → (c.set t k v).entry k2 = c.entry k2) := by
  have hentry : JsMap.get (c.set t k v).employees k = some ⟨v, t⟩ := by
    simp [Cache.set, JsMap.get_set_self]
  refine ⟨?_, hentry, ?_⟩
  · simp [Cache.get, hentry, Cache.ttl, not_lt.mpr hle]
  · intro k2 hne
    simp [Cache.entry, Cache.set, JsMap.get_set_other _ _ _ _ hne]

/-- Witness for C6: an expired entry under the key is overwritten and read back at the end of the
window. -/
theorem cache_get_after_set_witness :
    (61000 : Int) - 1000 ≤ 60000 ∧
    ((((⟨[("k", ⟨1, -100000⟩)]⟩ : Cache Nat).set 1000 "k" 2).get 61000 "k").1 = some 2 ∧
    ((⟨[("k", ⟨1, -100000⟩)]⟩ : Cache Nat).set 1000 "k" 2).entry "k" = some ⟨2, 1000⟩ ∧
    (∀ k2, k2 ≠ "k" →
      ((⟨[("k", ⟨1, -100000⟩)]⟩ : Cache Nat).set 1000 "k" 2).entry k2 =
        (⟨[("k", ⟨1, -100000⟩)]⟩ : Cache Nat).entry k2)) :=
  ⟨by decide, cache_get_after_set ⟨[("k", ⟨1, -100000⟩)]⟩ "k" 2 1000 61000 (by decide)⟩

/-- **C9.** After `invalidateAll()` the cache has no entries, so `get` returns nothing for every
key at every time (and leaves the cache empty); and `invalidate(k)` followed by `invalidateAll()`
leaves the same cache as `invalidateAll()` alone. -/
theorem cache_invalidateAll_spec {α : Type} (c : Cache α) :
    c.invalidateAll.employees = [] ∧
    (∀ (k : String) (now : Int), c.invalidateAll.get now k = (none, c.invalidateAll)) ∧
    (∀ k : String, (c.invalidate k).invalidateAll = c.invalidateAll) := by
  refine ⟨rfl, ?_, ?_⟩
  · intro k now
    simp [Cache.get, Cache.invalidateAll, JsMap.clear, JsMap.get]
  · intro k
    rfl

/-- **C10.** `cache.invalidate(k)` removes the entry for `k`, leaves every other key's entry as it
was (the map is the old one with the pairs keyed `k` filtered out), is idempotent, and changes
nothing on a cache without an entry for `k`. It is total: it never throws. -/
theorem cache_invalidate_spec {α : Type} (c : Cache α) (k : String) :
    (c.invalidate k).entry k = none ∧
    (∀ k2, k2 ≠ k → (c.invalidate k).entry k2 = c.entry k2) ∧
    (c.invalidate k).employees = c.employees.filter (fun p => decide (p.1 ≠ k)) ∧
    (c.invalidate k).invalidate k = c.invalidate k ∧
    (c.entry k = none → c.invalidate k = c) := by
  refine ⟨?_, ?_, ?_, ?_, ?_⟩
  · exact JsMap.get_delete_self _ _
  · intro k2 hne
    exact JsMap.get_delete_other _ _ _ hne
  · exact JsMap.delete_eq_filter _ _
  · simp [Cache.invalidate, JsMap.delete_delete]
  · intro h
    simp only [Cache.entry] at h
    simp [Cache.invalidate, JsMap.delete_of_get_none _ _ h]

/-! ## Role gating of the admin-only resolvers -/

theorem requireRole_admin_of_not_admin (u : UserDoc) (h : u.role ≠ "ADMIN") :
    requireRole (some u) (some ["ADMIN"]) = .error noPermission := by
  simp [requireRole, checkRole, h]

theorem requireRole_admin_of_admin (u : UserDoc) (h : u.role = "ADMIN") :
    requireRole (some u) (some ["ADMIN"]) = .ok (some u) := by
  simp [requireRole, checkRole, h]

/-- **C1.** `addEmployee`, `updateEmployee`, `deleteEmployee`, `assignEmployeeToUser`,
`updateUserRole` and `Query.users`, for every argument, store, cache and call log: without a user
(also without a context, where the source reads `context?.user`) they throw the
`AuthenticationError`, with a user whose role is not `ADMIN` they throw the `ForbiddenError`, and
in both cases the world afterwards is the world before: no store call is issued, the store and
the cache are unchanged. -/
theorem admin_resolvers_reject {σ : Type} (S : Storage σ) (w : World σ) :
    notLoggedIn.cls = .AuthenticationError ∧ noPermission.cls = .ForbiddenError ∧
    (∀ (args : EmployeeInput) (id userId employeeId role : String) (updates : EmployeeUpdates)
        (filterRole : Option String),
      Mutation.addEmployee S args none w = (.error notLoggedIn, w) ∧
      Mutation.addEmployee S args (some ⟨none⟩) w = (.error notLoggedIn, w) ∧
      Mutation.updateEmployee S id updates none w = (.error notLoggedIn, w) ∧
      Mutation.updateEmployee S id updates (some ⟨none⟩) w = (.error notLoggedIn, w) ∧
      Mutation.deleteEmployee S id ⟨none⟩ w = (.error notLoggedIn, w) ∧
      Mutation.assignEmployeeToUser S userId employeeId ⟨none⟩ w = (.error notLoggedIn, w) ∧
      Mutation.updateUserRole S userId role ⟨none⟩ w = (.error notLoggedIn, w) ∧
      Query.users S filterRole ⟨none⟩ w = (.error notLoggedIn, w)) ∧
    (∀ (u : UserDoc), u.role ≠ "ADMIN" →
      ∀ (args : EmployeeInput) (id userId employeeId role : String) (updates : EmployeeUpdates)
        (filterRole : Option String),
      Mutation.addEmployee S args (some ⟨some u⟩) w = (.error noPermission, w) ∧
      Mutation.updateEmployee S id updates (some ⟨some u⟩) w = (.error noPermission, w) ∧
      Mutation.deleteEmployee S id ⟨some u⟩ w = (.error noPermission, w) ∧
      Mutation.assignEmployeeToUser S userId employeeId ⟨some u⟩ w = (.error noPermission, w) ∧
      Mutation.updateUserRole S userId role ⟨some u⟩ w = (.error noPermission, w) ∧
      Query.users S filterRole ⟨some u⟩ w = (.error noPermission, w)) := by
  refine ⟨rfl, rfl, ?_, ?_⟩
  · intro args id userId employeeId role updates filterRole
    refine ⟨rfl, rfl, rfl, rfl, rfl, rfl, rfl, rfl⟩
  · intro u hu args id userId employeeId role updates filterRole
    have hr := requireRole_admin_of_not_admin u hu
    refine ⟨?_, ?_, ?_, ?_, ?_, ?_⟩
    · simp [Mutation.addEmployee, contextUser, requireAuth, hr]
    · simp [Mutation.updateEmployee, contextUser, requireAuth, hr]
    · simp [Mutation.deleteEmployee, requireAuth, hr]
    · simp [Mutation.assignEmployeeToUser, updateUserGuarded, requireAuth, hr]
    · simp [Mutation.updateUserRole, updateUserGuarded, requireAuth, hr]
    · simp [Query.users, requireAuth, hr]

/-! ## `Query.employees` and the cache -/

/-- A lookup that finds a fresh entry returns its value and keeps the cache. -/
theorem Cache.get_fresh {α : Type} (c : Cache α) (k : String) (now : Int) (e : CacheEntry α)
    (h : c.entry k = some e) (hle : now - e.timestamp ≤ 60000) :
    c.get now k = (some e.value, c) := by
  simp only [Cache.entry] at h
  simp [Cache.get, h, Cache.ttl, not_lt.mpr hle]

/-- A lookup that finds an expired entry returns nothing and deletes the entry. -/
theorem Cache.get_expired {α : Type} (c : Cache α) (k : String) (now : Int) (e : CacheEntry α)
    (h : c.entry k = some e) (hgt : 60000 < now - e.timestamp) :
    c.get now k = (none, ⟨JsMap.delete c.employees k⟩) := by
  simp only [Cache.entry] at h
  simp [Cache.get, h, Cache.ttl, hgt]

/-- On a hit `Query.employees` returns the cached value and leaves the world as it is. -/
theorem employees_of_hit {σ : Type} (S : Storage σ)
    (newRegExp : String → String → Except JsError RegExp) (args : EmployeesArgs) (ctx : Context)
    (now later : Int) (w : World σ) (v : Payload)
    (h : w.cache.get now args.cacheKey = (some v, w.cache)) :
    Query.employees S newRegExp args (some ctx) now later w = (.ok v, w) := by
  simp only [EmployeesArgs.cacheKey] at h
  simp [Query.employees, h]

/-- On a miss `Query.employees` goes to the store, with the cache as the lookup left it. -/
theorem employees_of_miss {σ : Type} (S : Storage σ)
    (newRegExp : String → String → Except JsError RegExp) (args : EmployeesArgs) (ctx : Context)
    (now later : Int) (w : World σ) (c : Cache Payload)
    (h : w.cache.get now args.cacheKey = (none, c)) :
    Query.employees S newRegExp args (some ctx) now later w =
      employeesFromStorage S newRegExp (args.page.getD 1) (args.limit.getD 10)
        (args.sortBy.getD "name") (args.sortOrder.getD "asc") args.filterName args.cacheKey later
        { w with cache := c } := by
  simp only [EmployeesArgs.cacheKey] at h
  simp [Query.employees, h, EmployeesArgs.cacheKey]

/-- What a successful store query did: both store calls were issued and answered, the payload is
the formatted page, and it was stored under the key with the time of the `cache.set`. -/
theorem employeesFromStorage_ok {σ : Type} (S : Storage σ)
    (newRegExp : String → String → Except JsError RegExp) (page limit : Int)
    (sortBy sortOrder : String) (filterName : Option String) (key : String) (later : Int)
    (w w1 : World σ) (payload : Payload)
    (h : employeesFromStorage S newRegExp page limit sortBy sortOrder filterName key later w =
      (.ok payload, w1)) :
    ∃ filter totalCount docs,
      buildFilter newRegExp filterName = .ok filter ∧
      S.countDocuments filter w.db = .ok totalCount ∧
      S.find filter (safeSortBy sortBy) (safeSortOrder sortOrder)
        (roundToDouble ((page - 1) * limit)) limit w.db = .ok docs ∧
      payload = .page ⟨docs.map formatEmployee, mkPageInfo page limit totalCount⟩ ∧
      w1 = ⟨w.db, w.cache.set later key payload,
        w.log ++ [.employeeCountDocuments filter,
          .employeeFind filter (safeSortBy sortBy) (safeSortOrder sortOrder)
            (roundToDouble ((page - 1) * limit)) limit]⟩ := by
  unfold employeesFromStorage at h
  cases hf : buildFilter newRegExp filterName with
  | error e => simp [hf] at h
  | ok filter =>
    simp only [hf, World.call] at h
    cases hc : S.countDocuments filter w.db with
    | error e => simp [hc] at h
    | ok totalCount =>
      simp only [hc] at h
      cases hd : S.find filter (safeSortBy sortBy) (safeSortOrder sortOrder)
          (roundToDouble ((page - 1) * limit)) limit w.db with
      | error e => simp [hd] at h
      | ok docs =>
        simp only [hd, Prod.mk.injEq, Except.ok.injEq] at h
        refine ⟨filter, totalCount, docs, rfl, hc, hd, h.1.symm, ?_⟩
        rw [← h.2, ← h.1]
        simp

/-- The store calls of a store query whose filter builds: the count is always issued, and the
find follows exactly when the count is answered. -/
theorem employeesFromStorage_log {σ : Type} (S : Storage σ)
    (newRegExp : String → String → Except JsError RegExp) (page limit : Int)
    (sortBy sortOrder : String) (filterName : Option String) (key : String) (later : Int)
    (w : World σ) (filter : EmployeeFilter)
    (hf : buildFilter newRegExp filterName = .ok filter) :
    ∃ rest,
      (employeesFromStorage S newRegExp page limit sortBy sortOrder filterName key later w).2.log =
        w.log ++ (.employeeCountDocuments filter :: rest) ∧
      (∀ n, S.countDocuments filter w.db = .ok n →
        rest = [.employeeFind filter (safeSortBy sortBy) (safeSortOrder sortOrder)
          (roundToDouble ((page - 1) * limit)) limit]) := by
  unfold employeesFromStorage
  simp only [hf, World.call]
  cases hc : S.countDocuments filter w.db with
  | error e => exact ⟨[], by simp, by intro n hn; simp at hn⟩
  | ok totalCount =>
    refine ⟨[.employeeFind filter (safeSortBy sortBy) (safeSortOrder sortOrder)
      (roundToDouble ((page - 1) * limit)) limit], ?_, fun _ _ => rfl⟩
    cases hd : S.find filter (safeSortBy sortBy) (safeSortOrder sortOrder)
        (roundToDouble ((page - 1) * limit)) limit w.db with
    | error e => simp
    | ok docs => simp

/-- **C7.** Let a call `employees(p)` at lookup time `now0` miss the cache, succeed, and store its
payload at time `t0`. Then the cache holds the payload under the key of `p` with timestamp `t0`,
and for every later cache `c` that still holds that entry (no mutation has cleared it), every
store state, call log, caller and time `t1`:
* if `t1 - t0 <= 60000`, `employees(p)` at `t1` returns the identical payload and leaves the world
  as it is: no store call is issued (whatever the store now holds) and the entry keeps timestamp
  `t0`;
* if `t1 - t0 > 60000`, `employees(p)` at `t1` issues the count to the store again, followed by the
  find as soon as the count is answered; on the store the first call saw, both are issued, the
  payload is computed afresh and stored with the new time;
* hence "same payload and no store call" holds iff `t1 - t0 <= 60000`;
* a hit at `t1` does not extend the window: a call at `t2` with `t2 - t0 > 60000` that follows it
  goes to the store even when `t2 - t1 <= 60000`. -/
theorem employees_cache_window {σ : Type} (S : Storage σ)
    (newRegExp : String → String → Except JsError RegExp) (args : EmployeesArgs) (ctx : Context)
    (now0 t0 : Int) (w0 w1 : World σ) (payload : Payload)
    (hmiss : (w0.cache.get now0 args.cacheKey).1 = none)
    (hrun : Query.employees S newRegExp args (some ctx) now0 t0 w0 = (.ok payload, w1)) :
    w1.cache.entry args.cacheKey = some ⟨payload, t0⟩ ∧
    ∃ filter, buildFilter newRegExp args.filterName = .ok filter ∧
    ∀ c : Cache Payload, c.entry args.cacheKey = some ⟨payload, t0⟩ →
    (∀ (db : σ) (log : List DbCall) (ctx2 : Context) (t1 later : Int), t1 - t0 ≤ 60000 →
      Query.employees S newRegExp args (some ctx2) t1 later ⟨db, c, log⟩ =
        (.ok payload, ⟨db, c, log⟩)) ∧
    (∀ (db : σ) (log : List DbCall) (ctx2 : Context) (t1 later : Int), 60000 < t1 - t0 →
      ∃ rest,
        (Query.employees S newRegExp args (some ctx2) t1 later ⟨db, c, log⟩).2.log =
          log ++ (.employeeCountDocuments filter :: rest) ∧
        (∀ n, S.countDocuments filter db = .ok n →
          rest = [.employeeFind filter (safeSortBy (args.sortBy.getD "name"))
            (safeSortOrder (args.sortOrder.getD "asc"))
            (roundToDouble ((args.page.getD 1 - 1) * args.limit.getD 10))
            (args.limit.getD 10)])) ∧
    (∀ (log : List DbCall) (ctx2 : Context) (t1 later : Int), 60000 < t1 - t0 →
      ∃ w2, Query.employees S newRegExp args (some ctx2) t1 later ⟨w1.db, c, log⟩ =
          (.ok payload, w2) ∧
        w2.log = log ++ [.employeeCountDocuments filter,
          .employeeFind filter (safeSortBy (args.sortBy.getD "name"))
            (safeSortOrder (args.sortOrder.getD "asc"))
            (roundToDouble ((args.page.getD 1 - 1) * args.limit.getD 10))
            (args.limit.getD 10)] ∧
        w2.cache.entry args.cacheKey = some ⟨payload, later⟩) ∧
    (∀ (db : σ) (log : List DbCall) (ctx2 : Context) (t1 later : Int),
      ((Query.employees S newRegExp args (some ctx2) t1 later ⟨db, c, log⟩).1 = .ok payload ∧
        (Query.employees S newRegExp args (some ctx2) t1 later ⟨db, c, log⟩).2.log = log) ↔
      t1 - t0 ≤ 60000) ∧
    (∀ (db : σ) (log : List DbCall) (ctx2 ctx3 : Context) (t1 later1 t2 later2 : Int),
      t1 - t0 ≤ 60000 → 60000 < t2 - t0 →
      (Query.employees S newRegExp args (some ctx3) t2 later2
        (Query.employees S newRegExp args (some ctx2) t1 later1 ⟨db, c, log⟩).2).2.log ≠
        log) := by
  -- the first call took the store path
  have hget0 : w0.cache.get now0 args.cacheKey = (none, (w0.cache.get now0 args.cacheKey).2) :=
    Prod.ext hmiss rfl
  rw [employees_of_miss S newRegExp args ctx now0 t0 w0 _ hget0] at hrun
  obtain ⟨filter, totalCount, docs, hf, hc, hd, hpay, hw1⟩ :=
    employeesFromStorage_ok S newRegExp _ _ _ _ _ _ _ _ _ _ hrun
  have hentry1 : w1.cache.entry args.cacheKey = some ⟨payload, t0⟩ := by
    rw [hw1]
    simp [Cache.entry, Cache.set, JsMap.get_set_self]
  have hdb : w1.db = w0.db := by rw [hw1]
  refine ⟨hentry1, filter, hf, ?_⟩
  intro c hentry
  -- a call inside the window
  have hhit : ∀ (db : σ) (log : List DbCall) (ctx2 : Context) (t1 later : Int),
      t1 - t0 ≤ 60000 →
      Query.employees S newRegExp args (some ctx2) t1 later ⟨db, c, log⟩ =
        (.ok payload, ⟨db, c, log⟩) := by
    intro db log ctx2 t1 later hle
    exact employees_of_hit S newRegExp args ctx2 t1 later ⟨db, c, log⟩ payload
      (Cache.get_fresh c _ t1 ⟨payload, t0⟩ hentry hle)
  -- a call after the window
  have hstale : ∀ (db : σ) (log : List DbCall) (ctx2 : Context) (t1 later : Int),
      60000 < t1 - t0 →
      Query.employees S newRegExp args (some ctx2) t1 later ⟨db, c, log⟩ =
        employeesFromStorage S newRegExp (args.page.getD 1) (args.limit.getD 10)
          (args.sortBy.getD "name") (args.sortOrder.getD "asc") args.filterName args.cacheKey
          later ⟨db, ⟨JsMap.delete c.employees args.cacheKey⟩, log⟩ := by
    intro db log ctx2 t1 later hgt
    exact employees_of_miss S newRegExp args ctx2 t1 later ⟨db, c, log⟩ _
      (Cache.get_expired c _ t1 ⟨payload, t0⟩ hentry hgt)
  have hgrow : ∀ (db : σ) (log : List DbCall) (ctx2 : Context) (t1 later : Int),
      60000 < t1 - t0 →
      (Query.employees S newRegExp args (some ctx2) t1 later ⟨db, c, log⟩).2.log ≠ log := by
    intro db log ctx2 t1 later hgt
    rw [hstale db log ctx2 t1 later hgt]
    obtain ⟨rest, hlog, -⟩ := employeesFromStorage_log S newRegExp (args.page.getD 1)
      (args.limit.getD 10) (args.sortBy.getD "name") (args.sortOrder.getD "asc") args.filterName
      args.cacheKey later ⟨db, ⟨JsMap.delete c.employees args.cacheKey⟩, log⟩ filter hf
    rw [hlog]
    simp
  refine ⟨hhit, ?_, ?_, ?_, ?_⟩
  · intro db log ctx2 t1 later hgt
    rw [hstale db log ctx2 t1 later hgt]
    exact employeesFromStorage_log S newRegExp _ _ _ _ _ _ _ _ filter hf
  · intro log ctx2 t1 later hgt
    rw [hstale w1.db log ctx2 t1 later hgt]
    refine ⟨⟨w1.db,
      (⟨JsMap.delete c.employees args.cacheKey⟩ : Cache Payload).set later args.cacheKey
        payload,
      log ++ [.employeeCountDocuments filter,
        .employeeFind filter (safeSortBy (args.sortBy.getD "name"))
          (safeSortOrder (args.sortOrder.getD "asc"))
          (roundToDouble ((args.page.getD 1 - 1) * args.limit.getD 10))
          (args.limit.getD 10)]⟩, ?_, rfl, ?_⟩
    · simp [employeesFromStorage, hf, World.call, hdb, hc, hd, hpay]
    · simp [Cache.entry, Cache.set, JsMap.get_set_self]
  · intro db log ctx2 t1 later
    constructor
    · intro h
      by_contra hgt
      exact hgrow db log ctx2 t1 later (not_le.mp hgt) h.2
    · intro hle
      rw [hhit db log ctx2 t1 later hle]
      exact ⟨rfl, rfl⟩
  · intro db log ctx2 ctx3 t1 later1 t2 later2 hle hgt
    rw [hhit db log ctx2 t1 later1 hle]
    exact hgrow db log ctx3 t2 later2 hgt

/-- Witness for C7: the first `employees()` on the sample store, with an empty cache, stores its
page at time 5. -/
theorem employees_cache_window_witness :
    ((Cache.empty : Cache Payload).get 0 noArgs.cacheKey).1 = none ∧
    Query.employees (memStorage sampleTest) sampleNewRegExp noArgs (some ⟨none⟩) 0 5
        ⟨sampleDb, Cache.empty, []⟩ =
      (.ok samplePage,
        ⟨sampleDb, ⟨[("1_10_name_asc_", ⟨samplePage, 5⟩)]⟩,
          [.employeeCountDocuments ⟨none⟩, .employeeFind ⟨none⟩ "name" 1 0 10]⟩) ∧
    (⟨[("1_10_name_asc_", ⟨samplePage, 5⟩)]⟩ : Cache Payload).entry noArgs.cacheKey =
      some ⟨samplePage, 5⟩ :=
  ⟨rfl, rfl,
    (employees_cache_window (memStorage sampleTest) sampleNewRegExp noArgs ⟨none⟩ 0 5
      ⟨sampleDb, Cache.empty, []⟩
      ⟨sampleDb, ⟨[("1_10_name_asc_", ⟨samplePage, 5⟩)]⟩,
        [.employeeCountDocuments ⟨none⟩, .employeeFind ⟨none⟩ "name" 1 0 10]⟩
      samplePage rfl rfl).1⟩

/-! ## Mutations flush the cache -/

/-- A lookup in a cache without entries finds nothing and changes nothing. -/
theorem Cache.get_of_employees_nil {α : Type} (c : Cache α) (h : c.employees = []) (now : Int)
    (k : String) : c.get now k = (none, c) := by
  simp [Cache.get, h, JsMap.get]

/-- The filter `{}` of the reference store selects every document. -/
theorem MemDb.filter_selects_all (test : RegExp → String → Bool) (docs : List EmployeeDoc) :
    docs.filter (MemDb.selects test ⟨none⟩) = docs := by
  apply List.filter_eq_self.mpr
  intro a _
  rfl

/-- The first page of the reference store, unfiltered, with limit 10, on at most ten documents:
all of them, in sorted order. -/
theorem MemDb.first_page_all (test : RegExp → String → Bool) (field : String) (dir : Int)
    (db : MemDb) (h : db.employees.length ≤ 10) :
    (memStorage test).find ⟨none⟩ field dir 0 10 db = .ok (MemDb.sortDocs field dir db.employees) := by
  have hlen : (MemDb.sortDocs field dir db.employees).length ≤ 10 := by
    simp only [MemDb.sortDocs, List.length_insertionSort]
    exact h
  simp [memStorage, MemDb.filter_selects_all, MemDb.applyLimit, List.take_of_length_le hlen]

/-- On the reference store with an empty cache and at most ten employees, the first page of ten,
unfiltered, is the whole collection in sorted order, and `totalCount` is its size. -/
theorem memStorage_first_page (test : RegExp → String → Bool)
    (newRegExp : String → String → Except JsError RegExp) (sortBy sortOrder : Option String)
    (ctx : Context) (now later : Int) (w1 : World MemDb) (hnil : w1.cache.employees = [])
    (hlen : w1.db.employees.length ≤ 10) :
    ∃ w2, Query.employees (memStorage test) newRegExp
        ⟨some 1, some 10, sortBy, sortOrder, none⟩ (some ctx) now later w1 =
      (.ok (.page ⟨(MemDb.sortDocs (safeSortBy (sortBy.getD "name"))
          (safeSortOrder (sortOrder.getD "asc")) w1.db.employees).map formatEmployee,
        mkPageInfo 1 10 w1.db.employees.length⟩), w2) := by
  have hround : roundToDouble ((1 - 1) * 10) = 0 := by decide
  rw [employees_of_miss (memStorage test) newRegExp _ ctx now later w1 w1.cache
    (Cache.get_of_employees_nil w1.cache hnil now _)]
  have hfilter : buildFilter newRegExp none = .ok ⟨none⟩ := rfl
  simp only [employeesFromStorage, hfilter, World.call, Option.getD_some, hround]
  rw [MemDb.first_page_all test _ _ _ hlen]
  simp only [memStorage, MemDb.filter_selects_all]
  exact ⟨_, rfl⟩

/-- **C8.** For every store `S` and world `w`: after a successful `addEmployee`, `updateEmployee`
or `deleteEmployee` the cache has no entries; and in a world whose cache has no entries
`Query.employees` with any arguments takes the store path (the count is issued as soon as the
filter builds) and `Query.employee` with any id issues `findById`. On the reference store:
`addEmployee({name: "Bob", age: 30, attendance: 92.0})` by an `ADMIN` on a store holding fewer
than ten employees succeeds, and the next `employees(page 1, limit 10)` (any sort, no filter)
returns a page that contains Bob and whose `totalCount` is the old number of employees plus one. -/
theorem mutations_flush_cache {σ : Type} (S : Storage σ) (w : World σ)
    (test : RegExp → String → Bool) (db : MemDb) (cache : Cache Payload) (log : List DbCall)
    (admin : UserDoc) (hadmin : admin.role = "ADMIN") (hsmall : db.employees.length < 10) :
    (∀ args ctx r w1, Mutation.addEmployee S args ctx w = (.ok r, w1) →
      w1.cache.employees = []) ∧
    (∀ id updates ctx r w1, Mutation.updateEmployee S id updates ctx w = (.ok r, w1) →
      w1.cache.employees = []) ∧
    (∀ id ctx r w1, Mutation.deleteEmployee S id ctx w = (.ok r, w1) →
      w1.cache.employees = []) ∧
    (∀ w1 : World σ, w1.cache.employees = [] →
      (∀ newRegExp (args : EmployeesArgs) (ctx : Context) (now later : Int),
        Query.employees S newRegExp args (some ctx) now later w1 =
          employeesFromStorage S newRegExp (args.page.getD 1) (args.limit.getD 10)
            (args.sortBy.getD "name") (args.sortOrder.getD "asc") args.filterName args.cacheKey
            later w1 ∧
        ∀ filter, buildFilter newRegExp args.filterName = .ok filter →
          ∃ rest, (Query.employees S newRegExp args (some ctx) now later w1).2.log =
            w1.log ++ (.employeeCountDocuments filter :: rest)) ∧
      (∀ (id : String) (now later : Int),
        (Query.employee S id now later w1).2.log = w1.log ++ [.employeeFindById id])) ∧
    (∃ (bob : EmployeeDoc) (w1 : World MemDb),
      Mutation.addEmployee (memStorage test) ⟨"Bob", some 30, none, none, some 92⟩
          (some ⟨some admin⟩) ⟨db, cache, log⟩ = (.ok (formatEmployee bob), w1) ∧
      bob.name = "Bob" ∧ bob.age = some 30 ∧ bob.attendance = some 92 ∧
      w1.cache.employees = [] ∧
      ∀ newRegExp (sortBy sortOrder : Option String) (ctx : Context) (now later : Int),
        ∃ (page : EmployeePage) (w2 : World MemDb),
          Query.employees (memStorage test) newRegExp ⟨some 1, some 10, sortBy, sortOrder, none⟩
              (some ctx) now later w1 = (.ok (.page page), w2) ∧
          formatEmployee bob ∈ page.employees ∧
          page.pageInfo.totalCount = db.employees.length + 1) := by
  refine ⟨?_, ?_, ?_, ?_, ?_⟩
  · intro args ctx r w1 h
    dsimp only [Mutation.addEmployee] at h
    split at h
    · simp at h
    · split at h
      · simp at h
      · split at h
        · simp at h
        · simp only [Prod.mk.injEq] at h
          rw [← h.2]
          rfl
  · intro id updates ctx r w1 h
    dsimp only [Mutation.updateEmployee] at h
    split at h
    · simp at h
    · split at h
      · simp at h
      · split at h
        · simp at h
        · simp at h
        · simp only [Prod.mk.injEq] at h
          rw [← h.2]
          rfl
  · intro id ctx r w1 h
    dsimp only [Mutation.deleteEmployee] at h
    split at h
    · simp at h
    · split at h
      · simp at h
      · split at h
        · simp at h
        · simp at h
        · simp only [Prod.mk.injEq] at h
          rw [← h.2]
          rfl
  · intro w1 hnil
    constructor
    · intro newRegExp args ctx now later
      have hq := employees_of_miss S newRegExp args ctx now later w1 w1.cache
        (Cache.get_of_employees_nil w1.cache hnil now _)
      refine ⟨hq, ?_⟩
      intro filter hf
      rw [hq]
      obtain ⟨rest, hlog, -⟩ := employeesFromStorage_log S newRegExp (args.page.getD 1)
        (args.limit.getD 10) (args.sortBy.getD "name") (args.sortOrder.getD "asc")
        args.filterName args.cacheKey later w1 filter hf
      exact ⟨rest, hlog⟩
    · intro id now later
      unfold Query.employee
      simp only [Cache.get_of_employees_nil w1.cache hnil now _, World.call]
      cases hfind : S.findById id w1.db with
      | error e => rfl
      | ok found =>
        cases found with
        | none => rfl
        | some d => rfl
  · refine ⟨⟨⟨toString db.nextId⟩, "Bob", some 30, none, [], some 92, db.clock, db.clock⟩,
      ⟨{ db with
          employees := db.employees ++
            [⟨⟨toString db.nextId⟩, "Bob", some 30, none, [], some 92, db.clock, db.clock⟩],
          nextId := db.nextId + 1 },
        cache.invalidateAll,
        log ++ [.employeeSave ⟨"Bob", some 30, none, none, some 92⟩]⟩,
      ?_, rfl, rfl, rfl, rfl, ?_⟩
    · simp [Mutation.addEmployee, contextUser, requireAuth, requireRole_admin_of_admin admin hadmin,
        memStorage, World.call]
    · intro newRegExp sortBy sortOrder ctx now later
      have hlen : (db.employees ++
          [(⟨⟨toString db.nextId⟩, "Bob", some 30, none, [], some 92, db.clock, db.clock⟩ :
            EmployeeDoc)]).length ≤ 10 := by
        simp only [List.length_append, List.length_singleton]
        omega
      obtain ⟨w2, hq⟩ := memStorage_first_page test newRegExp sortBy sortOrder ctx now later
        ⟨{ db with
            employees := db.employees ++
              [⟨⟨toString db.nextId⟩, "Bob", some 30, none, [], some 92, db.clock, db.clock⟩],
            nextId := db.nextId + 1 },
          cache.invalidateAll,
          log ++ [.employeeSave ⟨"Bob", some 30, none, none, some 92⟩]⟩ rfl hlen
      refine ⟨_, w2, hq, ?_, ?_⟩
      · simp only [MemDb.sortDocs, List.mem_map, List.mem_insertionSort]
        exact ⟨_, List.mem_append_right _ (List.mem_singleton_self _), rfl⟩
      · simp [mkPageInfo]

/-- Witness for C8: the sample administrator adds Bob to the sample store (one employee, a cached
first page); the next first page holds Bob and counts two employees. -/
theorem mutations_flush_cache_witness :
    sampleAdmin.role = "ADMIN" ∧ sampleDb.employees.length < 10 ∧
    (∃ (bob : EmployeeDoc) (w1 : World MemDb),
      Mutation.addEmployee (memStorage sampleTest) ⟨"Bob", some 30, none, none, some 92⟩
          (some ⟨some sampleAdmin⟩)
          ⟨sampleDb, ⟨[("1_10_name_asc_", ⟨samplePage, 5⟩)]⟩, []⟩ =
        (.ok (formatEmployee bob), w1) ∧
      bob.name = "Bob" ∧ bob.age = some 30 ∧ bob.attendance = some 92 ∧
      w1.cache.employees = [] ∧
      ∀ newRegExp (sortBy sortOrder : Option String) (ctx : Context) (now later : Int),
        ∃ (page : EmployeePage) (w2 : World MemDb),
          Query.employees (memStorage sampleTest) newRegExp
              ⟨some 1, some 10, sortBy, sortOrder, none⟩ (some ctx) now later w1 =
            (.ok (.page page), w2) ∧
          formatEmployee bob ∈ page.employees ∧
          page.pageInfo.totalCount = sampleDb.employees.length + 1) :=
  ⟨rfl, by decide,
    (mutations_flush_cache (memStorage sampleTest) ⟨sampleDb, Cache.empty, []⟩ sampleTest sampleDb
      ⟨[("1_10_name_asc_", ⟨samplePage, 5⟩)]⟩ [] sampleAdmin rfl (by decide)).2.2.2.2⟩

/-! ## Pagination arithmetic -/

/-- For a positive `limit`, `Math.ceil(totalCount / limit)` is a natural number `n`, the least
integer with `n * limit >= totalCount`. -/
theorem ceilDiv_of_pos (totalCount : Nat) (limit : Int) (hlimit : 0 < limit) :
    ∃ n : Nat, ceilDiv totalCount limit = .int n ∧
      (totalCount : Int) ≤ n * limit ∧
      (∀ m : Int, (totalCount : Int) ≤ m * limit → (n : Int) ≤ m) ∧
      (totalCount = 0 → n = 0) := by
  obtain ⟨L, rfl⟩ : ∃ L : Nat, limit = (L : Int) := ⟨limit.toNat, (Int.toNat_of_nonneg hlimit.le).symm⟩
  have hL : 0 < L := by exact_mod_cast hlimit
  refine ⟨(totalCount + L - 1) / L, ?_, ?_, ?_, ?_⟩
  · simp [ceilDiv, hlimit]
  · have h1 : totalCount + L - 1 < L * ((totalCount + L - 1) / L) + L := by
      have := Nat.lt_div_mul_add (a := totalCount + L - 1) hL
      rw [Nat.mul_comm]
      exact this
    have h2 : totalCount ≤ (totalCount + L - 1) / L * L := by
      rw [Nat.mul_comm]
      omega
    exact_mod_cast h2
  · intro m hm
    have hq := Nat.div_mul_le_self (totalCount + L - 1) L
    generalize (totalCount + L - 1) / L = q at hq ⊢
    by_contra hlt
    have hlt1 : m + 1 ≤ (q : Int) := by omega
    have hLi : (0 : Int) < L := by exact_mod_cast hL
    have hmul : (m + 1) * (L : Int) ≤ (q : Int) * (L : Int) :=
      mul_le_mul_of_nonneg_right hlt1 hLi.le
    have hq1 : ((q * L : Nat) : Int) ≤ ((totalCount + L - 1 : Nat) : Int) := Int.ofNat_le.mpr hq
    rw [Nat.cast_mul] at hq1
    have hcast : ((totalCount + L - 1 : Nat) : Int) = (totalCount : Int) + L - 1 := by omega
    linarith
  · intro h0
    subst h0
    apply Nat.div_eq_of_lt
    omega

/-- **C11.** For a positive `limit`, every `page` and every count the store returns: the
`pageInfo` that `employees` computes on a cache miss has `totalPages = n`, the least integer with
`n * limit >= totalCount` (so `0` for `totalCount = 0`), `hasNextPage` true iff `page < n`,
`hasPreviousPage` true iff `page > 1`, `currentPage = page`, and `totalCount` the answer of
`countDocuments(filter)`, which on the reference store is the number of records the filter
selects. -/
theorem employees_pageInfo {σ : Type} (S : Storage σ)
    (newRegExp : String → String → Except JsError RegExp) (args : EmployeesArgs) (ctx : Context)
    (now later : Int) (w w1 : World σ) (payload : Payload)
    (hlimit : 0 < args.limit.getD 10)
    (hmiss : (w.cache.get now args.cacheKey).1 = none)
    (hrun : Query.employees S newRegExp args (some ctx) now later w = (.ok payload, w1)) :
    (∃ (filter : EmployeeFilter) (totalCount : Nat) (docs : List EmployeeDoc) (info : PageInfo)
        (n : Nat),
      buildFilter newRegExp args.filterName = .ok filter ∧
      S.countDocuments filter w.db = .ok totalCount ∧
      payload = .page ⟨docs.map formatEmployee, info⟩ ∧
      info.totalPages = .int n ∧
      (totalCount : Int) ≤ n * args.limit.getD 10 ∧
      (∀ m : Int, (totalCount : Int) ≤ m * args.limit.getD 10 → (n : Int) ≤ m) ∧
      (totalCount = 0 → n = 0) ∧
      (info.hasNextPage = true ↔ args.page.getD 1 < n) ∧
      (info.hasPreviousPage = true ↔ 1 < args.page.getD 1) ∧
      info.currentPage = args.page.getD 1 ∧
      info.totalCount = totalCount) ∧
    (∀ (test : RegExp → String → Bool) (filter : EmployeeFilter) (db : MemDb),
      (memStorage test).countDocuments filter db =
        .ok (db.employees.filter (MemDb.selects test filter)).length) := by
  refine ⟨?_, fun _ _ _ => rfl⟩
  have hget : w.cache.get now args.cacheKey = (none, (w.cache.get now args.cacheKey).2) :=
    Prod.ext hmiss rfl
  rw [employees_of_miss S newRegExp args ctx now later w _ hget] at hrun
  obtain ⟨filter, totalCount, docs, hf, hc, -, hpay, -⟩ :=
    employeesFromStorage_ok S newRegExp _ _ _ _ _ _ _ _ _ _ hrun
  obtain ⟨n, hn, hge, hleast, hzero⟩ := ceilDiv_of_pos totalCount (args.limit.getD 10) hlimit
  refine ⟨filter, totalCount, docs, mkPageInfo (args.page.getD 1) (args.limit.getD 10) totalCount,
    n, hf, hc, hpay, ?_, hge, hleast, hzero, ?_, ?_, rfl, rfl⟩
  · simp [mkPageInfo, hn]
  · simp [mkPageInfo, hn, JsNumber.gtInt]
  · simp [mkPageInfo]

/-- Witness for C11: the default first page of the sample store (one employee, limit 10). -/
theorem employees_pageInfo_witness :
    (0 : Int) < noArgs.limit.getD 10 ∧
    (∃ (filter : EmployeeFilter) (totalCount : Nat) (docs : List EmployeeDoc) (info : PageInfo)
        (n : Nat),
      buildFilter sampleNewRegExp noArgs.filterName = .ok filter ∧
      (memStorage sampleTest).countDocuments filter sampleDb = .ok totalCount ∧
      samplePage = .page ⟨docs.map formatEmployee, info⟩ ∧
      info.totalPages = .int n ∧
      (totalCount : Int) ≤ n * noArgs.limit.getD 10 ∧
      (∀ m : Int, (totalCount : Int) ≤ m * noArgs.limit.getD 10 → (n : Int) ≤ m) ∧
      (totalCount = 0 → n = 0) ∧
      (info.hasNextPage = true ↔ noArgs.page.getD 1 < n) ∧
      (info.hasPreviousPage = true ↔ 1 < noArgs.page.getD 1) ∧
      info.currentPage = noArgs.page.getD 1 ∧
      info.totalCount = totalCount) :=
  ⟨by decide,
    (employees_pageInfo (memStorage sampleTest) sampleNewRegExp noArgs ⟨none⟩ 0 5
      ⟨sampleDb, Cache.empty, []⟩
      ⟨sampleDb, ⟨[("1_10_name_asc_", ⟨samplePage, 5⟩)]⟩,
        [.employeeCountDocuments ⟨none⟩, .employeeFind ⟨none⟩ "name" 1 0 10]⟩
      samplePage (by decide) rfl rfl).1⟩

/-! ## Pages partition the sorted list -/

/-- The first `n` chunks of `k` elements of a list, concatenated, are its first `n * k`
elements. -/
theorem flatten_chunks {α : Type} (l : List α) (k n : Nat) :
    ((List.range n).map (fun i => (l.drop (i * k)).take k)).flatten = l.take (n * k) := by
  induction n with
  | zero => simp
  | succ n ih =>
    rw [List.range_succ, List.map_append, List.flatten_append, ih, Nat.succ_mul, List.take_add]
    simp

/-- Integers below `2^53` are exact JavaScript numbers. -/
theorem roundToDouble_of_lt (x : Int) (h0 : 0 ≤ x) (h : x < (2 : Int) ^ 53) :
    roundToDouble x = x := by
  have hlt : x.natAbs < 2 ^ 53 := by omega
  simp only [roundToDouble, if_pos hlt]

/-- Rounding to a double never takes an integer from `2^53` upwards below `2^53`. -/
theorem roundToDouble_ge (x : Int) (h : (2 : Int) ^ 53 ≤ x) : (2 : Int) ^ 53 ≤ roundToDouble x := by
  obtain ⟨a, rfl⟩ : ∃ a : Nat, x = (a : Int) := ⟨x.toNat, by omega⟩
  have ha : 2 ^ 53 ≤ a := by exact_mod_cast h
  have hne : a ≠ 0 := by
    have : 0 < 2 ^ 53 := by norm_num
    omega
  have hlog : 53 ≤ a.log2 := (Nat.le_log2 hne).mpr ha
  have hpow : 2 ^ a.log2 ≤ a := Nat.log2_self_le hne
  have hsplit : 2 ^ a.log2 = 2 ^ 52 * 2 ^ (a.log2 - 52) := by
    rw [← Nat.pow_add]
    congr 1
    omega
  have hq : 2 ^ 52 ≤ a / 2 ^ (a.log2 - 52) := by
    rw [Nat.le_div_iff_mul_le (Nat.two_pow_pos _)]
    rw [← hsplit]
    exact hpow
  have he : 2 ≤ 2 ^ (a.log2 - 52) := by
    have : 2 ^ 1 ≤ 2 ^ (a.log2 - 52) := Nat.pow_le_pow_right (by norm_num) (by omega)
    simpa using this
  have hnot : ¬ a < 2 ^ 53 := by omega
  have hsign : (a : Int).sign = 1 := Int.sign_eq_one_of_pos (by omega)
  simp only [roundToDouble, Int.natAbs_ofNat, hnot, if_false, hsign, one_mul, Int.ofNat_eq_coe]
  have hmul : ∀ q1 : Nat, 2 ^ 52 ≤ q1 → 2 ^ 53 ≤ q1 * 2 ^ (a.log2 - 52) := by
    intro q1 hq1
    calc 2 ^ 53 = 2 ^ 52 * 2 := by norm_num
      _ ≤ q1 * 2 ^ (a.log2 - 52) := Nat.mul_le_mul hq1 he
  split
  · exact_mod_cast hmul _ (Nat.le_succ_of_le hq)
  · exact_mod_cast hmul _ hq

/-- A page of the reference store for a positive limit and a non-negative skip. -/
theorem MemDb.find_page (test : RegExp → String → Bool) (filter : EmployeeFilter)
    (field : String) (dir skip limit : Int) (db : MemDb) (hskip : 0 ≤ skip) (hlimit : 0 < limit) :
    (memStorage test).find filter field dir skip limit db =
      .ok (((MemDb.sortDocs field dir (db.employees.filter (MemDb.selects test filter))).drop
        skip.toNat).take limit.toNat) := by
  have h1 : ¬ skip < 0 := by omega
  have h2 : limit ≠ 0 := by omega
  have h3 : limit.natAbs = limit.toNat := by omega
  simp [memStorage, MemDb.applyLimit, h1, h2, h3]

/-- Dropping the rounded skip of page `p` gives the same records as dropping the exact skip, on a
list shorter than `2^53`. -/
theorem drop_roundToDouble {α : Type} (l : List α) (x : Int) (h0 : 0 ≤ x)
    (hlen : l.length < 2 ^ 53) : l.drop (roundToDouble x).toNat = l.drop x.toNat := by
  by_cases hx : x < (2 : Int) ^ 53
  · rw [roundToDouble_of_lt x h0 hx]
  · have hx1 : (2 : Int) ^ 53 ≤ x := by omega
    have hr := roundToDouble_ge x hx1
    rw [List.drop_eq_nil_of_le (by omega), List.drop_eq_nil_of_le (by omega)]

/-- On the reference store, a successful miss of `employees` for page `p >= 1` and a positive
limit returns the `p`-th chunk of the sorted list of selected records. -/
theorem memStorage_page (test : RegExp → String → Bool)
    (newRegExp : String → String → Except JsError RegExp) (db : MemDb)
    (sortBy sortOrder filterName : Option String) (filter : EmployeeFilter) (limit p : Int)
    (hlimit : 0 < limit) (hp : 1 ≤ p) (hf : buildFilter newRegExp filterName = .ok filter)
    (hsize : db.employees.length < 2 ^ 53) (cache : Cache Payload) (log : List DbCall)
    (ctx : Context) (now later : Int)
    (hmiss : (cache.get now
      (EmployeesArgs.cacheKey ⟨some p, some limit, sortBy, sortOrder, filterName⟩)).1 = none) :
    (Query.employees (memStorage test) newRegExp ⟨some p, some limit, sortBy, sortOrder, filterName⟩
        (some ctx) now later ⟨db, cache, log⟩).1 =
      .ok (.page
        ⟨(((MemDb.sortDocs (safeSortBy (sortBy.getD "name")) (safeSortOrder (sortOrder.getD "asc"))
            (db.employees.filter (MemDb.selects test filter))).drop
              ((p - 1) * limit).toNat).take limit.toNat).map formatEmployee,
          mkPageInfo p limit (db.employees.filter (MemDb.selects test filter)).length⟩) := by
  have hget : cache.get now
      (EmployeesArgs.cacheKey ⟨some p, some limit, sortBy, sortOrder, filterName⟩) = (none, _) :=
    Prod.ext hmiss rfl
  have hskip0 : 0 ≤ (p - 1) * limit := Int.mul_nonneg (by omega) hlimit.le
  have hflen : (MemDb.sortDocs (safeSortBy (sortBy.getD "name"))
      (safeSortOrder (sortOrder.getD "asc"))
      (db.employees.filter (MemDb.selects test filter))).length < 2 ^ 53 := by
    simp only [MemDb.sortDocs, List.length_insertionSort]
    exact lt_of_le_of_lt (List.length_filter_le _ _) hsize
  have hround0 : 0 ≤ roundToDouble ((p - 1) * limit) := by
    by_cases hx : (p - 1) * limit < (2 : Int) ^ 53
    · rw [roundToDouble_of_lt _ hskip0 hx]
      exact hskip0
    · have := roundToDouble_ge ((p - 1) * limit) (by omega)
      omega
  rw [employees_of_miss (memStorage test) newRegExp _ ctx now later ⟨db, cache, log⟩ _ hget]
  simp only [employeesFromStorage, hf, World.call, Option.getD_some]
  rw [MemDb.find_page test filter _ _ _ limit db hround0 hlimit,
    drop_roundToDouble _ _ hskip0 hflen]
  rfl

/-- **C12.** On the reference store (a page is the sorted list of the selected records with the
first `(page-1)*limit` skipped and at most `limit` taken), holding fewer than `2^53` records, for
every filter that builds, every sort clause and every `limit > 0`, with `sorted` the sorted list
of the selected records:
* `employees` for page `p >= 1` on a cache miss returns the `p`-th chunk of `sorted`, formatted;
* `sorted` is a permutation of the selected records (each appears once);
* `totalPages` is a natural number `n`, and the chunks of pages `1, ..., n` concatenated in order
  are exactly `sorted`;
* the chunk of every page beyond `n` is empty. -/
theorem employees_pages_partition (test : RegExp → String → Bool)
    (newRegExp : String → String → Except JsError RegExp) (db : MemDb)
    (sortBy sortOrder filterName : Option String) (filter : EmployeeFilter) (limit : Int)
    (sorted : List EmployeeDoc)
    (hlimit : 0 < limit) (hf : buildFilter newRegExp filterName = .ok filter)
    (hsize : db.employees.length < 2 ^ 53)
    (hsorted : sorted = MemDb.sortDocs (safeSortBy (sortBy.getD "name"))
      (safeSortOrder (sortOrder.getD "asc")) (db.employees.filter (MemDb.selects test filter))) :
    (∀ (p : Int), 1 ≤ p → ∀ (cache : Cache Payload) (log : List DbCall) (ctx : Context)
        (now later : Int),
      (cache.get now
        (EmployeesArgs.cacheKey ⟨some p, some limit, sortBy, sortOrder, filterName⟩)).1 = none →
      (Query.employees (memStorage test) newRegExp
          ⟨some p, some limit, sortBy, sortOrder, filterName⟩ (some ctx) now later
          ⟨db, cache, log⟩).1 =
        .ok (.page ⟨((sorted.drop ((p - 1) * limit).toNat).take limit.toNat).map formatEmployee,
          mkPageInfo p limit sorted.length⟩)) ∧
    sorted.Perm (db.employees.filter (MemDb.selects test filter)) ∧
    (∃ n : Nat, (mkPageInfo 1 limit sorted.length).totalPages = .int n ∧
      ((List.range n).map (fun i : Nat =>
        (sorted.drop ((((i : Int) + 1) - 1) * limit).toNat).take limit.toNat)).flatten = sorted ∧
      (∀ p : Int, (n : Int) < p →
        (sorted.drop ((p - 1) * limit).toNat).take limit.toNat = [])) := by
  have hlen : sorted.length = (db.employees.filter (MemDb.selects test filter)).length := by
    rw [hsorted]
    simp only [MemDb.sortDocs, List.length_insertionSort]
  refine ⟨?_, ?_, ?_⟩
  · intro p hp cache log ctx now later hmiss
    rw [hlen, hsorted]
    exact memStorage_page test newRegExp db sortBy sortOrder filterName filter limit p hlimit hp hf
      hsize cache log ctx now later hmiss
  · rw [hsorted]
    exact List.perm_insertionSort _ _
  · obtain ⟨n, hn, hge, -, -⟩ := ceilDiv_of_pos sorted.length limit hlimit
    obtain ⟨L, rfl⟩ : ∃ L : Nat, limit = (L : Int) :=
      ⟨limit.toNat, (Int.toNat_of_nonneg hlimit.le).symm⟩
    have hge1 : sorted.length ≤ n * L := by exact_mod_cast hge
    refine ⟨n, by simp [mkPageInfo, hn], ?_, ?_⟩
    · have hchunk : (fun i : Nat =>
          (sorted.drop ((((i : Int) + 1) - 1) * (L : Int)).toNat).take (L : Int).toNat) =
          (fun i : Nat => (sorted.drop (i * L)).take L) := by
        funext i
        have h1 : ((((i : Int) + 1) - 1) * (L : Int)).toNat = i * L := by
          have : (((i : Int) + 1) - 1) * (L : Int) = ((i * L : Nat) : Int) := by
            push_cast
            ring
          rw [this, Int.toNat_ofNat]
        rw [h1, Int.toNat_ofNat]
      rw [hchunk, flatten_chunks, List.take_of_length_le hge1]
    · intro p hp
      have hmul : (n : Int) * (L : Int) ≤ (p - 1) * (L : Int) :=
        mul_le_mul_of_nonneg_right (by omega) hlimit.le
      have hskip : sorted.length ≤ ((p - 1) * (L : Int)).toNat := by omega
      rw [List.drop_eq_nil_of_le hskip, List.take_nil]

/-- Witness for C12: the sample store, default sort, no filter, limit 10. -/
theorem employees_pages_partition_witness :
    (0 : Int) < 10 ∧
    buildFilter sampleNewRegExp none = .ok ⟨none⟩ ∧
    sampleDb.employees.length < 2 ^ 53 ∧
    (∃ n : Nat, (mkPageInfo 1 10 [sampleAlice].length).totalPages = .int n ∧
      ((List.range n).map (fun i : Nat =>
        ([sampleAlice].drop ((((i : Int) + 1) - 1) * 10).toNat).take (10 : Int).toNat)).flatten =
          [sampleAlice] ∧
      (∀ p : Int, (n : Int) < p →
        ([sampleAlice].drop ((p - 1) * 10).toNat).take (10 : Int).toNat = [])) :=
  ⟨by decide, rfl, by decide,
    (employees_pages_partition sampleTest sampleNewRegExp sampleDb none none none ⟨none⟩ 10
      [sampleAlice] (by decide) rfl (by decide) rfl).2.2⟩

/-! ## The sort clause -/

/-- The payload of a store query depends on `sortBy` only through `safeSortBy`, and not on the
cache key, the cache, the call log or the time of the `cache.set`. -/
theorem employeesFromStorage_fst_congr {σ : Type} (S : Storage σ)
    (newRegExp : String → String → Except JsError RegExp) (page limit : Int)
    (sortBy sortBy2 sortOrder : String) (filterName : Option String) (key key2 : String)
    (later later2 : Int) (w w2 : World σ) (hdb : w.db = w2.db)
    (hsort : safeSortBy sortBy = safeSortBy sortBy2) :
    (employeesFromStorage S newRegExp page limit sortBy sortOrder filterName key later w).1 =
      (employeesFromStorage S newRegExp page limit sortBy2 sortOrder filterName key2 later2 w2).1 := by
  unfold employeesFromStorage
  cases hf : buildFilter newRegExp filterName with
  | error e => rfl
  | ok filter =>
    simp only [World.call, hdb, hsort]
    cases hc : S.countDocuments filter w2.db with
    | error e => rfl
    | ok totalCount =>
      simp only []
      cases hd : S.find filter (safeSortBy sortBy2) (safeSortOrder sortOrder)
          (roundToDouble ((page - 1) * limit)) limit w2.db with
      | error e => rfl
      | ok docs => rfl

/-- **C13.** The sort field `employees` uses is `sortBy` when `sortBy` is one of `name`, `age`,
`class`, `attendance`, `createdAt`, `updatedAt`, and `name` otherwise, so it is always in the
allow-list; the direction is descending (`-1`) iff `sortOrder` is exactly `"desc"` and ascending
(`1`) otherwise (`"DESC"` and `""` included); a `find` that a miss of `employees` issues carries
that field and direction; and on an empty cache and the same store, `employees` with a `sortBy`
outside the allow-list (such as `"__proto__"`) returns what `employees` with `sortBy = "name"`
returns. -/
theorem sort_clause_spec :
    sortAllowList = ["name", "age", "class", "attendance", "createdAt", "updatedAt"] ∧
    (∀ sortBy : String,
      (sortBy ∈ sortAllowList → safeSortBy sortBy = sortBy) ∧
      (sortBy ∉ sortAllowList → safeSortBy sortBy = "name") ∧
      safeSortBy sortBy ∈ sortAllowList) ∧
    (∀ sortOrder : String,
      (safeSortOrder sortOrder = -1 ↔ sortOrder = "desc") ∧
      (sortOrder ≠ "desc" → safeSortOrder sortOrder = 1)) ∧
    safeSortOrder "DESC" = 1 ∧ safeSortOrder "" = 1 ∧
    (∀ (σ : Type) (S : Storage σ) (newRegExp : String → String → Except JsError RegExp)
        (args : EmployeesArgs) (ctx : Context) (now later : Int) (w : World σ) (c : Cache Payload)
        (filter : EmployeeFilter),
      w.cache.get now args.cacheKey = (none, c) →
      buildFilter newRegExp args.filterName = .ok filter →
      (Query.employees S newRegExp args (some ctx) now later w).2.log =
          w.log ++ [.employeeCountDocuments filter] ∨
        (Query.employees S newRegExp args (some ctx) now later w).2.log =
          w.log ++ [.employeeCountDocuments filter,
            .employeeFind filter (safeSortBy (args.sortBy.getD "name"))
              (safeSortOrder (args.sortOrder.getD "asc"))
              (roundToDouble ((args.page.getD 1 - 1) * args.limit.getD 10))
              (args.limit.getD 10)]) ∧
    "__proto__" ∉ sortAllowList ∧
    (∀ (σ : Type) (S : Storage σ) (newRegExp : String → String → Except JsError RegExp)
        (x : String) (page limit : Option Int) (sortOrder filterName : Option String)
        (ctx : Context) (now later : Int) (w : World σ),
      x ∉ sortAllowList → w.cache.employees = [] →
      (Query.employees S newRegExp ⟨page, limit, some x, sortOrder, filterName⟩ (some ctx)
          now later w).1 =
        (Query.employees S newRegExp ⟨page, limit, some "name", sortOrder, filterName⟩ (some ctx)
          now later w).1) := by
  have hsafe : ∀ sortBy : String, sortBy ∉ sortAllowList → safeSortBy sortBy = "name" := by
    intro sortBy h
    simp [safeSortBy, h]
  refine ⟨rfl, ?_, ?_, by decide, by decide, ?_, by decide, ?_⟩
  · intro sortBy
    refine ⟨?_, hsafe sortBy, ?_⟩
    · intro h
      simp [safeSortBy, h]
    · by_cases h : sortBy ∈ sortAllowList
      · simp [safeSortBy, h]
      · rw [hsafe sortBy h]
        decide
  · intro sortOrder
    by_cases h : sortOrder = "desc"
    · simp [safeSortOrder, h]
    · simp [safeSortOrder, h]
  · intro σ S newRegExp args ctx now later w c filter hget hf
    rw [employees_of_miss S newRegExp args ctx now later w c hget]
    unfold employeesFromStorage
    simp only [hf, World.call]
    cases hc : S.countDocuments filter w.db with
    | error e => exact Or.inl rfl
    | ok totalCount =>
      right
      simp only []
      cases hd : S.find filter (safeSortBy (args.sortBy.getD "name"))
          (safeSortOrder (args.sortOrder.getD "asc"))
          (roundToDouble ((args.page.getD 1 - 1) * args.limit.getD 10)) (args.limit.getD 10)
          w.db with
      | error e => simp
      | ok docs => simp
  · intro σ S newRegExp x page limit sortOrder filterName ctx now later w hx hnil
    rw [employees_of_miss S newRegExp _ ctx now later w w.cache
        (Cache.get_of_employees_nil w.cache hnil now _),
      employees_of_miss S newRegExp _ ctx now later w w.cache
        (Cache.get_of_employees_nil w.cache hnil now _)]
    apply employeesFromStorage_fst_congr
    · rfl
    · simp only [Option.getD_some]
      rw [hsafe x hx]
      decide

/-! ## `Query.employee` -/

/-- After a lookup that returned nothing the cache has no entry under the key, and its other
entries are as before. -/
theorem Cache.entry_of_get_none {α : Type} (c c2 : Cache α) (k : String) (now : Int)
    (h : c.get now k = (none, c2)) :
    c2.entry k = none ∧ ∀ k2, k2 ≠ k → c2.entry k2 = c.entry k2 := by
  unfold Cache.get at h
  cases hent : JsMap.get c.employees k with
  | none =>
    simp only [hent, Prod.mk.injEq, true_and] at h
    subst h
    exact ⟨hent, fun _ _ => rfl⟩
  | some e =>
    simp only [hent] at h
    split at h
    · simp only [Prod.mk.injEq, true_and] at h
      subst h
      exact ⟨JsMap.get_delete_self _ _, fun k2 hne => JsMap.get_delete_other _ _ _ hne⟩
    · simp at h

/-- **C15.** `employee(id)`, for every id, store, world and time:
* with an unexpired entry under `"employee_" + id` it returns the cached value and leaves the
  world as it is (no store call);
* on a miss it issues `findById(id)`; when the store finds the record it returns the formatted
  record and stores it under `"employee_" + id` with the time of the `cache.set`;
* when the store answers `null` it returns `null` without throwing, and the cache afterwards has
  no entry under the key, its other entries unchanged.
On the reference store, `findById` answers `null` exactly when no record has the id. -/
theorem employee_query_spec {σ : Type} (S : Storage σ) (id : String) (now later : Int)
    (w : World σ) :
    (∀ e, w.cache.entry ("employee_" ++ id) = some e → now - e.timestamp ≤ 60000 →
      Query.employee S id now later w = (.ok (some e.value), w)) ∧
    (∀ c, w.cache.get now ("employee_" ++ id) = (none, c) →
      (∀ d, S.findById id w.db = .ok (some d) →
        Query.employee S id now later w =
          (.ok (some (.employee (formatEmployee d))),
            ⟨w.db, c.set later ("employee_" ++ id) (.employee (formatEmployee d)),
              w.log ++ [.employeeFindById id]⟩) ∧
        (c.set later ("employee_" ++ id) (.employee (formatEmployee d))).entry
          ("employee_" ++ id) = some ⟨.employee (formatEmployee d), later⟩) ∧
      (S.findById id w.db = .ok none →
        Query.employee S id now later w =
          (.ok none, ⟨w.db, c, w.log ++ [.employeeFindById id]⟩) ∧
        c.entry ("employee_" ++ id) = none ∧
        ∀ k2, k2 ≠ "employee_" ++ id → c.entry k2 = w.cache.entry k2)) ∧
    (∀ (test : RegExp → String → Bool) (db : MemDb),
      ((memStorage test).findById id db = .ok none ↔
        ∀ d ∈ db.employees, d._id.toString ≠ id) ∧
      (∀ d, (memStorage test).findById id db = .ok (some d) →
        d ∈ db.employees ∧ d._id.toString = id)) := by
  refine ⟨?_, ?_, ?_⟩
  · intro e he hle
    have hget := Cache.get_fresh w.cache _ now e he hle
    simp [Query.employee, hget]
  · intro c hget
    refine ⟨?_, ?_⟩
    · intro d hd
      refine ⟨?_, ?_⟩
      · simp [Query.employee, hget, World.call, hd]
      · simp [Cache.entry, Cache.set, JsMap.get_set_self]
    · intro hnone
      obtain ⟨h1, h2⟩ := Cache.entry_of_get_none w.cache c _ now hget
      refine ⟨?_, h1, h2⟩
      simp [Query.employee, hget, World.call, hnone]
  · intro test db
    refine ⟨?_, ?_⟩
    · simp [memStorage, List.find?_eq_none]
    · intro d hd
      simp only [memStorage, Except.ok.injEq] at hd
      refine ⟨List.mem_of_find?_eq_some hd, ?_⟩
      have := List.find?_some hd
      simpa using this

/-! ## `register` -/

/-- **C16.** `register` with `role = ADMIN`, for every store, world (whether or not the username
or email is taken) and other arguments: with no caller, or a caller whose role is not `ADMIN`, it
throws the `ForbiddenError` before any store call and the world is unchanged (no user is
created); with an `ADMIN` caller the check passes and the resolver goes on to the uniqueness
lookup. -/
theorem register_admin_gate {σ : Type} (S : Storage σ) (bcryptHash : String → Nat → String)
    (jwtSign : ObjectId → String → Int → String) (username password email name : String)
    (now : Int) (w : World σ) :
    onlyAdmins.cls = .ForbiddenError ∧
    Mutation.register S bcryptHash jwtSign ⟨username, password, email, name, .value "ADMIN"⟩ ⟨none⟩
      now w = (.error onlyAdmins, w) ∧
    (∀ caller : UserDoc, caller.role ≠ "ADMIN" →
      Mutation.register S bcryptHash jwtSign ⟨username, password, email, name, .value "ADMIN"⟩
        ⟨some caller⟩ now w = (.error onlyAdmins, w)) ∧
    (∀ caller : UserDoc, caller.role = "ADMIN" →
      registerAdminCheck (some "ADMIN") (some caller) = .ok () ∧
      ∃ rest, (Mutation.register S bcryptHash jwtSign
          ⟨username, password, email, name, .value "ADMIN"⟩ ⟨some caller⟩ now w).2.log =
        w.log ++ (.userFindOne (.byUsernameOrEmail username email) :: rest)) := by
  refine ⟨rfl, rfl, ?_, ?_⟩
  · intro caller h
    simp [Mutation.register, registerAdminCheck, JsArg.withDefault, h]
  · intro caller h
    have hcheck : registerAdminCheck (some "ADMIN") (some caller) = .ok () := by
      simp [registerAdminCheck, h]
    refine ⟨hcheck, ?_⟩
    simp only [Mutation.register, JsArg.withDefault, hcheck, World.call]
    cases hfind : S.userFindOne (.byUsernameOrEmail username email) w.db with
    | error e => exact ⟨[], rfl⟩
    | ok found =>
      cases found with
      | some existing => exact ⟨[], rfl⟩
      | none =>
        simp only []
        cases hcreate : S.userCreate (userPreSave bcryptHash true)
            ⟨username, password, email, name, some "ADMIN"⟩ w.db with
        | mk r db =>
          cases r with
          | error e => exact ⟨[.userCreate ⟨username, password, email, name, some "ADMIN"⟩], by simp⟩
          | ok newUser => exact ⟨[.userCreate ⟨username, password, email, name, some "ADMIN"⟩], by simp⟩

/-- When the admin check passes and the store finds a user with the username or the email,
`register` throws "already in use" after that one lookup; nothing else happens. -/
theorem register_of_found {σ : Type} (S : Storage σ) (bcryptHash : String → Nat → String)
    (jwtSign : ObjectId → String → Int → String) (args : RegisterArgs) (ctx : Context)
    (now : Int) (w : World σ) (existing : UserDoc)
    (hcheck : registerAdminCheck (args.role.withDefault "EMPLOYEE") ctx.user = .ok ())
    (hfound : S.userFindOne (.byUsernameOrEmail args.username args.email) w.db =
      .ok (some existing)) :
    Mutation.register S bcryptHash jwtSign args ctx now w =
      (.error alreadyInUse,
        ⟨w.db, w.cache, w.log ++ [.userFindOne (.byUsernameOrEmail args.username args.email)]⟩) := by
  simp [Mutation.register, hcheck, World.call, hfound]

/-- When the admin check fails, `register` throws its error and the world is unchanged. -/
theorem register_of_check_error {σ : Type} (S : Storage σ) (bcryptHash : String → Nat → String)
    (jwtSign : ObjectId → String → Int → String) (args : RegisterArgs) (ctx : Context)
    (now : Int) (w : World σ) (e : JsError)
    (hcheck : registerAdminCheck (args.role.withDefault "EMPLOYEE") ctx.user = .error e) :
    Mutation.register S bcryptHash jwtSign args ctx now w = (.error e, w) := by
  simp [Mutation.register, hcheck]

/-- The admin check throws nothing but the `ForbiddenError` of `register`. -/
theorem registerAdminCheck_error (role : Option String) (user : Option UserDoc) (e : JsError)
    (h : registerAdminCheck role user = .error e) : e = onlyAdmins := by
  unfold registerAdminCheck at h
  split at h
  · split at h
    · simp at h
      exact h.symm
    · split at h
      · simp at h
        exact h.symm
      · simp at h
  · simp at h

/-- The reference store finds a user by username or email exactly when one is stored. -/
theorem MemDb.userFindOne_some (test : RegExp → String → Bool) (db : MemDb)
    (username email : String)
    (hex : ∃ x ∈ db.users, x.username = username ∨ x.email = email) :
    ∃ existing, (memStorage test).userFindOne (.byUsernameOrEmail username email) db =
      .ok (some existing) := by
  obtain ⟨x, hx, hmatch⟩ := hex
  cases hfind : db.users.find? (MemDb.matchesUser (.byUsernameOrEmail username email)) with
  | some existing => exact ⟨existing, by simp [memStorage, hfind]⟩
  | none =>
    have := List.find?_eq_none.mp hfind x hx
    simp [MemDb.matchesUser] at this
    rcases hmatch with h | h
    · exact absurd h this.1
    · exact absurd h this.2

/-- The reference store finds no user by username or email when none is stored. -/
theorem MemDb.userFindOne_none (test : RegExp → String → Bool) (db : MemDb)
    (username email : String)
    (hfree : ∀ x ∈ db.users, x.username ≠ username ∧ x.email ≠ email) :
    (memStorage test).userFindOne (.byUsernameOrEmail username email) db = .ok none := by
  have : db.users.find? (MemDb.matchesUser (.byUsernameOrEmail username email)) = none := by
    apply List.find?_eq_none.mpr
    intro x hx
    simp [MemDb.matchesUser, (hfree x hx).1, (hfree x hx).2]
  simp [memStorage, this]

/-- On the reference store, `register` with the required fields present, a free username and
email and a role of the enum, the admin check passed, creates the user and returns it with a token
for its id. -/
theorem memStorage_register_free (test : RegExp → String → Bool)
    (bcryptHash : String → Nat → String) (jwtSign : ObjectId → String → Int → String)
    (args : RegisterArgs) (ctx : Context) (now : Int) (db : MemDb) (cache : Cache Payload)
    (log : List DbCall) (role : String)
    (hdefault : args.role.withDefault "EMPLOYEE" = some role)
    (hcheck : registerAdminCheck (some role) ctx.user = .ok ())
    (hrole : role ∈ MemDb.roleEnum)
    (hreq : args.username ≠ "" ∧ args.password ≠ "" ∧ args.email ≠ "" ∧ args.name ≠ "")
    (hfree : ∀ x ∈ db.users, x.username ≠ args.username ∧ x.email ≠ args.email) :
    Mutation.register (memStorage test) bcryptHash jwtSign args ctx now ⟨db, cache, log⟩ =
      (.ok ⟨jwtSign ⟨toString db.nextId⟩ "7d" now,
          ⟨⟨toString db.nextId⟩, args.username, bcryptHash args.password 10,
            role, args.email, args.name, none, db.clock, db.clock⟩⟩,
        ⟨{ db with
            users := db.users ++
              [⟨⟨toString db.nextId⟩, args.username, bcryptHash args.password 10,
                role, args.email, args.name, none, db.clock, db.clock⟩],
            nextId := db.nextId + 1 },
          cache,
          log ++ [.userFindOne (.byUsernameOrEmail args.username args.email),
            .userCreate ⟨args.username, args.password, args.email, args.name, some role⟩]⟩) := by
  have hfind := MemDb.userFindOne_none test db args.username args.email hfree
  have hno : ¬ ∃ x ∈ db.users, x.username = args.username ∨ x.email = args.email := by
    rintro ⟨x, hx, h | h⟩
    · exact (hfree x hx).1 h
    · exact (hfree x hx).2 h
  simp only [Mutation.register, hdefault, hcheck, World.call, hfind]
  simp [memStorage, MemDb.requiredPresent, hreq.1, hreq.2.1, hreq.2.2.1, hreq.2.2.2, hrole, hno,
    userPreSave, generateToken]

/-- On the reference store, `register` with an empty `username`, `password`, `email` or `name`,
the admin check passed and the username and email free, fails with the validation error of the
store and leaves the store as it is. -/
theorem memStorage_register_required (test : RegExp → String → Bool)
    (bcryptHash : String → Nat → String) (jwtSign : ObjectId → String → Int → String)
    (args : RegisterArgs) (ctx : Context) (now : Int) (db : MemDb) (cache : Cache Payload)
    (log : List DbCall)
    (hcheck : registerAdminCheck (args.role.withDefault "EMPLOYEE") ctx.user = .ok ())
    (hempty : args.username = "" ∨ args.password = "" ∨ args.email = "" ∨ args.name = "")
    (hfree : ∀ x ∈ db.users, x.username ≠ args.username ∧ x.email ≠ args.email) :
    Mutation.register (memStorage test) bcryptHash jwtSign args ctx now ⟨db, cache, log⟩ =
      (.error MemDb.userRequired,
        ⟨db, cache,
          log ++ [.userFindOne (.byUsernameOrEmail args.username args.email),
            .userCreate ⟨args.username, args.password, args.email, args.name,
              args.role.withDefault "EMPLOYEE"⟩]⟩) := by
  have hfind := MemDb.userFindOne_none test db args.username args.email hfree
  have hreq : MemDb.requiredPresent ⟨args.username, args.password, args.email, args.name,
      args.role.withDefault "EMPLOYEE"⟩ = false := by
    simp only [MemDb.requiredPresent]
    rcases hempty with h | h | h | h <;> simp [h]
  simp only [Mutation.register, hcheck, World.call, hfind]
  simp [memStorage, hreq]

/-- On the reference store, `register` with the required fields present and a role that is
`null` or outside the enum, the admin check passed and the username and email free, fails with the
validation error of the store and leaves the store as it is. -/
theorem memStorage_register_role (test : RegExp → String → Bool)
    (bcryptHash : String → Nat → String) (jwtSign : ObjectId → String → Int → String)
    (args : RegisterArgs) (ctx : Context) (now : Int) (db : MemDb) (cache : Cache Payload)
    (log : List DbCall)
    (hcheck : registerAdminCheck (args.role.withDefault "EMPLOYEE") ctx.user = .ok ())
    (hrole : ∀ role, args.role.withDefault "EMPLOYEE" = some role → role ∉ MemDb.roleEnum)
    (hreq : args.username ≠ "" ∧ args.password ≠ "" ∧ args.email ≠ "" ∧ args.name ≠ "")
    (hfree : ∀ x ∈ db.users, x.username ≠ args.username ∧ x.email ≠ args.email) :
    Mutation.register (memStorage test) bcryptHash jwtSign args ctx now ⟨db, cache, log⟩ =
      (.error MemDb.roleInvalid,
        ⟨db, cache,
          log ++ [.userFindOne (.byUsernameOrEmail args.username args.email),
            .userCreate ⟨args.username, args.password, args.email, args.name,
              args.role.withDefault "EMPLOYEE"⟩]⟩) := by
  have hfind := MemDb.userFindOne_none test db args.username args.email hfree
  simp only [Mutation.register, hcheck, World.call, hfind]
  cases hd : args.role.withDefault "EMPLOYEE" with
  | none =>
    simp [memStorage, MemDb.requiredPresent, hreq.1, hreq.2.1, hreq.2.2.1, hreq.2.2.2]
  | some role =>
    have hnot := hrole role hd
    simp [memStorage, MemDb.requiredPresent, hreq.1, hreq.2.1, hreq.2.2.1, hreq.2.2.2, hnot]

/-- On the reference store `register` either throws and leaves the store as it is, or appends one
user with the requested username and email, neither of which was in use. -/
theorem memStorage_register_outcome (test : RegExp → String → Bool)
    (bcryptHash : String → Nat → String) (jwtSign : ObjectId → String → Int → String)
    (args : RegisterArgs) (ctx : Context) (now : Int) (db : MemDb) (cache : Cache Payload)
    (log : List DbCall) :
    (∃ e, (Mutation.register (memStorage test) bcryptHash jwtSign args ctx now
          ⟨db, cache, log⟩).1 = .error e ∧
        (Mutation.register (memStorage test) bcryptHash jwtSign args ctx now
          ⟨db, cache, log⟩).2.db = db) ∨
    (∃ doc : UserDoc,
      (Mutation.register (memStorage test) bcryptHash jwtSign args ctx now
          ⟨db, cache, log⟩).1 = .ok ⟨jwtSign doc._id "7d" now, doc⟩ ∧
      (Mutation.register (memStorage test) bcryptHash jwtSign args ctx now
          ⟨db, cache, log⟩).2.db.users = db.users ++ [doc] ∧
      doc.username = args.username ∧ doc.email = args.email ∧
      ∀ x ∈ db.users, x.username ≠ args.username ∧ x.email ≠ args.email) := by
  cases hcheck : registerAdminCheck (args.role.withDefault "EMPLOYEE") ctx.user with
  | error e =>
    left
    rw [register_of_check_error _ _ _ _ _ _ _ e hcheck]
    exact ⟨e, rfl, rfl⟩
  | ok u =>
    by_cases hex : ∃ x ∈ db.users, x.username = args.username ∨ x.email = args.email
    · left
      obtain ⟨existing, hfound⟩ := MemDb.userFindOne_some test db args.username args.email hex
      rw [register_of_found (memStorage test) bcryptHash jwtSign args ctx now ⟨db, cache, log⟩
        existing hcheck hfound]
      exact ⟨alreadyInUse, rfl, rfl⟩
    · have hfree : ∀ x ∈ db.users, x.username ≠ args.username ∧ x.email ≠ args.email := by
        intro x hx
        exact ⟨fun h => hex ⟨x, hx, Or.inl h⟩, fun h => hex ⟨x, hx, Or.inr h⟩⟩
      by_cases hempty : args.username = "" ∨ args.password = "" ∨ args.email = "" ∨
          args.name = ""
      · left
        rw [memStorage_register_required test bcryptHash jwtSign args ctx now db cache log hcheck
          hempty hfree]
        exact ⟨_, rfl, rfl⟩
      · have hreq : args.username ≠ "" ∧ args.password ≠ "" ∧ args.email ≠ "" ∧
            args.name ≠ "" := by
          refine ⟨?_, ?_, ?_, ?_⟩ <;> intro h <;> exact hempty (by simp [h])
        by_cases hrole : ∃ role, args.role.withDefault "EMPLOYEE" = some role ∧
            role ∈ MemDb.roleEnum
        · right
          obtain ⟨role, hd, hin⟩ := hrole
          rw [memStorage_register_free test bcryptHash jwtSign args ctx now db cache log role hd
            (by rw [← hd]; exact hcheck) hin hreq hfree]
          exact ⟨_, rfl, rfl, rfl, rfl, hfree⟩
        · left
          rw [memStorage_register_role test bcryptHash jwtSign args ctx now db cache log hcheck
            (fun role hd hin => hrole ⟨role, hd, hin⟩) hreq hfree]
          exact ⟨_, rfl, rfl⟩

/-- Counterexample for C17: the username `admin` is taken in the sample store, yet an anonymous
`register` asking for the `ADMIN` role fails with the `ForbiddenError` of the admin check, not
with "already in use". -/
theorem register_taken_but_forbidden :
    (∃ x ∈ sampleDb.users, x.username = "admin" ∨ x.email = "new@x.com") ∧
    (Mutation.register (memStorage sampleTest) sampleHash sampleSign
      ⟨"admin", "pw", "new@x.com", "Mallory", .value "ADMIN"⟩ ⟨none⟩ 0
      ⟨sampleDb, Cache.empty, []⟩).1 = .error onlyAdmins ∧
    onlyAdmins ≠ alreadyInUse ∧
    onlyAdmins.cls = .ForbiddenError := by
  refine ⟨⟨sampleAdmin, by simp [sampleDb], Or.inl rfl⟩, rfl, by decide, rfl⟩

/-- **C17 (amended).** When the store holds a user with the requested username or email,
`register` fails, creates no user and issues no token: if the admin check passes (the role asked
for is not `ADMIN`, or the caller is an `ADMIN`) it throws "Username or email already in use"
after the one lookup, the store unchanged; if the admin check fails it throws the
`ForbiddenError`, the world unchanged. On the reference store: a stored user with the username or
email is found by the lookup; after a successful `register`, every `register` with the same
username or the same email fails and leaves the store as it is; and `register` keeps usernames
and emails pairwise distinct. -/
theorem register_conflict {σ : Type} (S : Storage σ) (bcryptHash : String → Nat → String)
    (jwtSign : ObjectId → String → Int → String) (args : RegisterArgs) (ctx : Context)
    (now : Int) (w : World σ) (existing : UserDoc)
    (hfound : S.userFindOne (.byUsernameOrEmail args.username args.email) w.db =
      .ok (some existing)) :
    (registerAdminCheck (args.role.withDefault "EMPLOYEE") ctx.user = .ok () →
      Mutation.register S bcryptHash jwtSign args ctx now w =
        (.error alreadyInUse,
          ⟨w.db, w.cache,
            w.log ++ [.userFindOne (.byUsernameOrEmail args.username args.email)]⟩)) ∧
    (∀ e, registerAdminCheck (args.role.withDefault "EMPLOYEE") ctx.user = .error e →
      e = onlyAdmins ∧ Mutation.register S bcryptHash jwtSign args ctx now w = (.error e, w)) ∧
    alreadyInUse = ⟨.Error, "Username or email already in use"⟩ ∧
    (∀ (test : RegExp → String → Bool) (db : MemDb),
      (∃ x ∈ db.users, x.username = args.username ∨ x.email = args.email) →
      ∃ found, (memStorage test).userFindOne (.byUsernameOrEmail args.username args.email) db =
        .ok (some found)) ∧
    (∀ (test : RegExp → String → Bool) (args1 args2 : RegisterArgs) (ctx1 ctx2 : Context)
        (now1 now2 : Int) (w0 w1 : World MemDb) (r : AuthPayload),
      Mutation.register (memStorage test) bcryptHash jwtSign args1 ctx1 now1 w0 = (.ok r, w1) →
      (args2.username = args1.username ∨ args2.email = args1.email) →
      ((Mutation.register (memStorage test) bcryptHash jwtSign args2 ctx2 now2 w1).1 =
          .error alreadyInUse ∨
        (Mutation.register (memStorage test) bcryptHash jwtSign args2 ctx2 now2 w1).1 =
          .error onlyAdmins) ∧
      (Mutation.register (memStorage test) bcryptHash jwtSign args2 ctx2 now2 w1).2.db = w1.db) ∧
    (∀ (test : RegExp → String → Bool) (args2 : RegisterArgs) (ctx2 : Context) (now2 : Int)
        (w0 : World MemDb),
      (w0.db.users.map (fun x => x.username)).Nodup →
      (w0.db.users.map (fun x => x.email)).Nodup →
      ((Mutation.register (memStorage test) bcryptHash jwtSign args2 ctx2 now2 w0).2.db.users.map
          (fun x => x.username)).Nodup ∧
        ((Mutation.register (memStorage test) bcryptHash jwtSign args2 ctx2 now2 w0).2.db.users.map
          (fun x => x.email)).Nodup) := by
  refine ⟨?_, ?_, rfl, ?_, ?_, ?_⟩
  · intro hcheck
    exact register_of_found S bcryptHash jwtSign args ctx now w existing hcheck hfound
  · intro e hcheck
    exact ⟨registerAdminCheck_error _ _ e hcheck,
      register_of_check_error S bcryptHash jwtSign args ctx now w e hcheck⟩
  · intro test db hex
    exact MemDb.userFindOne_some test db args.username args.email hex
  · intro test args1 args2 ctx1 ctx2 now1 now2 w0 w1 r hfirst hsame
    obtain ⟨db0, cache0, log0⟩ := w0
    rcases memStorage_register_outcome test bcryptHash jwtSign args1 ctx1 now1 db0 cache0 log0
      with ⟨e, he, -⟩ | ⟨doc, -, husers, hname, hmail, -⟩
    · rw [hfirst] at he
      simp at he
    · rw [hfirst] at husers
      obtain ⟨db1, cache1, log1⟩ := w1
      simp only at husers
      have hex : ∃ x ∈ db1.users, x.username = args2.username ∨ x.email = args2.email := by
        refine ⟨doc, by rw [husers]; simp, ?_⟩
        rcases hsame with h | h
        · exact Or.inl (by rw [hname, h])
        · exact Or.inr (by rw [hmail, h])
      cases hcheck : registerAdminCheck (args2.role.withDefault "EMPLOYEE") ctx2.user with
      | error e =>
        rw [register_of_check_error _ _ _ _ _ _ _ e hcheck]
        exact ⟨Or.inr (by rw [registerAdminCheck_error _ _ e hcheck]), rfl⟩
      | ok u =>
        obtain ⟨found, hf⟩ := MemDb.userFindOne_some test db1 args2.username args2.email hex
        rw [register_of_found (memStorage test) bcryptHash jwtSign args2 ctx2 now2
          ⟨db1, cache1, log1⟩ found hcheck hf]
        exact ⟨Or.inl rfl, rfl⟩
  · intro test args2 ctx2 now2 w0 hnames hmails
    obtain ⟨db0, cache0, log0⟩ := w0
    rcases memStorage_register_outcome test bcryptHash jwtSign args2 ctx2 now2 db0 cache0 log0
      with ⟨e, -, hdb⟩ | ⟨doc, -, husers, hname, hmail, hfree⟩
    · rw [hdb]
      exact ⟨hnames, hmails⟩
    · rw [husers]
      simp only [List.map_append, List.map_cons, List.map_nil]
      refine ⟨?_, ?_⟩
      · apply List.Nodup.append hnames (List.nodup_singleton _)
        intro a ha hb
        simp only [List.mem_singleton] at hb
        obtain ⟨x, hx, rfl⟩ := List.mem_map.mp ha
        exact (hfree x hx).1 (by rw [hb, hname])
      · apply List.Nodup.append hmails (List.nodup_singleton _)
        intro a ha hb
        simp only [List.mem_singleton] at hb
        obtain ⟨x, hx, rfl⟩ := List.mem_map.mp ha
        exact (hfree x hx).2 (by rw [hb, hmail])

/-- Witness for C17: `register` with the taken username `admin` on the sample store. -/
theorem register_conflict_witness :
    (memStorage sampleTest).userFindOne (.byUsernameOrEmail "admin" "new@x.com") sampleDb =
      .ok (some sampleAdmin) ∧
    (registerAdminCheck
        ((⟨"admin", "pw", "new@x.com", "Mallory", .undefined⟩ : RegisterArgs).role.withDefault
          "EMPLOYEE") (⟨none⟩ : Context).user = .ok () →
      Mutation.register (memStorage sampleTest) sampleHash sampleSign
          ⟨"admin", "pw", "new@x.com", "Mallory", .undefined⟩ ⟨none⟩ 0 ⟨sampleDb, Cache.empty, []⟩ =
        (.error alreadyInUse,
          ⟨sampleDb, Cache.empty,
            [] ++ [.userFindOne (.byUsernameOrEmail "admin" "new@x.com")]⟩)) :=
  ⟨rfl,
    (register_conflict (memStorage sampleTest) sampleHash sampleSign
      ⟨"admin", "pw", "new@x.com", "Mallory", .undefined⟩ ⟨none⟩ 0 ⟨sampleDb, Cache.empty, []⟩
      sampleAdmin rfl).1⟩

/-- Counterexample for C18: the sample store holds no user with the username `""` or the email
`a@x.com`, and an anonymous caller registers without a role but with an empty username. The lookup
finds nobody, the create is issued with role `EMPLOYEE`, and the store rejects it (`username` is
`required`): no user is created and no token is returned. And with the role given as an explicit
`null` the default does not apply: the create is issued with role `null`, not `EMPLOYEE`. -/
theorem register_empty_username_fails :
    (∀ x ∈ sampleDb.users, x.username ≠ "" ∧ x.email ≠ "a@x.com") ∧
    Mutation.register (memStorage sampleTest) sampleHash sampleSign
        ⟨"", "secret1", "a@x.com", "Alice", .undefined⟩ ⟨none⟩ 7 ⟨sampleDb, Cache.empty, []⟩ =
      (.error MemDb.userRequired,
        ⟨sampleDb, Cache.empty,
          [.userFindOne (.byUsernameOrEmail "" "a@x.com"),
            .userCreate ⟨"", "secret1", "a@x.com", "Alice", some "EMPLOYEE"⟩]⟩) ∧
    MemDb.userRequired.cls = .external "ValidationError" ∧
    (Mutation.register (memStorage sampleTest) sampleHash sampleSign
        ⟨"alice", "secret1", "a@x.com", "Alice", .null⟩ ⟨none⟩ 7
        ⟨sampleDb, Cache.empty, []⟩).2.log =
      [.userFindOne (.byUsernameOrEmail "alice" "a@x.com"),
        .userCreate ⟨"alice", "secret1", "a@x.com", "Alice", none⟩] := by
  refine ⟨by decide, rfl, rfl, rfl⟩

/-- **C18 (amended).** `register` called with the role left out (`undefined`, not an explicit
`null`) and with a non-empty username, password, email and name, by any caller (an anonymous one
included), on a store with no user having the requested username or email: on the reference store
it appends exactly one user, with the given username, email and name, role `EMPLOYEE` and the
hashed password, and returns that user together with `generateToken` of the new user's id. For
every store: when the lookup finds nobody and the store accepts the create, `register` issues that
one lookup and one `create` with role `EMPLOYEE` and returns the created user with a token for its
id. With the role left out and an empty username, password, email or name (username and email
free), the reference store rejects the create with its validation error and keeps its users. With
the role given as `null`, on every store whose lookup finds nobody, the admin check passes and the
create is issued with role `null`, not `EMPLOYEE`. -/
theorem register_default_role (test : RegExp → String → Bool)
    (bcryptHash : String → Nat → String) (jwtSign : ObjectId → String → Int → String)
    (args : RegisterArgs) (ctx : Context) (now : Int) (db : MemDb) (cache : Cache Payload)
    (log : List DbCall) (hrole : args.role = .undefined)
    (hreq : args.username ≠ "" ∧ args.password ≠ "" ∧ args.email ≠ "" ∧ args.name ≠ "")
    (hfree : ∀ x ∈ db.users, x.username ≠ args.username ∧ x.email ≠ args.email) :
    (∃ newUser : UserDoc,
      Mutation.register (memStorage test) bcryptHash jwtSign args ctx now ⟨db, cache, log⟩ =
        (.ok ⟨generateToken jwtSign newUser._id now, newUser⟩,
          ⟨{ db with users := db.users ++ [newUser], nextId := db.nextId + 1 }, cache,
            log ++ [.userFindOne (.byUsernameOrEmail args.username args.email),
              .userCreate
                ⟨args.username, args.password, args.email, args.name, some "EMPLOYEE"⟩]⟩) ∧
      newUser.username = args.username ∧ newUser.email = args.email ∧
      newUser.name = args.name ∧ newUser.role = "EMPLOYEE" ∧
      newUser.password = bcryptHash args.password 10) ∧
    (∀ (σ : Type) (S : Storage σ) (w : World σ) (newUser : UserDoc) (db2 : σ),
      S.userFindOne (.byUsernameOrEmail args.username args.email) w.db = .ok none →
      S.userCreate (userPreSave bcryptHash true)
        ⟨args.username, args.password, args.email, args.name, some "EMPLOYEE"⟩ w.db =
          (.ok newUser, db2) →
      Mutation.register S bcryptHash jwtSign args ctx now w =
        (.ok ⟨generateToken jwtSign newUser._id now, newUser⟩,
          ⟨db2, w.cache,
            w.log ++ [.userFindOne (.byUsernameOrEmail args.username args.email),
              .userCreate
                ⟨args.username, args.password, args.email, args.name, some "EMPLOYEE"⟩]⟩)) ∧
    (∀ args2 : RegisterArgs, args2.role = .undefined →
      (args2.username = "" ∨ args2.password = "" ∨ args2.email = "" ∨ args2.name = "") →
      (∀ x ∈ db.users, x.username ≠ args2.username ∧ x.email ≠ args2.email) →
      Mutation.register (memStorage test) bcryptHash jwtSign args2 ctx now ⟨db, cache, log⟩ =
        (.error MemDb.userRequired,
          ⟨db, cache,
            log ++ [.userFindOne (.byUsernameOrEmail args2.username args2.email),
              .userCreate
                ⟨args2.username, args2.password, args2.email, args2.name, some "EMPLOYEE"⟩]⟩)) ∧
    (∀ (σ : Type) (S : Storage σ) (w : World σ) (args2 : RegisterArgs),
      args2.role = .null →
      S.userFindOne (.byUsernameOrEmail args2.username args2.email) w.db = .ok none →
      (Mutation.register S bcryptHash jwtSign args2 ctx now w).2.log =
        w.log ++ [.userFindOne (.byUsernameOrEmail args2.username args2.email),
          .userCreate ⟨args2.username, args2.password, args2.email, args2.name, none⟩]) := by
  have hdefault : args.role.withDefault "EMPLOYEE" = some "EMPLOYEE" := by
    rw [hrole]
    rfl
  have hcheck : registerAdminCheck (some "EMPLOYEE") ctx.user = .ok () := rfl
  refine ⟨?_, ?_, ?_, ?_⟩
  · have h := memStorage_register_free test bcryptHash jwtSign args ctx now db cache log
      "EMPLOYEE" hdefault hcheck (by decide) hreq hfree
    exact ⟨⟨⟨toString db.nextId⟩, args.username, bcryptHash args.password 10, "EMPLOYEE",
      args.email, args.name, none, db.clock, db.clock⟩, h, rfl, rfl, rfl, rfl, rfl⟩
  · intro σ S w newUser db2 hfind hcreate
    simp only [Mutation.register, hdefault, hcheck, World.call, hfind]
    simp [hcreate]
  · intro args2 hrole2 hempty hfree2
    have hdefault2 : args2.role.withDefault "EMPLOYEE" = some "EMPLOYEE" := by
      rw [hrole2]
      rfl
    have h := memStorage_register_required test bcryptHash jwtSign args2 ctx now db cache log
      (by rw [hdefault2]; exact hcheck) hempty hfree2
    rw [hdefault2] at h
    exact h
  · intro σ S w args2 hnull hfind
    have hdefault2 : args2.role.withDefault "EMPLOYEE" = none := by
      rw [hnull]
      rfl
    have hcheck2 : registerAdminCheck none ctx.user = .ok () := rfl
    simp only [Mutation.register, hdefault2, hcheck2, World.call, hfind]
    cases hcreate : S.userCreate (userPreSave bcryptHash true)
        ⟨args2.username, args2.password, args2.email, args2.name, none⟩ w.db with
    | mk r db2 =>
      cases r with
      | error e => simp
      | ok newUser => simp

/-- Witness for C18: scenario A, `alice` registers on the sample store. -/
theorem register_default_role_witness :
    aliceArgs.role = .undefined ∧
    (aliceArgs.username ≠ "" ∧ aliceArgs.password ≠ "" ∧ aliceArgs.email ≠ "" ∧
      aliceArgs.name ≠ "") ∧
    (∀ x ∈ sampleDb.users, x.username ≠ aliceArgs.username ∧ x.email ≠ aliceArgs.email) ∧
    (∃ newUser : UserDoc,
      Mutation.register (memStorage sampleTest) sampleHash sampleSign aliceArgs ⟨none⟩ 7
          ⟨sampleDb, Cache.empty, []⟩ =
        (.ok ⟨generateToken sampleSign newUser._id 7, newUser⟩,
          ⟨{ sampleDb with users := sampleDb.users ++ [newUser], nextId := sampleDb.nextId + 1 },
            Cache.empty,
            [] ++ [.userFindOne (.byUsernameOrEmail aliceArgs.username aliceArgs.email),
              .userCreate ⟨aliceArgs.username, aliceArgs.password, aliceArgs.email,
                aliceArgs.name, some "EMPLOYEE"⟩]⟩) ∧
      newUser.username = aliceArgs.username ∧ newUser.email = aliceArgs.email ∧
      newUser.name = aliceArgs.name ∧ newUser.role = "EMPLOYEE" ∧
      newUser.password = sampleHash aliceArgs.password 10) :=
  ⟨rfl, by decide, by decide,
    (register_default_role sampleTest sampleHash sampleSign aliceArgs ⟨none⟩ 7 sampleDb
      Cache.empty [] rfl (by decide) (by decide)).1⟩

/-! ## `login` -/

/-- **C19.** `login(username, password)`, for every store and world: when the store finds no user
with the username, and when it finds one but `bcrypt.compare` rejects the password, it throws the
same `AuthenticationError` with the same message; it succeeds iff the store finds the user and
the password verifies, and then returns that user with `generateToken` of that user's id. On the
reference store the lookup finds nobody exactly when no stored user has the username. -/
theorem login_spec {σ : Type} (S : Storage σ) (bcryptCompare : String → String → Bool)
    (jwtSign : ObjectId → String → Int → String) (username password : String) (now : Int)
    (w : World σ) :
    invalidCredentials = ⟨.AuthenticationError, "Invalid username or password"⟩ ∧
    (S.userFindOne (.byUsername username) w.db = .ok none →
      Mutation.login S bcryptCompare jwtSign username password now w =
        (.error invalidCredentials,
          ⟨w.db, w.cache, w.log ++ [.userFindOne (.byUsername username)]⟩)) ∧
    (∀ u : UserDoc, S.userFindOne (.byUsername username) w.db = .ok (some u) →
      bcryptCompare password u.password = false →
      Mutation.login S bcryptCompare jwtSign username password now w =
        (.error invalidCredentials,
          ⟨w.db, w.cache, w.log ++ [.userFindOne (.byUsername username)]⟩)) ∧
    (∀ u : UserDoc, S.userFindOne (.byUsername username) w.db = .ok (some u) →
      bcryptCompare password u.password = true →
      Mutation.login S bcryptCompare jwtSign username password now w =
        (.ok ⟨generateToken jwtSign u._id now, u⟩,
          ⟨w.db, w.cache, w.log ++ [.userFindOne (.byUsername username)]⟩)) ∧
    ((∃ r, (Mutation.login S bcryptCompare jwtSign username password now w).1 = .ok r) ↔
      ∃ u : UserDoc, S.userFindOne (.byUsername username) w.db = .ok (some u) ∧
        bcryptCompare password u.password = true) ∧
    (∀ (test : RegExp → String → Bool) (db : MemDb),
      ((memStorage test).userFindOne (.byUsername username) db = .ok none ↔
        ∀ x ∈ db.users, x.username ≠ username) ∧
      (∀ u, (memStorage test).userFindOne (.byUsername username) db = .ok (some u) →
        u ∈ db.users ∧ u.username = username)) := by
  refine ⟨rfl, ?_, ?_, ?_, ?_, ?_⟩
  · intro h
    simp [Mutation.login, World.call, h]
  · intro u h hv
    simp [Mutation.login, World.call, h, hv]
  · intro u h hv
    simp [Mutation.login, World.call, h, hv]
  · constructor
    · rintro ⟨r, hr⟩
      simp only [Mutation.login, World.call] at hr
      cases hfind : S.userFindOne (.byUsername username) w.db with
      | error e => simp [hfind] at hr
      | ok found =>
        cases found with
        | none => simp [hfind] at hr
        | some u =>
          refine ⟨u, rfl, ?_⟩
          cases hv : bcryptCompare password u.password with
          | true => rfl
          | false => simp [hfind, hv] at hr
    · rintro ⟨u, h, hv⟩
      exact ⟨⟨generateToken jwtSign u._id now, u⟩, by simp [Mutation.login, World.call, h, hv]⟩
  · intro test db
    refine ⟨?_, ?_⟩
    · simp [memStorage, List.find?_eq_none, MemDb.matchesUser]
    · intro u hu
      simp only [memStorage, Except.ok.injEq] at hu
      refine ⟨List.mem_of_find?_eq_some hu, ?_⟩
      have := List.find?_some hu
      simpa [MemDb.matchesUser] using this

/-! ## Not-found failures -/

/-- The reference store answers `null`, unchanged, to an update or a delete of an employee id it
does not hold. -/
theorem MemDb.employee_absent (test : RegExp → String → Bool) (db : MemDb) (id : String)
    (habs : ∀ d ∈ db.employees, d._id.toString ≠ id) (updates : EmployeeUpdates) :
    (memStorage test).findByIdAndUpdate id updates db = (.ok none, db) ∧
    (memStorage test).findByIdAndDelete id db = (.ok none, db) := by
  have hfind : db.employees.find? (fun d => decide (d._id.toString = id)) = none := by
    apply List.find?_eq_none.mpr
    intro d hd
    simp [habs d hd]
  simp [memStorage, hfind]

/-- The reference store answers `null`, unchanged, to an update of a user id it does not hold. -/
theorem MemDb.user_absent (test : RegExp → String → Bool) (db : MemDb) (userId : String)
    (habs : ∀ u ∈ db.users, u._id.toString ≠ userId) (update : UserUpdate) :
    (memStorage test).userFindByIdAndUpdate userId update db = (.ok none, db) := by
  have hfind : db.users.find? (fun u => decide (u._id.toString = userId)) = none := by
    apply List.find?_eq_none.mpr
    intro u hu
    simp [habs u hu]
  simp [memStorage, hfind]

/-- **C20.** For an `ADMIN` caller and every store: when the store answers `null` to the
update or delete (the id is absent), `updateEmployee` and `deleteEmployee` throw
"Employee with ID ... not found", and `assignEmployeeToUser` and `updateUserRole` throw
"User with ID ... not found"; the failure is thrown, not returned as `null` or `false`, the cache
is unchanged, and the store is as its own call left it. On the reference store, an id that no
record has gets that answer and the store is unchanged, so the world afterwards differs from the
world before by the logged call alone. -/
theorem not_found_errors {σ : Type} (S : Storage σ) (admin : UserDoc)
    (hadmin : admin.role = "ADMIN") (w : World σ) :
    (∀ id userId : String,
      employeeNotFound id = ⟨.Error, "Employee with ID " ++ id ++ " not found"⟩ ∧
      userNotFound userId = ⟨.Error, "User with ID " ++ userId ++ " not found"⟩) ∧
    (∀ (id : String) (updates : EmployeeUpdates) (db2 : σ),
      S.findByIdAndUpdate id updates w.db = (.ok none, db2) →
      Mutation.updateEmployee S id updates (some ⟨some admin⟩) w =
        (.error (employeeNotFound id),
          ⟨db2, w.cache, w.log ++ [.employeeFindByIdAndUpdate id updates]⟩)) ∧
    (∀ (id : String) (db2 : σ),
      S.findByIdAndDelete id w.db = (.ok none, db2) →
      Mutation.deleteEmployee S id ⟨some admin⟩ w =
        (.error (employeeNotFound id), ⟨db2, w.cache, w.log ++ [.employeeFindByIdAndDelete id]⟩)) ∧
    (∀ (userId employeeId : String) (db2 : σ),
      S.userFindByIdAndUpdate userId (.employeeId employeeId) w.db = (.ok none, db2) →
      Mutation.assignEmployeeToUser S userId employeeId ⟨some admin⟩ w =
        (.error (userNotFound userId),
          ⟨db2, w.cache, w.log ++ [.userFindByIdAndUpdate userId (.employeeId employeeId)]⟩)) ∧
    (∀ (userId role : String) (db2 : σ),
      S.userFindByIdAndUpdate userId (.role role) w.db = (.ok none, db2) →
      Mutation.updateUserRole S userId role ⟨some admin⟩ w =
        (.error (userNotFound userId),
          ⟨db2, w.cache, w.log ++ [.userFindByIdAndUpdate userId (.role role)]⟩)) ∧
    (∀ (test : RegExp → String → Bool) (db : MemDb) (cache : Cache Payload) (log : List DbCall)
        (id : String) (updates : EmployeeUpdates),
      (∀ d ∈ db.employees, d._id.toString ≠ id) →
      Mutation.updateEmployee (memStorage test) id updates (some ⟨some admin⟩) ⟨db, cache, log⟩ =
        (.error (employeeNotFound id),
          ⟨db, cache, log ++ [.employeeFindByIdAndUpdate id updates]⟩) ∧
      Mutation.deleteEmployee (memStorage test) id ⟨some admin⟩ ⟨db, cache, log⟩ =
        (.error (employeeNotFound id), ⟨db, cache, log ++ [.employeeFindByIdAndDelete id]⟩)) ∧
    (∀ (test : RegExp → String → Bool) (db : MemDb) (cache : Cache Payload) (log : List DbCall)
        (userId employeeId role : String),
      (∀ u ∈ db.users, u._id.toString ≠ userId) →
      Mutation.assignEmployeeToUser (memStorage test) userId employeeId ⟨some admin⟩
          ⟨db, cache, log⟩ =
        (.error (userNotFound userId),
          ⟨db, cache, log ++ [.userFindByIdAndUpdate userId (.employeeId employeeId)]⟩) ∧
      Mutation.updateUserRole (memStorage test) userId role ⟨some admin⟩ ⟨db, cache, log⟩ =
        (.error (userNotFound userId),
          ⟨db, cache, log ++ [.userFindByIdAndUpdate userId (.role role)]⟩)) := by
  have hr := requireRole_admin_of_admin admin hadmin
  have hupd : ∀ (τ : Type) (T : Storage τ) (v : World τ) (id : String)
      (updates : EmployeeUpdates) (db2 : τ),
      T.findByIdAndUpdate id updates v.db = (.ok none, db2) →
      Mutation.updateEmployee T id updates (some ⟨some admin⟩) v =
        (.error (employeeNotFound id),
          ⟨db2, v.cache, v.log ++ [.employeeFindByIdAndUpdate id updates]⟩) := by
    intro τ T v id updates db2 h
    simp [Mutation.updateEmployee, contextUser, requireAuth, hr, World.call, h]
  have hdel : ∀ (τ : Type) (T : Storage τ) (v : World τ) (id : String) (db2 : τ),
      T.findByIdAndDelete id v.db = (.ok none, db2) →
      Mutation.deleteEmployee T id ⟨some admin⟩ v =
        (.error (employeeNotFound id),
          ⟨db2, v.cache, v.log ++ [.employeeFindByIdAndDelete id]⟩) := by
    intro τ T v id db2 h
    simp [Mutation.deleteEmployee, requireAuth, hr, World.call, h]
  have husr : ∀ (τ : Type) (T : Storage τ) (v : World τ) (userId : String) (update : UserUpdate)
      (db2 : τ),
      T.userFindByIdAndUpdate userId update v.db = (.ok none, db2) →
      updateUserGuarded T userId update ⟨some admin⟩ v =
        (.error (userNotFound userId),
          ⟨db2, v.cache, v.log ++ [.userFindByIdAndUpdate userId update]⟩) := by
    intro τ T v userId update db2 h
    simp [updateUserGuarded, requireAuth, hr, World.call, h]
  refine ⟨fun _ _ => ⟨rfl, rfl⟩, ?_, ?_, ?_, ?_, ?_, ?_⟩
  · intro id updates db2 h
    exact hupd σ S w id updates db2 h
  · intro id db2 h
    exact hdel σ S w id db2 h
  · intro userId employeeId db2 h
    exact husr σ S w userId _ db2 h
  · intro userId role db2 h
    exact husr σ S w userId _ db2 h
  · intro test db cache log id updates habs
    obtain ⟨h1, h2⟩ := MemDb.employee_absent test db id habs updates
    exact ⟨hupd MemDb (memStorage test) ⟨db, cache, log⟩ id updates db h1,
      hdel MemDb (memStorage test) ⟨db, cache, log⟩ id db h2⟩
  · intro test db cache log userId employeeId role habs
    exact ⟨husr MemDb (memStorage test) ⟨db, cache, log⟩ userId _ db
        (MemDb.user_absent test db userId habs _),
      husr MemDb (memStorage test) ⟨db, cache, log⟩ userId _ db
        (MemDb.user_absent test db userId habs _)⟩

/-- Witness for C20: the sample administrator deletes an id the sample store does not hold. -/
theorem not_found_errors_witness :
    sampleAdmin.role = "ADMIN" ∧
    (∀ (id : String) (db2 : MemDb),
      (memStorage sampleTest).findByIdAndDelete id sampleDb = (.ok none, db2) →
      Mutation.deleteEmployee (memStorage sampleTest) id ⟨some sampleAdmin⟩
          ⟨sampleDb, Cache.empty, []⟩ =
        (.error (employeeNotFound id),
          ⟨db2, Cache.empty, [] ++ [.employeeFindByIdAndDelete id]⟩)) ∧
    Mutation.deleteEmployee (memStorage sampleTest) "nobody" ⟨some sampleAdmin⟩
        ⟨sampleDb, Cache.empty, []⟩ =
      (.error (employeeNotFound "nobody"),
        ⟨sampleDb, Cache.empty, [.employeeFindByIdAndDelete "nobody"]⟩) :=
  ⟨rfl,
    (not_found_errors (memStorage sampleTest) sampleAdmin rfl
      ⟨sampleDb, Cache.empty, []⟩).2.2.1, rfl⟩

/-! ## The name filter -/

/-- An ordinary character is none of `.`, `(`, `)`. -/
theorem isOrdinaryChar_ne (c : Char) (h : isOrdinaryChar c = true) :
    c ≠ '.' ∧ c ≠ '(' ∧ c ≠ ')' := by
  refine ⟨?_, ?_, ?_⟩ <;>
  · intro hc
    subst hc
    revert h
    decide

/-- A pattern without `.` matches a prefix of the subject, case ignored, exactly when its folded
characters are a prefix of the folded subject. -/
theorem matchesAt_iff_prefix (pat cs : List Char) (hpat : ∀ p ∈ pat, p ≠ '.') :
    matchesAt true pat cs = true ↔ pat.map foldCase <+: cs.map foldCase := by
  induction pat generalizing cs with
  | nil => simp [matchesAt]
  | cons p ps ih =>
    have hp : p ≠ '.' := hpat p (List.mem_cons_self _ _)
    have hps : ∀ q ∈ ps, q ≠ '.' := fun q hq => hpat q (List.mem_cons_of_mem _ hq)
    cases cs with
    | nil => simp [matchesAt]
    | cons c cs =>
      simp only [matchesAt, atomMatches, hp, if_false, if_true, Bool.and_eq_true, beq_iff_eq,
        List.map_cons, List.cons_prefix_cons, ih cs hps]

/-- A pattern without `.` matches somewhere in the subject, case ignored, exactly when its folded
characters occur in the folded subject. -/
theorem searchFrom_iff_infix (pat cs : List Char) (hpat : ∀ p ∈ pat, p ≠ '.') :
    searchFrom true pat cs = true ↔ pat.map foldCase <:+: cs.map foldCase := by
  induction cs with
  | nil =>
    simp only [searchFrom, matchesAt_iff_prefix pat [] hpat, List.map_nil, List.prefix_nil,
      List.infix_nil]
  | cons c cs ih =>
    simp only [searchFrom, Bool.or_eq_true, matchesAt_iff_prefix pat (c :: cs) hpat, ih,
      List.map_cons, List.infix_cons_iff]

/-- A pattern without parentheses is balanced exactly at depth zero. -/
theorem parensBalanced_of_no_parens (l : List Char) (depth : Nat)
    (h : ∀ c ∈ l, c ≠ '(' ∧ c ≠ ')') : parensBalanced l depth = (depth == 0) := by
  induction l generalizing depth with
  | nil => simp [parensBalanced]
  | cons c cs ih =>
    have hc := h c (List.mem_cons_self _ _)
    have hcs : ∀ x ∈ cs, x ≠ '(' ∧ x ≠ ')' := fun x hx => h x (List.mem_cons_of_mem _ hx)
    simp [parensBalanced, hc.1, hc.2, ih depth hcs]

/-- On patterns of ordinary characters the fragment engine accepts the pattern and matches it as
a case-insensitive substring. -/
theorem fragment_literal (source name : String)
    (hord : source.toList.all isOrdinaryChar = true) :
    fragmentNewRegExp source "i" = .ok ⟨source, "i"⟩ ∧
    (fragmentTest ⟨source, "i"⟩ name = true ↔ occursIgnoringCase source name) := by
  have hall : ∀ c ∈ source.toList, isOrdinaryChar c = true := List.all_eq_true.mp hord
  have hne : ∀ c ∈ source.toList, c ≠ '.' ∧ c ≠ '(' ∧ c ≠ ')' :=
    fun c hc => isOrdinaryChar_ne c (hall c hc)
  constructor
  · have hbal : parensBalanced source.toList 0 = true := by
      rw [parensBalanced_of_no_parens source.toList 0 (fun c hc => (hne c hc).2)]
      rfl
    unfold fragmentNewRegExp
    rw [if_pos hbal]
  · have hfilter : source.toList.filter (fun c => c != '(' && c != ')') = source.toList := by
      apply List.filter_eq_self.mpr
      intro c hc
      simp [(hne c hc).2.1, (hne c hc).2.2]
    have hflag : ("i" : String).toList.contains 'i' = true := by decide
    simp only [fragmentTest, hfilter, hflag, occursIgnoringCase]
    exact searchFrom_iff_infix _ _ (fun c hc => (hne c hc).1)

/-- Counterexample for C14, on patterns of the fragment: `filterName = "."` selects `Alice`
although `.` does not occur in the name (the dot is a wildcard, not a literal), and
`filterName = "("` makes the query fail with the `SyntaxError` of the `RegExp` constructor,
before any store call. -/
theorem filter_not_literal :
    inFragment "." = true ∧ inFragment "(" = true ∧
    (Query.employees (memStorage fragmentTest) fragmentNewRegExp
      ⟨none, none, none, none, some "."⟩ (some ⟨none⟩) 0 5 ⟨sampleDb, Cache.empty, []⟩).1 =
        .ok samplePage ∧
    samplePage = .page ⟨[formatEmployee sampleAlice], mkPageInfo 1 10 1⟩ ∧
    sampleAlice.name = "Alice" ∧
    ¬ occursIgnoringCase "." "Alice" ∧
    Query.employees (memStorage fragmentTest) fragmentNewRegExp
      ⟨none, none, none, none, some "("⟩ (some ⟨none⟩) 0 5 ⟨sampleDb, Cache.empty, []⟩ =
        (.error (invalidRegExp "("), ⟨sampleDb, Cache.empty, []⟩) ∧
    (invalidRegExp "(").cls = .SyntaxError := by
  refine ⟨by decide, by decide, rfl, rfl, rfl, ?_, rfl, rfl⟩
  unfold occursIgnoringCase
  decide

/-- **C14 (amended).** The name filter of `employees`, for every `RegExp` constructor
`newRegExp` and every matcher `test` of the store.

On a cache hit the cached payload is returned whatever `filterName` is: neither the constructor
nor the store is consulted. On a cache miss:
* an absent or empty `filterName` makes `employees` issue the count with the filter `{}`, on every
  store; on the reference store the page returned is the chunk of all employees, sorted, and
  `totalCount` is their number;
* a non-empty `filterName` that the constructor accepts is passed unescaped to
  `new RegExp(filterName, 'i')`, and the count and the find are issued with the filter
  `{ name: <that expression> }`, on every store; on the reference store the page returned is the
  chunk of the employees whose name the expression matches, sorted, and `totalCount` is their
  number;
* a non-empty `filterName` that the constructor rejects makes `employees` fail with the
  constructor's error before any store call, on every store;
* if the engines treat a text of ordinary characters as the specification says
  (`LiteralContract`), then for a non-empty `filterName` of ordinary characters the employees
  selected on the reference store are exactly those in whose name `filterName` occurs, case
  ignored.

The engines of the fragment satisfy `LiteralContract`. -/
theorem name_filter_spec (test : RegExp → String → Bool)
    (newRegExp : String → String → Except JsError RegExp) :
    (∀ (σ : Type) (S : Storage σ) (args : EmployeesArgs) (ctx : Context) (now later : Int)
        (w : World σ) (v : Payload),
      w.cache.get now args.cacheKey = (some v, w.cache) →
      Query.employees S newRegExp args (some ctx) now later w = (.ok v, w)) ∧
    (∀ (σ : Type) (S : Storage σ) (args : EmployeesArgs) (ctx : Context) (now later : Int)
        (w : World σ),
      truthy args.filterName = false → (w.cache.get now args.cacheKey).1 = none →
      ∃ rest, (Query.employees S newRegExp args (some ctx) now later w).2.log =
        w.log ++ (.employeeCountDocuments ⟨none⟩ :: rest)) ∧
    (∀ (filterName sortBy sortOrder : Option String) (p limit : Int) (db : MemDb)
        (cache : Cache Payload) (log : List DbCall) (ctx : Context) (now later : Int),
      truthy filterName = false → 1 ≤ p → 0 < limit → db.employees.length < 2 ^ 53 →
      (cache.get now
        (EmployeesArgs.cacheKey ⟨some p, some limit, sortBy, sortOrder, filterName⟩)).1 = none →
      (Query.employees (memStorage test) newRegExp
          ⟨some p, some limit, sortBy, sortOrder, filterName⟩ (some ctx) now later
          ⟨db, cache, log⟩).1 =
        .ok (.page
          ⟨(((MemDb.sortDocs (safeSortBy (sortBy.getD "name"))
              (safeSortOrder (sortOrder.getD "asc")) db.employees).drop
                ((p - 1) * limit).toNat).take limit.toNat).map formatEmployee,
            mkPageInfo p limit db.employees.length⟩)) ∧
    (∀ (s : String) (re : RegExp), s ≠ "" → newRegExp s "i" = .ok re →
      (∀ (σ : Type) (S : Storage σ) (args : EmployeesArgs) (ctx : Context) (now later : Int)
          (w : World σ),
        args.filterName = some s → (w.cache.get now args.cacheKey).1 = none →
        ∃ rest, (Query.employees S newRegExp args (some ctx) now later w).2.log =
            w.log ++ (.employeeCountDocuments ⟨some re⟩ :: rest) ∧
          (∀ n, S.countDocuments ⟨some re⟩ w.db = .ok n →
            rest = [.employeeFind ⟨some re⟩ (safeSortBy (args.sortBy.getD "name"))
              (safeSortOrder (args.sortOrder.getD "asc"))
              (roundToDouble ((args.page.getD 1 - 1) * args.limit.getD 10))
              (args.limit.getD 10)])) ∧
      (∀ (sortBy sortOrder : Option String) (p limit : Int) (db : MemDb)
          (cache : Cache Payload) (log : List DbCall) (ctx : Context) (now later : Int),
        1 ≤ p → 0 < limit → db.employees.length < 2 ^ 53 →
        (cache.get now
          (EmployeesArgs.cacheKey ⟨some p, some limit, sortBy, sortOrder, some s⟩)).1 = none →
        (Query.employees (memStorage test) newRegExp
            ⟨some p, some limit, sortBy, sortOrder, some s⟩ (some ctx) now later
            ⟨db, cache, log⟩).1 =
          .ok (.page
            ⟨(((MemDb.sortDocs (safeSortBy (sortBy.getD "name"))
                (safeSortOrder (sortOrder.getD "asc"))
                (db.employees.filter (fun d => test re d.name))).drop
                  ((p - 1) * limit).toNat).take limit.toNat).map formatEmployee,
              mkPageInfo p limit (db.employees.filter (fun d => test re d.name)).length⟩))) ∧
    (∀ (s : String) (e : JsError), s ≠ "" → newRegExp s "i" = .error e →
      ∀ (σ : Type) (S : Storage σ) (args : EmployeesArgs) (ctx : Context) (now later : Int)
        (w : World σ) (c : Cache Payload),
      args.filterName = some s → w.cache.get now args.cacheKey = (none, c) →
      Query.employees S newRegExp args (some ctx) now later w = (.error e, ⟨w.db, c, w.log⟩)) ∧
    (LiteralContract newRegExp test →
      ∀ (s : String), s ≠ "" → s.toList.all isOrdinaryChar = true →
      ∀ (sortBy sortOrder : Option String) (p limit : Int) (db : MemDb)
        (cache : Cache Payload) (log : List DbCall) (ctx : Context) (now later : Int),
      1 ≤ p → 0 < limit → db.employees.length < 2 ^ 53 →
      (cache.get now
        (EmployeesArgs.cacheKey ⟨some p, some limit, sortBy, sortOrder, some s⟩)).1 = none →
      ∃ selected : List EmployeeDoc,
        selected.Sublist db.employees ∧
        (∀ d : EmployeeDoc, d ∈ selected ↔ d ∈ db.employees ∧ occursIgnoringCase s d.name) ∧
        (Query.employees (memStorage test) newRegExp
            ⟨some p, some limit, sortBy, sortOrder, some s⟩ (some ctx) now later
            ⟨db, cache, log⟩).1 =
          .ok (.page
            ⟨(((MemDb.sortDocs (safeSortBy (sortBy.getD "name"))
                (safeSortOrder (sortOrder.getD "asc")) selected).drop
                  ((p - 1) * limit).toNat).take limit.toNat).map formatEmployee,
              mkPageInfo p limit selected.length⟩)) ∧
    LiteralContract fragmentNewRegExp fragmentTest := by
  have hsome : ∀ (s : String) (re : RegExp), s ≠ "" → newRegExp s "i" = .ok re →
      buildFilter newRegExp (some s) = .ok ⟨some re⟩ := by
    intro s re hs hre
    have htruthy : truthy (some s) = true := by simp [truthy, hs]
    simp [buildFilter, htruthy, hre]
  have hpage : ∀ (s : String) (re : RegExp), s ≠ "" → newRegExp s "i" = .ok re →
      ∀ (sortBy sortOrder : Option String) (p limit : Int) (db : MemDb)
        (cache : Cache Payload) (log : List DbCall) (ctx : Context) (now later : Int),
      1 ≤ p → 0 < limit → db.employees.length < 2 ^ 53 →
      (cache.get now
        (EmployeesArgs.cacheKey ⟨some p, some limit, sortBy, sortOrder, some s⟩)).1 = none →
      (Query.employees (memStorage test) newRegExp
          ⟨some p, some limit, sortBy, sortOrder, some s⟩ (some ctx) now later
          ⟨db, cache, log⟩).1 =
        .ok (.page
          ⟨(((MemDb.sortDocs (safeSortBy (sortBy.getD "name"))
              (safeSortOrder (sortOrder.getD "asc"))
              (db.employees.filter (fun d => test re d.name))).drop
                ((p - 1) * limit).toNat).take limit.toNat).map formatEmployee,
            mkPageInfo p limit (db.employees.filter (fun d => test re d.name)).length⟩) := by
    intro s re hs hre sortBy sortOrder p limit db cache log ctx now later hp hlimit hsize hmiss
    have h := memStorage_page test newRegExp db sortBy sortOrder (some s) ⟨some re⟩ limit p
      hlimit hp (hsome s re hs hre) hsize cache log ctx now later hmiss
    have hsel : MemDb.selects test ⟨some re⟩ = fun d => test re d.name := by
      funext d
      rfl
    rw [hsel] at h
    exact h
  refine ⟨?_, ?_, ?_, ?_, ?_, ?_, ?_⟩
  · intro σ S args ctx now later w v hhit
    exact employees_of_hit S newRegExp args ctx now later w v hhit
  · intro σ S args ctx now later w hfalsy hmiss
    have hget : w.cache.get now args.cacheKey = (none, (w.cache.get now args.cacheKey).2) :=
      Prod.ext hmiss rfl
    have hf : buildFilter newRegExp args.filterName = .ok ⟨none⟩ := by
      simp [buildFilter, hfalsy]
    rw [employees_of_miss S newRegExp args ctx now later w _ hget]
    obtain ⟨rest, hlog, -⟩ := employeesFromStorage_log S newRegExp (args.page.getD 1)
      (args.limit.getD 10) (args.sortBy.getD "name") (args.sortOrder.getD "asc") args.filterName
      args.cacheKey later { w with cache := (w.cache.get now args.cacheKey).2 } ⟨none⟩ hf
    exact ⟨rest, hlog⟩
  · intro filterName sortBy sortOrder p limit db cache log ctx now later hfalsy hp hlimit hsize
      hmiss
    have hf : buildFilter newRegExp filterName = .ok ⟨none⟩ := by
      simp [buildFilter, hfalsy]
    have h := memStorage_page test newRegExp db sortBy sortOrder filterName ⟨none⟩ limit p
      hlimit hp hf hsize cache log ctx now later hmiss
    rw [MemDb.filter_selects_all] at h
    exact h
  · intro s re hs hre
    refine ⟨?_, hpage s re hs hre⟩
    intro σ S args ctx now later w hname hmiss
    have hget : w.cache.get now args.cacheKey = (none, (w.cache.get now args.cacheKey).2) :=
      Prod.ext hmiss rfl
    have hf : buildFilter newRegExp args.filterName = .ok ⟨some re⟩ := by
      rw [hname]
      exact hsome s re hs hre
    rw [employees_of_miss S newRegExp args ctx now later w _ hget]
    exact employeesFromStorage_log S newRegExp (args.page.getD 1)
      (args.limit.getD 10) (args.sortBy.getD "name") (args.sortOrder.getD "asc") args.filterName
      args.cacheKey later { w with cache := (w.cache.get now args.cacheKey).2 } ⟨some re⟩ hf
  · intro s e hs he σ S args ctx now later w c hname hget
    have htruthy : truthy (some s) = true := by simp [truthy, hs]
    have hf : buildFilter newRegExp args.filterName = .error e := by
      rw [hname]
      simp [buildFilter, htruthy, he]
    rw [employees_of_miss S newRegExp args ctx now later w c hget]
    simp [employeesFromStorage, hf]
  · intro hcontract s hs hord sortBy sortOrder p limit db cache log ctx now later hp hlimit
      hsize hmiss
    obtain ⟨re, hre, hmatch⟩ := hcontract s hord
    refine ⟨db.employees.filter (fun d => test re d.name), List.filter_sublist _, ?_,
      hpage s re hs hre sortBy sortOrder p limit db cache log ctx now later hp hlimit hsize
        hmiss⟩
    intro d
    rw [List.mem_filter, hmatch d.name]
  · intro source hord
    exact ⟨⟨source, "i"⟩, (fragment_literal source "" hord).1,
      fun name => (fragment_literal source name hord).2⟩

/-! ## `authenticate` -/

/-- The token of a header that starts with `Bearer ` is the rest of the header. -/
theorem bearerToken_of_bearer_header (h : String) (hp : "Bearer ".toList <+: h.toList) :
    bearerToken h = String.mk (h.toList.drop 7) ∧ "Bearer " ++ bearerToken h = h := by
  have hpre : "Bearer ".toList.isPrefixOf h.toList = true := List.isPrefixOf_iff_prefix.mpr hp
  have htok : bearerToken h = String.mk (h.toList.drop 7) := by
    unfold bearerToken
    rw [if_pos hpre]
  refine ⟨htok, ?_⟩
  rw [htok]
  obtain ⟨r, hr⟩ := hp
  apply String.ext
  rw [String.data_append]
  show "Bearer ".toList ++ List.drop 7 h.toList = h.toList
  rw [← hr]
  rfl

/-- The token of a header that does not start with `Bearer ` is empty. -/
theorem bearerToken_of_other_header (h : String) (hp : ¬ "Bearer ".toList <+: h.toList) :
    bearerToken h = "" := by
  have hpre : ¬ "Bearer ".toList.isPrefixOf h.toList = true :=
    fun hc => hp (List.isPrefixOf_iff_prefix.mp hc)
  unfold bearerToken
  rw [if_neg hpre]

/-- The token of `"Bearer " + token` is `token`. -/
theorem bearerToken_append (token : String) : bearerToken ("Bearer " ++ token) = token := by
  have hp : "Bearer ".toList <+: ("Bearer " ++ token).toList := by
    show "Bearer ".data <+: ("Bearer " ++ token).data
    rw [String.data_append]
    exact List.prefix_append _ _
  rw [(bearerToken_of_bearer_header _ hp).1]
  apply String.ext
  show List.drop 7 ("Bearer " ++ token).data = token.data
  rw [String.data_append]
  rfl

/-- What `authenticate` does with a header carrying a non-empty token. -/
theorem authenticate_of_token {σ : Type} (S : Storage σ)
    (jwtVerify : String → Int → Except JsError JwtPayload) (h : String) (now : Int)
    (w : World σ) (hh : h ≠ "") (htoken : bearerToken h ≠ "") :
    authenticate S jwtVerify ⟨some h⟩ now w =
      match jwtVerify (bearerToken h) now with
      | .error _ => (none, w)
      | .ok decoded =>
        match S.userFindById decoded.userId w.db with
        | .error _ => (none, ⟨w.db, w.cache, w.log ++ [.userFindById decoded.userId]⟩)
        | .ok user => (user, ⟨w.db, w.cache, w.log ++ [.userFindById decoded.userId]⟩) := by
  have htruthy : truthy (some h) = true := by simp [truthy, hh]
  simp only [authenticate, htruthy, if_true, Option.getD_some, htoken, if_false, World.call]

/-- **C21.** `authenticate` is total (every exception inside it is caught and becomes `null`).
For every store, verifier, time and world it returns `null`, without a store call, when the
`Authorization` header is absent, does not start with `Bearer `, or has nothing after that
prefix, and when `jwt.verify` throws; with a header `Bearer ` + token and a token that verifies,
the token is exactly the text after the seven-character prefix, `findById` is issued for the
decoded `userId`, and the result is `null` when the store answers `null` (or throws) and the
stored user it answers otherwise. On the reference store `findById` answers `null` exactly when
no user has the id, and otherwise a stored user with that id. -/
theorem authenticate_spec {σ : Type} (S : Storage σ)
    (jwtVerify : String → Int → Except JsError JwtPayload) (now : Int) (w : World σ) :
    authenticate S jwtVerify ⟨none⟩ now w = (none, w) ∧
    (∀ h : String, ¬ "Bearer ".toList <+: h.toList →
      authenticate S jwtVerify ⟨some h⟩ now w = (none, w)) ∧
    authenticate S jwtVerify ⟨some "Bearer "⟩ now w = (none, w) ∧
    (∀ h : String, "Bearer ".toList <+: h.toList →
      "Bearer " ++ bearerToken h = h ∧
      (bearerToken h = "" → authenticate S jwtVerify ⟨some h⟩ now w = (none, w)) ∧
      (bearerToken h ≠ "" →
        (∀ e, jwtVerify (bearerToken h) now = .error e →
          authenticate S jwtVerify ⟨some h⟩ now w = (none, w)) ∧
        (∀ decoded, jwtVerify (bearerToken h) now = .ok decoded →
          (S.userFindById decoded.userId w.db = .ok none →
            authenticate S jwtVerify ⟨some h⟩ now w =
              (none, ⟨w.db, w.cache, w.log ++ [.userFindById decoded.userId]⟩)) ∧
          (∀ e, S.userFindById decoded.userId w.db = .error e →
            authenticate S jwtVerify ⟨some h⟩ now w =
              (none, ⟨w.db, w.cache, w.log ++ [.userFindById decoded.userId]⟩)) ∧
          (∀ u, S.userFindById decoded.userId w.db = .ok (some u) →
            authenticate S jwtVerify ⟨some h⟩ now w =
              (some u, ⟨w.db, w.cache, w.log ++ [.userFindById decoded.userId]⟩))))) ∧
    (∀ (test : RegExp → String → Bool) (db : MemDb) (i : String),
      ((memStorage test).userFindById (some i) db = .ok none ↔
        ∀ u ∈ db.users, u._id.toString ≠ i) ∧
      (∀ u, (memStorage test).userFindById (some i) db = .ok (some u) →
        u ∈ db.users ∧ u._id.toString = i)) := by
  have hempty : ∀ h : String, bearerToken h = "" →
      authenticate S jwtVerify ⟨some h⟩ now w = (none, w) := by
    intro h htok
    unfold authenticate
    by_cases hh : truthy (some h) = true
    · simp only [hh, if_true, Option.getD_some, htok]
    · have hb : bearerToken "" = "" := rfl
      simp only [hh, if_false, hb, if_true]
      rfl
  refine ⟨rfl, ?_, rfl, ?_, ?_⟩
  · intro h hp
    exact hempty h (bearerToken_of_other_header h hp)
  · intro h hp
    refine ⟨(bearerToken_of_bearer_header h hp).2, hempty h, ?_⟩
    intro htok
    have hh : h ≠ "" := by
      intro hc
      subst hc
      exact htok rfl
    have hauth := authenticate_of_token S jwtVerify h now w hh htok
    refine ⟨?_, ?_⟩
    · intro e he
      rw [hauth, he]
    · intro decoded hd
      refine ⟨?_, ?_, ?_⟩
      · intro hs
        rw [hauth, hd]
        simp only [hs]
      · intro e hs
        rw [hauth, hd]
        simp only [hs]
      · intro u hs
        rw [hauth, hd]
        simp only [hs]
  · intro test db i
    refine ⟨?_, ?_⟩
    · simp [memStorage, List.find?_eq_none]
    · intro u hu
      simp only [memStorage, Except.ok.injEq] at hu
      refine ⟨List.mem_of_find?_eq_some hu, ?_⟩
      have := List.find?_some hu
      simpa using this

/-! ## Formatting of employee records -/

/-- **C23.** The formatted record of a stored record has `id` equal to the string form of the
stored `_id`, its `_id` suppressed, and every other stored field unchanged; and the records that
`employees` and `employee` return on a miss, and that `addEmployee` and `updateEmployee` return
on success, are the formatted records of what the store returned. -/
theorem formatted_records {σ : Type} (S : Storage σ) (w : World σ) :
    (∀ emp : EmployeeDoc,
      (formatEmployee emp).id = emp._id.toString ∧ (formatEmployee emp)._id = none ∧
      (formatEmployee emp).name = emp.name ∧ (formatEmployee emp).age = emp.age ∧
      (formatEmployee emp).class_ = emp.class_ ∧ (formatEmployee emp).subjects = emp.subjects ∧
      (formatEmployee emp).attendance = emp.attendance ∧
      (formatEmployee emp).createdAt = emp.createdAt ∧
      (formatEmployee emp).updatedAt = emp.updatedAt) ∧
    (∀ (newRegExp : String → String → Except JsError RegExp) (args : EmployeesArgs)
        (ctx : Context) (now later : Int) (payload : Payload) (w1 : World σ),
      (w.cache.get now args.cacheKey).1 = none →
      Query.employees S newRegExp args (some ctx) now later w = (.ok payload, w1) →
      ∃ (filter : EmployeeFilter) (docs : List EmployeeDoc) (info : PageInfo),
        S.find filter (safeSortBy (args.sortBy.getD "name"))
          (safeSortOrder (args.sortOrder.getD "asc"))
          (roundToDouble ((args.page.getD 1 - 1) * args.limit.getD 10)) (args.limit.getD 10)
          w.db = .ok docs ∧
        payload = .page ⟨docs.map formatEmployee, info⟩) ∧
    (∀ (id : String) (now later : Int) (c : Cache Payload) (d : EmployeeDoc),
      w.cache.get now ("employee_" ++ id) = (none, c) → S.findById id w.db = .ok (some d) →
      (Query.employee S id now later w).1 = .ok (some (.employee (formatEmployee d)))) ∧
    (∀ (args : EmployeeInput) (ctx : Option Context) (r : FormattedEmployee) (w1 : World σ),
      Mutation.addEmployee S args ctx w = (.ok r, w1) →
      ∃ employee db2, S.save args w.db = (.ok employee, db2) ∧ r = formatEmployee employee) ∧
    (∀ (id : String) (updates : EmployeeUpdates) (ctx : Option Context)
        (r : FormattedEmployee) (w1 : World σ),
      Mutation.updateEmployee S id updates ctx w = (.ok r, w1) →
      ∃ employee db2, S.findByIdAndUpdate id updates w.db = (.ok (some employee), db2) ∧
        r = formatEmployee employee) := by
  refine ⟨fun emp => ⟨rfl, rfl, rfl, rfl, rfl, rfl, rfl, rfl, rfl⟩, ?_, ?_, ?_, ?_⟩
  · intro newRegExp args ctx now later payload w1 hmiss hrun
    have hget : w.cache.get now args.cacheKey = (none, (w.cache.get now args.cacheKey).2) :=
      Prod.ext hmiss rfl
    rw [employees_of_miss S newRegExp args ctx now later w _ hget] at hrun
    obtain ⟨filter, totalCount, docs, -, -, hd, hpay, -⟩ :=
      employeesFromStorage_ok S newRegExp _ _ _ _ _ _ _ _ _ _ hrun
    exact ⟨filter, docs, _, hd, hpay⟩
  · intro id now later c d hget hd
    simp [Query.employee, hget, World.call, hd]
  · intro args ctx r w1 h
    dsimp only [Mutation.addEmployee] at h
    split at h
    · simp at h
    · split at h
      · simp at h
      · split at h
        · simp at h
        · rename_i employee db2 hsave
          simp only [Prod.mk.injEq, Except.ok.injEq] at h
          exact ⟨employee, db2, hsave, h.1.symm⟩
  · intro id updates ctx r w1 h
    dsimp only [Mutation.updateEmployee] at h
    split at h
    · simp at h
    · split at h
      · simp at h
      · split at h
        · simp at h
        · simp at h
        · rename_i employee db2 hupd
          simp only [Prod.mk.injEq, Except.ok.injEq] at h
          exact ⟨employee, db2, hupd, h.1.symm⟩

/-! ## `formatError` -/

/-- **C24.** `formatError` replaces every error whose `extensions.code` is
`INTERNAL_SERVER_ERROR` by `new Error('Internal server error')` (that message, no extensions; the
original message is gone), and returns every error with another code, without a code, or without
extensions, unchanged. -/
theorem formatError_spec (error : GraphQLError) :
    (error.code = some "INTERNAL_SERVER_ERROR" →
      formatError error = ⟨"Internal server error", none⟩ ∧
      (formatError error).message = "Internal server error") ∧
    (error.code ≠ some "INTERNAL_SERVER_ERROR" → formatError error = error) ∧
    (error.extensions = none → formatError error = error) ∧
    (∀ msg : String, formatError ⟨msg, some ⟨some "INTERNAL_SERVER_ERROR"⟩⟩ =
      ⟨"Internal server error", none⟩) := by
  refine ⟨?_, ?_, ?_, ?_⟩
  · intro h
    simp [formatError, h]
  · intro h
    simp [formatError, h]
  · intro h
    simp [formatError, GraphQLError.code, h]
  · intro msg
    rfl

/-! ## Token round trip -/

/-- **C25.** Let the token service issue and verify the token of user `u` as the specification
says (`TokenContract`: valid for less than seven days after `t0`). Then `authenticate` on the
header `"Bearer " + generateToken(u.id)`:
* while less than seven days have elapsed, issues `findById(u.id)` and returns the user the
  store answers; on the reference store, if `u` is still stored, that is a stored user whose id
  equals `u.id`, and if no user has the id any more it is `null`;
* once seven days have elapsed, returns `null` without a store call. -/
theorem token_round_trip {σ : Type} (S : Storage σ)
    (jwtSign : ObjectId → String → Int → String)
    (jwtVerify : String → Int → Except JsError JwtPayload) (u : UserDoc) (t0 : Int)
    (w : World σ) (hcontract : TokenContract jwtSign jwtVerify u._id t0) :
    generateToken jwtSign u._id t0 = jwtSign u._id "7d" t0 ∧
    (∀ now : Int, now - t0 < sevenDays → ∀ answer : Option UserDoc,
      S.userFindById (some u._id.toString) w.db = .ok answer →
      authenticate S jwtVerify ⟨some ("Bearer " ++ generateToken jwtSign u._id t0)⟩ now w =
        (answer, ⟨w.db, w.cache, w.log ++ [.userFindById (some u._id.toString)]⟩)) ∧
    (∀ now : Int, sevenDays ≤ now - t0 →
      authenticate S jwtVerify ⟨some ("Bearer " ++ generateToken jwtSign u._id t0)⟩ now w =
        (none, w)) ∧
    (∀ (test : RegExp → String → Bool) (db : MemDb) (cache : Cache Payload) (log : List DbCall)
        (now : Int), now - t0 < sevenDays →
      (u ∈ db.users →
        ∃ v, (authenticate (memStorage test) jwtVerify
            ⟨some ("Bearer " ++ generateToken jwtSign u._id t0)⟩ now ⟨db, cache, log⟩).1 = some v ∧
          v ∈ db.users ∧ v._id = u._id) ∧
      ((∀ x ∈ db.users, x._id ≠ u._id) →
        (authenticate (memStorage test) jwtVerify
          ⟨some ("Bearer " ++ generateToken jwtSign u._id t0)⟩ now ⟨db, cache, log⟩).1 = none)) := by
  obtain ⟨hne, hverify⟩ := hcontract
  have htok : bearerToken ("Bearer " ++ generateToken jwtSign u._id t0) =
      jwtSign u._id "7d" t0 := bearerToken_append _
  have hh : "Bearer " ++ generateToken jwtSign u._id t0 ≠ "" := by
    intro hc
    have := congrArg bearerToken hc
    rw [htok] at this
    exact hne this
  have hauth : ∀ (τ : Type) (T : Storage τ) (v : World τ) (now : Int),
      authenticate T jwtVerify ⟨some ("Bearer " ++ generateToken jwtSign u._id t0)⟩ now v =
        match jwtVerify (jwtSign u._id "7d" t0) now with
        | .error _ => (none, v)
        | .ok decoded =>
          match T.userFindById decoded.userId v.db with
          | .error _ => (none, ⟨v.db, v.cache, v.log ++ [.userFindById decoded.userId]⟩)
          | .ok user => (user, ⟨v.db, v.cache, v.log ++ [.userFindById decoded.userId]⟩) := by
    intro τ T v now
    have := authenticate_of_token T jwtVerify _ now v hh (by rw [htok]; exact hne)
    rw [htok] at this
    exact this
  have hfresh : ∀ (τ : Type) (T : Storage τ) (v : World τ) (now : Int), now - t0 < sevenDays →
      ∀ answer, T.userFindById (some u._id.toString) v.db = .ok answer →
      authenticate T jwtVerify ⟨some ("Bearer " ++ generateToken jwtSign u._id t0)⟩ now v =
        (answer, ⟨v.db, v.cache, v.log ++ [.userFindById (some u._id.toString)]⟩) := by
    intro τ T v now hlt answer hans
    rw [hauth τ T v now, hverify now, if_pos hlt]
    simp only [hans]
  refine ⟨rfl, ?_, ?_, ?_⟩
  · intro now hlt answer hans
    exact hfresh σ S w now hlt answer hans
  · intro now hge
    rw [hauth σ S w now, hverify now, if_neg (not_lt.mpr hge)]
  · intro test db cache log now hlt
    refine ⟨?_, ?_⟩
    · intro hu
      cases hfind : db.users.find? (fun x => decide (x._id.toString = u._id.toString)) with
      | none =>
        have := List.find?_eq_none.mp hfind u hu
        simp at this
      | some v =>
        have hans : (memStorage test).userFindById (some u._id.toString) db = .ok (some v) := by
          simp [memStorage, hfind]
        rw [hfresh MemDb (memStorage test) ⟨db, cache, log⟩ now hlt (some v) hans]
        refine ⟨v, rfl, List.mem_of_find?_eq_some hfind, ?_⟩
        have h1 := List.find?_some hfind
        simp only [decide_eq_true_eq, ObjectId.toString] at h1
        cases hv : v._id
        cases hu2 : u._id
        rw [hv, hu2] at h1
        simp only at h1
        rw [h1]
    · intro hgone
      have hfind : db.users.find? (fun x => decide (x._id.toString = u._id.toString)) = none := by
        apply List.find?_eq_none.mpr
        intro x hx
        have hne2 := hgone x hx
        simp only [decide_eq_true_eq, ObjectId.toString]
        intro hc
        apply hne2
        cases hv : x._id
        cases hu2 : u._id
        rw [hv, hu2] at hc
        simp only at hc
        rw [hc]
      have hans : (memStorage test).userFindById (some u._id.toString) db = .ok none := by
        simp [memStorage, hfind]
      rw [hfresh MemDb (memStorage test) ⟨db, cache, log⟩ now hlt none hans]

/-- Witness for C25: the token `sampleSign` issues to the sample administrator at time `0`,
checked by `sampleVerify`; one day later `authenticate` on the sample store returns the
administrator. -/
theorem token_round_trip_witness :
    TokenContract sampleSign sampleVerify sampleAdmin._id 0 ∧
    (∀ now : Int, now - 0 < sevenDays → ∀ answer : Option UserDoc,
      (memStorage sampleTest).userFindById (some sampleAdmin._id.toString) sampleDb =
        .ok answer →
      authenticate (memStorage sampleTest) sampleVerify
          ⟨some ("Bearer " ++ generateToken sampleSign sampleAdmin._id 0)⟩ now
          ⟨sampleDb, Cache.empty, []⟩ =
        (answer, ⟨sampleDb, Cache.empty,
          [] ++ [.userFindById (some sampleAdmin._id.toString)]⟩)) ∧
    authenticate (memStorage sampleTest) sampleVerify
        ⟨some ("Bearer " ++ generateToken sampleSign sampleAdmin._id 0)⟩ 86400000
        ⟨sampleDb, Cache.empty, []⟩ =
      (some sampleAdmin, ⟨sampleDb, Cache.empty, [.userFindById (some "u0")]⟩) :=
  ⟨⟨by decide, fun now => by simp [sampleVerify]⟩,
    (token_round_trip (memStorage sampleTest) sampleSign sampleVerify sampleAdmin 0
      ⟨sampleDb, Cache.empty, []⟩ ⟨by decide, fun now => by simp [sampleVerify]⟩).2.1,
    rfl⟩

/-! ## `hasNextPage` -/

/-- For a positive limit, `page < ceil(totalCount / limit)` iff `page * limit < totalCount`. -/
theorem gtInt_ceilDiv_iff (page limit : Int) (totalCount : Nat) (hlimit : 0 < limit) :
    (ceilDiv totalCount limit).gtInt page = true ↔ page * limit < totalCount := by
  obtain ⟨n, hn, hge, hleast, -⟩ := ceilDiv_of_pos totalCount limit hlimit
  rw [hn]
  simp only [JsNumber.gtInt, decide_eq_true_eq]
  constructor
  · intro hlt
    by_contra hnot
    have := hleast page (not_lt.mp hnot)
    omega
  · intro hlt
    by_contra hnot
    have hle : (n : Int) ≤ page := not_lt.mp hnot
    have := mul_le_mul_of_nonneg_right hle hlimit.le
    omega

/-- **C29.** For `page >= 1`, `limit > 0` and `totalCount >= 0`: the `hasNextPage` that
`employees` computes is true iff `page * limit < totalCount`; for a list of `totalCount` sorted
records that is iff a record lies beyond the first `page * limit`, and iff the chunk of page
`page + 1` is not empty; and on the reference store (fewer than `2^53` records) it is iff the
page that `employees` returns for `page + 1` has an employee. -/
theorem hasNextPage_iff (page limit : Int) (totalCount : Nat) (hpage : 1 ≤ page)
    (hlimit : 0 < limit) :
    ((mkPageInfo page limit totalCount).hasNextPage = true ↔ page * limit < totalCount) ∧
    (∀ sorted : List EmployeeDoc, sorted.length = totalCount →
      ((mkPageInfo page limit totalCount).hasNextPage = true ↔
        sorted.drop (page * limit).toNat ≠ []) ∧
      ((mkPageInfo page limit totalCount).hasNextPage = true ↔
        (sorted.drop (((page + 1) - 1) * limit).toNat).take limit.toNat ≠ [])) ∧
    (∀ (test : RegExp → String → Bool) (newRegExp : String → String → Except JsError RegExp)
        (db : MemDb) (sortBy sortOrder filterName : Option String) (filter : EmployeeFilter)
        (cache : Cache Payload) (log : List DbCall) (ctx : Context) (now later : Int),
      buildFilter newRegExp filterName = .ok filter →
      db.employees.length < 2 ^ 53 →
      (db.employees.filter (MemDb.selects test filter)).length = totalCount →
      (cache.get now
        (EmployeesArgs.cacheKey ⟨some (page + 1), some limit, sortBy, sortOrder, filterName⟩)).1 =
          none →
      ∃ next : EmployeePage,
        (Query.employees (memStorage test) newRegExp
          ⟨some (page + 1), some limit, sortBy, sortOrder, filterName⟩ (some ctx) now later
          ⟨db, cache, log⟩).1 = .ok (.page next) ∧
        ((mkPageInfo page limit totalCount).hasNextPage = true ↔ next.employees ≠ [])) := by
  have hflag : (mkPageInfo page limit totalCount).hasNextPage = true ↔
      page * limit < totalCount := by
    simp only [mkPageInfo]
    exact gtInt_ceilDiv_iff page limit totalCount hlimit
  have hnn : 0 ≤ page * limit := Int.mul_nonneg (by omega) hlimit.le
  have hchunk : ∀ sorted : List EmployeeDoc, sorted.length = totalCount →
      (page * limit < totalCount ↔
        (sorted.drop (((page + 1) - 1) * limit).toNat).take limit.toNat ≠ []) := by
    intro sorted hlen
    have hsimp : (page + 1) - 1 = page := by ring
    rw [hsimp, Ne, List.take_eq_nil_iff, List.drop_eq_nil_iff, hlen]
    constructor
    · intro h hc
      rcases hc with hc | hc
      · omega
      · omega
    · intro h
      by_contra hc
      exact h (Or.inr (by omega))
  refine ⟨hflag, ?_, ?_⟩
  · intro sorted hlen
    refine ⟨?_, ?_⟩
    · rw [hflag, Ne, List.drop_eq_nil_iff, hlen]
      omega
    · rw [hflag]
      exact hchunk sorted hlen
  · intro test newRegExp db sortBy sortOrder filterName filter cache log ctx now later hf hsize
      hcount hmiss
    have hrun := memStorage_page test newRegExp db sortBy sortOrder filterName filter limit
      (page + 1) hlimit (by omega) hf hsize cache log ctx now later hmiss
    refine ⟨_, hrun, ?_⟩
    rw [hflag]
    simp only [Ne, List.map_eq_nil_iff]
    apply hchunk
    simp only [MemDb.sortDocs, List.length_insertionSort]
    exact hcount

/-- Witness for C29: page 1 of 25 records at 10 a page has a next page. -/
theorem hasNextPage_iff_witness :
    (1 : Int) ≤ 1 ∧ (0 : Int) < 10 ∧
    ((mkPageInfo 1 10 25).hasNextPage = true ↔ (1 : Int) * 10 < (25 : Nat)) :=
  ⟨by decide, by decide, (hasNextPage_iff 1 10 25 (by decide) (by decide)).1⟩

/-! ## The rate limiter -/

/-- One call leaves the counters of the other ips as they are. -/
theorem RateLimiter.isRateLimited_frame (rl : RateLimiter) (ip ip2 : String) (now : Int)
    (hne : ip2 ≠ ip) :
    JsMap.get (rl.isRateLimited ip now).2.requests ip2 = JsMap.get rl.requests ip2 := by
  simp only [RateLimiter.isRateLimited]
  exact JsMap.get_set_other _ _ _ _ hne

/-- One call for an ip moves its counter as the window of the specification moves. -/
theorem RateLimiter.isRateLimited_step (rl : RateLimiter) (ip : String) (now : Int)
    (window : Option (Int × Nat))
    (h : JsMap.get rl.requests ip = window.map (fun p => (⟨p.2, p.1⟩ : RateEntry))) :
    JsMap.get (rl.isRateLimited ip now).2.requests ip =
      some ⟨(windowStep window now).2, (windowStep window now).1⟩ ∧
    (rl.isRateLimited ip now).1 = decide (1000 < (windowStep window now).2) := by
  simp only [RateLimiter.isRateLimited, JsMap.get_set_self, h]
  cases window with
  | none =>
    simp [windowStep, RateLimiter.resetTime, RateLimiter.limit]
  | some p =>
    obtain ⟨start, calls⟩ := p
    by_cases hgt : now - start > 60000
    · simp [windowStep, RateLimiter.resetTime, RateLimiter.limit, hgt]
    · simp [windowStep, RateLimiter.resetTime, RateLimiter.limit, hgt]

/-- After any sequence of calls from the empty limiter, the counter of each ip is the window of
the specification for that ip's calls. -/
theorem RateLimiter.runCalls_window (calls : List (String × Int)) (ip : String) :
    JsMap.get ((⟨[]⟩ : RateLimiter).runCalls calls).requests ip =
      (windowAfter (timesOf ip calls)).map (fun p => (⟨p.2, p.1⟩ : RateEntry)) := by
  induction calls using List.reverseRecOn with
  | nil => rfl
  | append_singleton calls c ih =>
    obtain ⟨ip1, t⟩ := c
    have hrun : (⟨[]⟩ : RateLimiter).runCalls (calls ++ [(ip1, t)]) =
        (((⟨[]⟩ : RateLimiter).runCalls calls).isRateLimited ip1 t).2 := by
      simp [RateLimiter.runCalls, List.foldl_append]
    rw [hrun]
    by_cases hip : ip1 = ip
    · subst hip
      have htimes : timesOf ip1 (calls ++ [(ip1, t)]) = timesOf ip1 calls ++ [t] := by
        simp [timesOf, List.filter_append]
      rw [htimes, (RateLimiter.isRateLimited_step _ ip1 t _ ih).1]
      simp [windowAfter, List.foldl_append]
    · have htimes : timesOf ip (calls ++ [(ip1, t)]) = timesOf ip calls := by
        simp [timesOf, List.filter_append, hip]
      rw [htimes, RateLimiter.isRateLimited_frame _ ip1 ip t (Ne.symm hip), ih]

/-- **C30.** The rate limiter (`limit = 1000`, `resetTime = 60000`), started empty: after every
sequence of calls, for every ip, the counter kept for the ip is the fixed window of the
specification for that ip's calls (its start and the number of calls in it); the next call
`isRateLimited(ip)` at time `t` returns true iff that call is at least the 1001st of its window,
a call more than 60000 ms after the window's start opening a new window as its first call
(result false); and a call for one ip leaves the counter of every other ip as it is. The order of
the times is not used. -/
theorem rate_limiter_windows (calls : List (String × Int)) (ip : String) (t : Int) :
    RateLimiter.limit = 1000 ∧ RateLimiter.resetTime = 60000 ∧
    JsMap.get ((⟨[]⟩ : RateLimiter).runCalls calls).requests ip =
      (windowAfter (timesOf ip calls)).map (fun p => (⟨p.2, p.1⟩ : RateEntry)) ∧
    (((⟨[]⟩ : RateLimiter).runCalls calls).isRateLimited ip t).1 =
      decide (1001 ≤ (windowStep (windowAfter (timesOf ip calls)) t).2) ∧
    (windowAfter (timesOf ip calls) = none → windowStep (windowAfter (timesOf ip calls)) t = (t, 1)) ∧
    (∀ start n, windowAfter (timesOf ip calls) = some (start, n) →
      (t - start > 60000 →
        windowStep (windowAfter (timesOf ip calls)) t = (t, 1) ∧
        (((⟨[]⟩ : RateLimiter).runCalls calls).isRateLimited ip t).1 = false) ∧
      (t - start ≤ 60000 →
        windowStep (windowAfter (timesOf ip calls)) t = (start, n + 1) ∧
        ((((⟨[]⟩ : RateLimiter).runCalls calls).isRateLimited ip t).1 = true ↔ 1001 ≤ n + 1))) ∧
    (∀ (rl : RateLimiter) (ip2 : String), ip2 ≠ ip →
      JsMap.get (rl.isRateLimited ip t).2.requests ip2 = JsMap.get rl.requests ip2) := by
  have hwin := RateLimiter.runCalls_window calls ip
  have hstep := RateLimiter.isRateLimited_step _ ip t _ hwin
  have hres : (((⟨[]⟩ : RateLimiter).runCalls calls).isRateLimited ip t).1 =
      decide (1001 ≤ (windowStep (windowAfter (timesOf ip calls)) t).2) := by
    rw [hstep.2]
    congr 1
  refine ⟨rfl, rfl, hwin, hres, ?_, ?_, ?_⟩
  · intro hnone
    rw [hnone]
    rfl
  · intro start n hsome
    refine ⟨?_, ?_⟩
    · intro hgt
      have hw : windowStep (windowAfter (timesOf ip calls)) t = (t, 1) := by
        rw [hsome]
        simp [windowStep, hgt]
      refine ⟨hw, ?_⟩
      rw [hres, hw]
      simp
    · intro hle
      have hw : windowStep (windowAfter (timesOf ip calls)) t = (start, n + 1) := by
        rw [hsome]
        simp [windowStep, not_lt.mpr hle]
      refine ⟨hw, ?_⟩
      rw [hres, hw]
      simp
  · intro rl ip2 hne
    exact RateLimiter.isRateLimited_frame rl ip ip2 t hne

/-! ## The rate-limit middleware re-invokes a failed resolver -/

/-- **C22 (the code at the failing input).** When the wrapped resolver fails with an error whose
message does not contain `Rate limit`, the `catch` of `rateLimitMiddleware` invokes the resolver
a second time, on the state the first invocation left, and returns that second outcome. On the
sample store: `deleteEmployee` of an unknown id by the administrator, behind the middleware,
issues `findByIdAndDelete` twice. -/
theorem rateLimitMiddleware_retries :
    rateLimitMiddleware (Mutation.deleteEmployee (memStorage sampleTest) "nobody" ⟨some sampleAdmin⟩)
        (some "10.0.0.1") 0 ⟨[]⟩ ⟨sampleDb, Cache.empty, []⟩ =
      (.error (employeeNotFound "nobody"), ⟨[("10.0.0.1", ⟨1, 0⟩)]⟩,
        ⟨sampleDb, Cache.empty,
          [.employeeFindByIdAndDelete "nobody", .employeeFindByIdAndDelete "nobody"]⟩) ∧
    (∀ (τ α : Type) (resolve : τ → Except JsError α × τ) (ip : String) (now : Int)
        (rl : RateLimiter) (s s1 : τ) (e : JsError),
      ip ≠ "" → (rl.isRateLimited ip now).1 = false → resolve s = (.error e, s1) →
      mentionsRateLimit e = false →
      rateLimitMiddleware resolve (some ip) now rl s =
        ((resolve s1).1, (rl.isRateLimited ip now).2, (resolve s1).2)) := by
  refine ⟨by rfl, ?_⟩
  intro τ α resolve ip now rl s s1 e hip hlim hres hmsg
  have htruthy : truthy (some ip) = true := by simp [truthy, hip]
  have hsplit : rl.isRateLimited ip now = (false, (rl.isRateLimited ip now).2) :=
    Prod.ext hlim rfl
  unfold rateLimitMiddleware
  simp only [htruthy, if_true, Option.getD_some]
  rw [hsplit]
  simp only [hres, hmsg]
  rfl

/-! ## Cache keys of different queries can coincide -/

/-- **C26 (the code at the failing input).** `employees(sortBy "name", sortOrder "asc",
filterName "x_li")` and `employees(sortBy "name", sortOrder "asc_x", filterName "li")` build the
same cache key although their filters differ (both sort by `name`, ascending). On the sample store
the first selects nobody and the second selects Alice; once the first has filled the cache, the
second is answered with the first one's empty page. -/
theorem cache_key_collision :
    keyArgsA.cacheKey = keyArgsB.cacheKey ∧
    buildFilter fragmentNewRegExp keyArgsA.filterName = .ok ⟨some ⟨"x_li", "i"⟩⟩ ∧
    buildFilter fragmentNewRegExp keyArgsB.filterName = .ok ⟨some ⟨"li", "i"⟩⟩ ∧
    safeSortBy "name" = "name" ∧ safeSortOrder "asc" = 1 ∧ safeSortOrder "asc_x" = 1 ∧
    Query.employees (memStorage fragmentTest) fragmentNewRegExp keyArgsA (some ⟨none⟩) 0 5
        ⟨sampleDb, Cache.empty, []⟩ =
      (.ok emptyPage,
        ⟨sampleDb, ⟨[("1_10_name_asc_x_li", ⟨emptyPage, 5⟩)]⟩,
          [.employeeCountDocuments ⟨some ⟨"x_li", "i"⟩⟩,
            .employeeFind ⟨some ⟨"x_li", "i"⟩⟩ "name" 1 0 10]⟩) ∧
    Query.employees (memStorage fragmentTest) fragmentNewRegExp keyArgsB (some ⟨none⟩) 6 7
        ⟨sampleDb, ⟨[("1_10_name_asc_x_li", ⟨emptyPage, 5⟩)]⟩, []⟩ =
      (.ok emptyPage, ⟨sampleDb, ⟨[("1_10_name_asc_x_li", ⟨emptyPage, 5⟩)]⟩, []⟩) ∧
    (Query.employees (memStorage fragmentTest) fragmentNewRegExp keyArgsB (some ⟨none⟩) 6 7
        ⟨sampleDb, Cache.empty, []⟩).1 = .ok samplePage ∧
    emptyPage ≠ samplePage := by
  refine ⟨by decide, by rfl, by rfl, by decide, by decide, by decide, by rfl, by rfl, by rfl, ?_⟩
  simp [emptyPage, samplePage]

/-! ## Cache coherence -/

/-- A lookup that returns a value leaves the cache as it is. -/
theorem Cache.get_some_cache {α : Type} (c c2 : Cache α) (k : String) (now : Int) (v : α)
    (h : c.get now k = (some v, c2)) : c2 = c := by
  unfold Cache.get at h
  split at h
  · simp at h
  · split at h
    · simp at h
    · simp only [Prod.mk.injEq] at h
      exact h.2.symm

/-- A store query leaves the store as it is, and the cache too unless it succeeds, in which case
it stores its payload under the key. -/
theorem employeesFromStorage_world {σ : Type} (S : Storage σ)
    (newRegExp : String → String → Except JsError RegExp) (page limit : Int)
    (sortBy sortOrder : String) (filterName : Option String) (key : String) (later : Int)
    (w : World σ) :
    (employeesFromStorage S newRegExp page limit sortBy sortOrder filterName key later w).2.db =
      w.db ∧
    ((employeesFromStorage S newRegExp page limit sortBy sortOrder filterName key later w).2.cache =
        w.cache ∨
      ∃ payload,
        (employeesFromStorage S newRegExp page limit sortBy sortOrder filterName key later w).1 =
          .ok payload ∧
        (employeesFromStorage S newRegExp page limit sortBy sortOrder filterName key later
          w).2.cache = w.cache.set later key payload) := by
  unfold employeesFromStorage
  cases hf : buildFilter newRegExp filterName with
  | error e => exact ⟨rfl, Or.inl rfl⟩
  | ok filter =>
    simp only [World.call]
    cases hc : S.countDocuments filter w.db with
    | error e => exact ⟨rfl, Or.inl rfl⟩
    | ok totalCount =>
      simp only []
      cases hd : S.find filter (safeSortBy sortBy) (safeSortOrder sortOrder)
          (roundToDouble ((page - 1) * limit)) limit w.db with
      | error e => exact ⟨rfl, Or.inl rfl⟩
      | ok docs => exact ⟨rfl, Or.inr ⟨_, rfl, rfl⟩⟩

/-- On the reference store the payload of a store query depends on the employee collection
alone. -/
theorem memStorage_fromStorage_congr (test : RegExp → String → Bool)
    (newRegExp : String → String → Except JsError RegExp) (page limit : Int)
    (sortBy sortOrder : String) (filterName : Option String) (key key2 : String)
    (later later2 : Int) (w w2 : World MemDb) (h : w.db.employees = w2.db.employees) :
    (employeesFromStorage (memStorage test) newRegExp page limit sortBy sortOrder filterName key
        later w).1 =
      (employeesFromStorage (memStorage test) newRegExp page limit sortBy sortOrder filterName
        key2 later2 w2).1 := by
  unfold employeesFromStorage
  cases hf : buildFilter newRegExp filterName with
  | error e => rfl
  | ok filter =>
    simp only [World.call, memStorage, h]
    by_cases hskip : roundToDouble ((page - 1) * limit) < 0
    · simp only [hskip, if_true]
    · simp only [hskip, if_false]

/-- The world after `employees`: the store is unchanged; the cache is unchanged, or the lookup
missed and the cache is what the lookup left, with the fresh payload stored under the key when
the store query succeeded. -/
theorem employees_world {σ : Type} (S : Storage σ)
    (newRegExp : String → String → Except JsError RegExp) (args : EmployeesArgs)
    (context : Option Context) (now later : Int) (w : World σ) :
    (Query.employees S newRegExp args context now later w).2.db = w.db ∧
    ((Query.employees S newRegExp args context now later w).2.cache = w.cache ∨
      ∃ c, w.cache.get now args.cacheKey = (none, c) ∧
        ((Query.employees S newRegExp args context now later w).2.cache = c ∨
          ∃ payload,
            (employeesFromStorage S newRegExp (args.page.getD 1) (args.limit.getD 10)
              (args.sortBy.getD "name") (args.sortOrder.getD "asc") args.filterName
              args.cacheKey later { w with cache := c }).1 = .ok payload ∧
            (Query.employees S newRegExp args context now later w).2.cache =
              c.set later args.cacheKey payload)) := by
  cases context with
  | none => exact ⟨rfl, Or.inl rfl⟩
  | some ctx =>
    cases hget : w.cache.get now args.cacheKey with
    | mk r c =>
      cases r with
      | some v =>
        have hc := Cache.get_some_cache _ _ _ _ _ hget
        subst hc
        rw [employees_of_hit S newRegExp args ctx now later w v hget]
        exact ⟨rfl, Or.inl rfl⟩
      | none =>
        rw [employees_of_miss S newRegExp args ctx now later w c hget]
        obtain ⟨hdb, hcache⟩ := employeesFromStorage_world S newRegExp (args.page.getD 1)
          (args.limit.getD 10) (args.sortBy.getD "name") (args.sortOrder.getD "asc")
          args.filterName args.cacheKey later { w with cache := c }
        refine ⟨hdb, Or.inr ⟨c, rfl, ?_⟩⟩
        rcases hcache with h | ⟨payload, h1, h2⟩
        · exact Or.inl h
        · exact Or.inr ⟨payload, h1, h2⟩

/-- The world after `employee`: the store is unchanged; the cache is unchanged, or the lookup
missed and the cache is what the lookup left, with the formatted record stored under the key when
the store holds the id. -/
theorem employee_world {σ : Type} (S : Storage σ) (id : String) (now later : Int) (w : World σ) :
    (Query.employee S id now later w).2.db = w.db ∧
    ((Query.employee S id now later w).2.cache = w.cache ∨
      ∃ c, w.cache.get now ("employee_" ++ id) = (none, c) ∧
        ((Query.employee S id now later w).2.cache = c ∨
          ∃ employee, S.findById id w.db = .ok (some employee) ∧
            (Query.employee S id now later w).2.cache =
              c.set later ("employee_" ++ id) (.employee (formatEmployee employee)))) := by
  cases hget : w.cache.get now ("employee_" ++ id) with
  | mk r c =>
    cases r with
    | some v =>
      have hc := Cache.get_some_cache _ _ _ _ _ hget
      subst hc
      have hq : Query.employee S id now later w = (.ok (some v), w) := by
        simp only [Query.employee, hget]
      rw [hq]
      exact ⟨rfl, Or.inl rfl⟩
    | none =>
      cases hf : S.findById id w.db with
      | error e =>
        have hq : Query.employee S id now later w =
            (.error e, ⟨w.db, c, w.log ++ [.employeeFindById id]⟩) := by
          simp only [Query.employee, hget, World.call, hf]
        rw [hq]
        exact ⟨rfl, Or.inr ⟨c, rfl, Or.inl rfl⟩⟩
      | ok r =>
        cases r with
        | none =>
          have hq : Query.employee S id now later w =
              (.ok none, ⟨w.db, c, w.log ++ [.employeeFindById id]⟩) := by
            simp only [Query.employee, hget, World.call, hf]
          rw [hq]
          exact ⟨rfl, Or.inr ⟨c, rfl, Or.inl rfl⟩⟩
        | some employee =>
          have hq : Query.employee S id now later w =
              (.ok (some (.employee (formatEmployee employee))),
                ⟨w.db, c.set later ("employee_" ++ id) (.employee (formatEmployee employee)),
                  w.log ++ [.employeeFindById id]⟩) := by
            simp only [Query.employee, hget, World.call, hf]
          rw [hq]
          exact ⟨rfl, Or.inr ⟨c, rfl, Or.inr ⟨employee, rfl, rfl⟩⟩⟩

/-- A fresh listing is the payload of the store query, whatever the key, the time, the cache and
the log it runs with. -/
theorem freshEmployees_eq (env : Env) (args : EmployeesArgs) (key : String) (later : Int)
    (w : World MemDb) :
    freshEmployees env args w.db =
      (employeesFromStorage (memStorage env.test) env.newRegExp (args.page.getD 1)
        (args.limit.getD 10) (args.sortBy.getD "name") (args.sortOrder.getD "asc")
        args.filterName key later w).1 := by
  unfold freshEmployees
  rw [employees_of_miss _ _ args ⟨none⟩ 0 0 ⟨w.db, Cache.empty, []⟩ Cache.empty
    (Cache.get_of_employees_nil _ rfl _ _)]
  exact memStorage_fromStorage_congr _ _ _ _ _ _ _ _ _ _ _ _ _ rfl

/-- A fresh listing depends on the employee collection alone. -/
theorem freshEmployees_congr (env : Env) (args : EmployeesArgs) (db db2 : MemDb)
    (h : db.employees = db2.employees) :
    freshEmployees env args db = freshEmployees env args db2 := by
  rw [freshEmployees_eq env args "" 0 ⟨db, Cache.empty, []⟩,
    freshEmployees_eq env args "" 0 ⟨db2, Cache.empty, []⟩]
  exact memStorage_fromStorage_congr _ _ _ _ _ _ _ _ _ _ _ _ _ h

/-- A fresh lookup by id is the formatted record the employee collection holds under the id. -/
theorem freshEmployee_eq (env : Env) (id : String) (db : MemDb) :
    freshEmployee env id db =
      .ok ((db.employees.find? (fun d => decide (d._id.toString = id))).map
        (fun d => Payload.employee (formatEmployee d))) := by
  simp only [freshEmployee, Query.employee,
    Cache.get_of_employees_nil (Cache.empty : Cache Payload) rfl, World.call, memStorage]
  cases db.employees.find? (fun d => decide (d._id.toString = id)) <;> rfl

/-- A fresh lookup by id depends on the employee collection alone. -/
theorem freshEmployee_congr (env : Env) (id : String) (db db2 : MemDb)
    (h : db.employees = db2.employees) : freshEmployee env id db = freshEmployee env id db2 := by
  rw [freshEmployee_eq, freshEmployee_eq, h]

/-- Coherence passes to a world with the same employee collection whose cache entries are among
those of the first, and to a longer list of invocations. -/
theorem Coherent.of_entries (env : Env) (ran ran2 : List Op) (w w2 : World MemDb)
    (hran : ∀ op ∈ ran, op ∈ ran2) (hdb : w2.db.employees = w.db.employees)
    (hsub : ∀ key e, w2.cache.entry key = some e → w.cache.entry key = some e)
    (h : Coherent env ran w) : Coherent env ran2 w2 := by
  intro key e he
  rcases h key e (hsub key e he) with
    ⟨args, context, now, later, hmem, hk, ht, hv⟩ | ⟨id, now, later, hmem, hk, ht, hv⟩
  · exact Or.inl ⟨args, context, now, later, hran _ hmem, hk, ht, by
      rw [freshEmployees_congr env args _ _ hdb]; exact hv⟩
  · exact Or.inr ⟨id, now, later, hran _ hmem, hk, ht, by
      rw [freshEmployee_congr env id _ _ hdb]; exact hv⟩

/-- A world whose cache has no entries is coherent. -/
theorem Coherent.of_nil (env : Env) (ran : List Op) (w : World MemDb)
    (h : w.cache.employees = []) : Coherent env ran w := by
  intro key e he
  simp [Cache.entry, h, JsMap.get] at he

/-- The entries of a cache after a lookup that returned nothing are among those before. -/
theorem Cache.entry_sub_of_get_none {α : Type} (c c2 : Cache α) (k : String) (now : Int)
    (h : c.get now k = (none, c2)) (key : String) (e : CacheEntry α)
    (he : c2.entry key = some e) : c.entry key = some e := by
  obtain ⟨hself, hother⟩ := Cache.entry_of_get_none c c2 k now h
  by_cases hk : key = k
  · subst hk
    rw [hself] at he
    exact absurd he (by simp)
  · rw [hother key hk] at he
    exact he

/-- The entries of a cache after `set`. -/
theorem Cache.entry_set {α : Type} (c : Cache α) (later : Int) (k : String) (v : α)
    (key : String) :
    (c.set later k v).entry key = if key = k then some ⟨v, later⟩ else c.entry key := by
  by_cases hk : key = k
  · subst hk
    simp [Cache.entry, Cache.set, JsMap.get_set_self]
  · simp [Cache.entry, Cache.set, JsMap.get_set_other _ _ _ _ hk, hk]

/-- The listing query keeps coherence. -/
theorem employees_coherent (env : Env) (ran : List Op) (args : EmployeesArgs)
    (context : Option Context) (now later : Int) (w : World MemDb) (h : Coherent env ran w) :
    Coherent env (ran ++ [.employees args context now later])
      (Query.employees (memStorage env.test) env.newRegExp args context now later w).2 := by
  obtain ⟨hdb, hcache⟩ :=
    employees_world (memStorage env.test) env.newRegExp args context now later w
  have hran : ∀ op ∈ ran, op ∈ ran ++ [Op.employees args context now later] :=
    fun op hop => List.mem_append_left _ hop
  rcases hcache with hc | ⟨c, hget, hc | ⟨payload, hpay, hc⟩⟩
  · exact Coherent.of_entries env ran _ w _ hran (by rw [hdb])
      (fun key e he => by rw [hc] at he; exact he) h
  · exact Coherent.of_entries env ran _ w _ hran (by rw [hdb])
      (fun key e he => by
        rw [hc] at he
        exact Cache.entry_sub_of_get_none _ _ _ _ hget key e he) h
  · have hrest : Coherent env (ran ++ [.employees args context now later])
        ⟨w.db, c, w.log⟩ :=
      Coherent.of_entries env ran _ w _ hran rfl
        (fun key e he => Cache.entry_sub_of_get_none _ _ _ _ hget key e he) h
    intro key e he
    rw [hc, Cache.entry_set] at he
    by_cases hk : key = args.cacheKey
    · rw [if_pos hk] at he
      simp only [Option.some.injEq] at he
      subst he
      refine Or.inl ⟨args, context, now, later, by simp, hk, rfl, ?_⟩
      rw [freshEmployees_congr env args _ w.db (by rw [hdb]),
        freshEmployees_eq env args args.cacheKey later { w with cache := c }]
      exact hpay
    · rw [if_neg hk] at he
      rcases hrest key e he with
        ⟨args2, context2, now2, later2, hmem, hk2, ht, hv⟩ | ⟨id, now2, later2, hmem, hk2, ht, hv⟩
      · exact Or.inl ⟨args2, context2, now2, later2, hmem, hk2, ht, by
          rw [freshEmployees_congr env args2 _ w.db (by rw [hdb])]; exact hv⟩
      · exact Or.inr ⟨id, now2, later2, hmem, hk2, ht, by
          rw [freshEmployee_congr env id _ w.db (by rw [hdb])]; exact hv⟩

/-- The lookup by id keeps coherence. -/
theorem employee_coherent (env : Env) (ran : List Op) (id : String) (now later : Int)
    (w : World MemDb) (h : Coherent env ran w) :
    Coherent env (ran ++ [.employee id now later])
      (Query.employee (memStorage env.test) id now later w).2 := by
  obtain ⟨hdb, hcache⟩ := employee_world (memStorage env.test) id now later w
  have hran : ∀ op ∈ ran, op ∈ ran ++ [Op.employee id now later] :=
    fun op hop => List.mem_append_left _ hop
  rcases hcache with hc | ⟨c, hget, hc | ⟨employee, hfind, hc⟩⟩
  · exact Coherent.of_entries env ran _ w _ hran (by rw [hdb])
      (fun key e he => by rw [hc] at he; exact he) h
  · exact Coherent.of_entries env ran _ w _ hran (by rw [hdb])
      (fun key e he => by
        rw [hc] at he
        exact Cache.entry_sub_of_get_none _ _ _ _ hget key e he) h
  · have hrest : Coherent env (ran ++ [.employee id now later]) ⟨w.db, c, w.log⟩ :=
      Coherent.of_entries env ran _ w _ hran rfl
        (fun key e he => Cache.entry_sub_of_get_none _ _ _ _ hget key e he) h
    intro key e he
    rw [hc, Cache.entry_set] at he
    by_cases hk : key = "employee_" ++ id
    · rw [if_pos hk] at he
      simp only [Option.some.injEq] at he
      subst he
      refine Or.inr ⟨id, now, later, by simp, hk, rfl, ?_⟩
      rw [freshEmployee_congr env id _ w.db (by rw [hdb]), freshEmployee_eq]
      simp only [memStorage, Except.ok.injEq] at hfind
      rw [hfind]
      rfl
    · rw [if_neg hk] at he
      rcases hrest key e he with
        ⟨args2, context2, now2, later2, hmem, hk2, ht, hv⟩ | ⟨id2, now2, later2, hmem, hk2, ht, hv⟩
      · exact Or.inl ⟨args2, context2, now2, later2, hmem, hk2, ht, by
          rw [freshEmployees_congr env args2 _ w.db (by rw [hdb])]; exact hv⟩
      · exact Or.inr ⟨id2, now2, later2, hmem, hk2, ht, by
          rw [freshEmployee_congr env id2 _ w.db (by rw [hdb])]; exact hv⟩

/-- On the reference store `addEmployee` ends with an empty cache, or with the world's cache and
store as they were. -/
theorem addEmployee_mem_world (test : RegExp → String → Bool) (args : EmployeeInput)
    (context : Option Context) (w : World MemDb) :
    (Mutation.addEmployee (memStorage test) args context w).2.cache.employees = [] ∨
      ((Mutation.addEmployee (memStorage test) args context w).2.cache = w.cache ∧
        (Mutation.addEmployee (memStorage test) args context w).2.db = w.db) := by
  dsimp only [Mutation.addEmployee]
  cases requireAuth (contextUser context) with
  | error e => exact Or.inr ⟨rfl, rfl⟩
  | ok u =>
    cases requireRole (contextUser context) (some ["ADMIN"]) with
    | error e => exact Or.inr ⟨rfl, rfl⟩
    | ok u2 =>
      simp only [World.call, memStorage]
      by_cases hname : args.name = ""
      · rw [if_pos hname]
        exact Or.inr ⟨rfl, rfl⟩
      · rw [if_neg hname]
        exact Or.inl rfl

/-- On the reference store `updateEmployee` ends with an empty cache, or with the world's cache
and store as they were. -/
theorem updateEmployee_mem_world (test : RegExp → String → Bool) (id : String)
    (updates : EmployeeUpdates) (context : Option Context) (w : World MemDb) :
    (Mutation.updateEmployee (memStorage test) id updates context w).2.cache.employees = [] ∨
      ((Mutation.updateEmployee (memStorage test) id updates context w).2.cache = w.cache ∧
        (Mutation.updateEmployee (memStorage test) id updates context w).2.db = w.db) := by
  dsimp only [Mutation.updateEmployee]
  cases requireAuth (contextUser context) with
  | error e => exact Or.inr ⟨rfl, rfl⟩
  | ok u =>
    cases requireRole (contextUser context) (some ["ADMIN"]) with
    | error e => exact Or.inr ⟨rfl, rfl⟩
    | ok u2 =>
      simp only [World.call, memStorage]
      cases w.db.employees.find? (fun d => decide (d._id.toString = id)) with
      | none => exact Or.inr ⟨rfl, rfl⟩
      | some d =>
        dsimp only []
        by_cases hname : updates.name = some ""
        · rw [if_pos hname]
          exact Or.inr ⟨rfl, rfl⟩
        · rw [if_neg hname]
          exact Or.inl rfl

/-- On the reference store `deleteEmployee` ends with an empty cache, or with the world's cache
and store as they were. -/
theorem deleteEmployee_mem_world (test : RegExp → String → Bool) (id : String)
    (context : Context) (w : World MemDb) :
    (Mutation.deleteEmployee (memStorage test) id context w).2.cache.employees = [] ∨
      ((Mutation.deleteEmployee (memStorage test) id context w).2.cache = w.cache ∧
        (Mutation.deleteEmployee (memStorage test) id context w).2.db = w.db) := by
  dsimp only [Mutation.deleteEmployee]
  cases requireAuth context.user with
  | error e => exact Or.inr ⟨rfl, rfl⟩
  | ok u =>
    cases requireRole context.user (some ["ADMIN"]) with
    | error e => exact Or.inr ⟨rfl, rfl⟩
    | ok u2 =>
      simp only [World.call, memStorage]
      cases w.db.employees.find? (fun d => decide (d._id.toString = id)) with
      | none => exact Or.inr ⟨rfl, rfl⟩
      | some d => exact Or.inl rfl

/-- On the reference store `users` keeps the cache and the store. -/
theorem users_mem_world (test : RegExp → String → Bool) (role : Option String)
    (context : Context) (w : World MemDb) :
    (Query.users (memStorage test) role context w).2.cache = w.cache ∧
      (Query.users (memStorage test) role context w).2.db = w.db := by
  dsimp only [Query.users]
  cases requireAuth context.user with
  | error e => exact ⟨rfl, rfl⟩
  | ok u =>
    cases requireRole context.user (some ["ADMIN"]) with
    | error e => exact ⟨rfl, rfl⟩
    | ok u2 => exact ⟨rfl, rfl⟩

/-- On the reference store `login` keeps the cache and the store. -/
theorem login_mem_world (test : RegExp → String → Bool) (bcryptCompare : String → String → Bool)
    (jwtSign : ObjectId → String → Int → String) (username password : String) (now : Int)
    (w : World MemDb) :
    (Mutation.login (memStorage test) bcryptCompare jwtSign username password now w).2.cache =
        w.cache ∧
      (Mutation.login (memStorage test) bcryptCompare jwtSign username password now w).2.db =
        w.db := by
  dsimp only [Mutation.login]
  simp only [World.call, memStorage]
  cases w.db.users.find? (MemDb.matchesUser (.byUsername username)) with
  | none => exact ⟨rfl, rfl⟩
  | some user =>
    dsimp only []
    cases bcryptCompare password user.password <;> exact ⟨rfl, rfl⟩

/-- On the reference store `register` keeps the cache and the employee collection. -/
theorem register_mem_world (test : RegExp → String → Bool) (bcryptHash : String → Nat → String)
    (jwtSign : ObjectId → String → Int → String) (args : RegisterArgs) (context : Context)
    (now : Int) (w : World MemDb) :
    (Mutation.register (memStorage test) bcryptHash jwtSign args context now w).2.cache =
        w.cache ∧
      (Mutation.register (memStorage test) bcryptHash jwtSign args context now w).2.db.employees =
        w.db.employees := by
  obtain ⟨db, cache, log⟩ := w
  have hcache : (Mutation.register (memStorage test) bcryptHash jwtSign args context now
      ⟨db, cache, log⟩).2.cache = cache := by
    dsimp only [Mutation.register]
    cases registerAdminCheck (args.role.withDefault "EMPLOYEE") context.user with
    | error e => rfl
    | ok u =>
      simp only [World.call]
      cases (memStorage test).userFindOne (.byUsernameOrEmail args.username args.email) db with
      | error e => rfl
      | ok found =>
        cases found with
        | some existing => rfl
        | none =>
          dsimp only []
          cases (memStorage test).userCreate (userPreSave bcryptHash true)
              ⟨args.username, args.password, args.email, args.name,
                args.role.withDefault "EMPLOYEE"⟩ db with
          | mk r db2 => cases r <;> rfl
  refine ⟨hcache, ?_⟩
  rcases memStorage_register_outcome test bcryptHash jwtSign args context now db cache log with
    ⟨e, -, hdb⟩ | ⟨doc, hres, -, -, -, hfree⟩
  · rw [hdb]
  · by_cases hempty : args.username = "" ∨ args.password = "" ∨ args.email = "" ∨
        args.name = ""
    · cases hcheck : registerAdminCheck (args.role.withDefault "EMPLOYEE") context.user with
      | error e =>
        rw [register_of_check_error _ _ _ _ _ _ _ e hcheck]
      | ok u =>
        rw [memStorage_register_required test bcryptHash jwtSign args context now db cache log
          hcheck hempty hfree]
    · have hreq : args.username ≠ "" ∧ args.password ≠ "" ∧ args.email ≠ "" ∧
          args.name ≠ "" := by
        refine ⟨?_, ?_, ?_, ?_⟩ <;> intro h <;> exact hempty (by simp [h])
      cases hcheck : registerAdminCheck (args.role.withDefault "EMPLOYEE") context.user with
      | error e =>
        rw [register_of_check_error _ _ _ _ _ _ _ e hcheck]
      | ok u =>
        by_cases hrole : ∃ role, args.role.withDefault "EMPLOYEE" = some role ∧
            role ∈ MemDb.roleEnum
        · obtain ⟨role, hd, hin⟩ := hrole
          rw [memStorage_register_free test bcryptHash jwtSign args context now db cache log role
            hd (by rw [← hd]; exact hcheck) hin hreq hfree]
        · rw [memStorage_register_role test bcryptHash jwtSign args context now db cache log
            hcheck (fun role hd hin => hrole ⟨role, hd, hin⟩) hreq hfree]

/-- On the reference store the guarded user update keeps the cache and the employee
collection. -/
theorem updateUserGuarded_mem_world (test : RegExp → String → Bool) (userId : String)
    (update : UserUpdate) (context : Context) (w : World MemDb) :
    (updateUserGuarded (memStorage test) userId update context w).2.cache = w.cache ∧
      (updateUserGuarded (memStorage test) userId update context w).2.db.employees =
        w.db.employees := by
  dsimp only [updateUserGuarded]
  cases requireAuth context.user with
  | error e => exact ⟨rfl, rfl⟩
  | ok u =>
    cases requireRole context.user (some ["ADMIN"]) with
    | error e => exact ⟨rfl, rfl⟩
    | ok u2 =>
      simp only [World.call, memStorage]
      cases w.db.users.find? (fun u => decide (u._id.toString = userId)) with
      | none => exact ⟨rfl, rfl⟩
      | some found => exact ⟨rfl, rfl⟩

/-- One invocation keeps coherence. -/
theorem Op.run_coherent (env : Env) (ran : List Op) (op : Op) (w : World MemDb)
    (h : Coherent env ran w) : Coherent env (ran ++ [op]) (op.run env w) := by
  have hran : ∀ o ∈ ran, o ∈ ran ++ [op] := fun o ho => List.mem_append_left _ ho
  cases op with
  | employees args context now later =>
    exact employees_coherent env ran args context now later w h
  | employee id now later => exact employee_coherent env ran id now later w h
  | me context =>
    refine Coherent.of_entries env ran _ w _ hran ?_ ?_ h
    · simp only [Op.run, Query.me]
      cases requireAuth context.user <;> rfl
    · intro key e he
      simp only [Op.run, Query.me] at he
      cases hreq : requireAuth context.user <;> simpa only [hreq] using he
  | users role context =>
    obtain ⟨hc, hdb⟩ := users_mem_world env.test role context w
    exact Coherent.of_entries env ran _ w _ hran (by simp only [Op.run]; rw [hdb])
      (fun key e he => by simp only [Op.run] at he; rw [hc] at he; exact he) h
  | addEmployee args context =>
    rcases addEmployee_mem_world env.test args context w with hnil | ⟨hc, hdb⟩
    · exact Coherent.of_nil env _ _ hnil
    · exact Coherent.of_entries env ran _ w _ hran (by simp only [Op.run]; rw [hdb])
        (fun key e he => by simp only [Op.run] at he; rw [hc] at he; exact he) h
  | updateEmployee id updates context =>
    rcases updateEmployee_mem_world env.test id updates context w with hnil | ⟨hc, hdb⟩
    · exact Coherent.of_nil env _ _ hnil
    · exact Coherent.of_entries env ran _ w _ hran (by simp only [Op.run]; rw [hdb])
        (fun key e he => by simp only [Op.run] at he; rw [hc] at he; exact he) h
  | deleteEmployee id context =>
    rcases deleteEmployee_mem_world env.test id context w with hnil | ⟨hc, hdb⟩
    · exact Coherent.of_nil env _ _ hnil
    · exact Coherent.of_entries env ran _ w _ hran (by simp only [Op.run]; rw [hdb])
        (fun key e he => by simp only [Op.run] at he; rw [hc] at he; exact he) h
  | login username password now =>
    obtain ⟨hc, hdb⟩ :=
      login_mem_world env.test env.bcryptCompare env.jwtSign username password now w
    exact Coherent.of_entries env ran _ w _ hran (by simp only [Op.run]; rw [hdb])
      (fun key e he => by simp only [Op.run] at he; rw [hc] at he; exact he) h
  | register args context now =>
    obtain ⟨hc, hdb⟩ :=
      register_mem_world env.test env.bcryptHash env.jwtSign args context now w
    exact Coherent.of_entries env ran _ w _ hran (by simp only [Op.run]; rw [hdb])
      (fun key e he => by simp only [Op.run] at he; rw [hc] at he; exact he) h
  | assignEmployeeToUser userId employeeId context =>
    obtain ⟨hc, hdb⟩ :=
      updateUserGuarded_mem_world env.test userId (.employeeId employeeId) context w
    exact Coherent.of_entries env ran _ w _ hran
      (by simp only [Op.run, Mutation.assignEmployeeToUser]; rw [hdb])
      (fun key e he => by
        simp only [Op.run, Mutation.assignEmployeeToUser] at he; rw [hc] at he; exact he) h
  | updateUserRole userId role context =>
    obtain ⟨hc, hdb⟩ := updateUserGuarded_mem_world env.test userId (.role role) context w
    exact Coherent.of_entries env ran _ w _ hran
      (by simp only [Op.run, Mutation.updateUserRole]; rw [hdb])
      (fun key e he => by
        simp only [Op.run, Mutation.updateUserRole] at he; rw [hc] at he; exact he) h

/-- A sequence of invocations keeps coherence. -/
theorem runOps_coherent (env : Env) (ran ops : List Op) (w : World MemDb)
    (h : Coherent env ran w) : Coherent env (ran ++ ops) (runOps env ops w) := by
  induction ops generalizing ran w with
  | nil =>
    rw [List.append_nil]
    exact h
  | cons op rest ih =>
    have hstep := ih (ran ++ [op]) (op.run env w) (Op.run_coherent env ran op w h)
    rw [List.append_assoc] at hstep
    exact hstep

/-- **C27.** Cache coherence without interleaving, for every choice of the external primitives,
every initial reference store and every finite sequence of invocations of the resolvers
(`employees`, `employee`, `me`, `users`, `addEmployee`, `updateEmployee`, `deleteEmployee`, `login`,
`register`, `assignEmployeeToUser`, `updateUserRole`, with any arguments, contexts and times), each
run to completion from the world the previous one left, starting from the empty cache: every entry
of the cache afterwards (expired or not) was stored by an `employees` of the sequence, under the
key of its arguments and at the time of its `cache.set`, and holds the payload a fresh store query
for those arguments returns on the store as it is now; or it was stored by an `employee` of the
sequence, under `employee_<id>`, and holds the record a fresh lookup of that id returns on the
store as it is now. -/
theorem cache_coherence (env : Env) (db : MemDb) (ops : List Op) (key : String)
    (entry : CacheEntry Payload)
    (hentry : (runOps env ops ⟨db, Cache.empty, []⟩).cache.entry key = some entry) :
    (∃ (args : EmployeesArgs) (context : Option Context) (now later : Int),
      Op.employees args context now later ∈ ops ∧ key = args.cacheKey ∧
      entry.timestamp = later ∧
      freshEmployees env args (runOps env ops ⟨db, Cache.empty, []⟩).db = .ok entry.value) ∨
    (∃ (id : String) (now later : Int),
      Op.employee id now later ∈ ops ∧ key = "employee_" ++ id ∧ entry.timestamp = later ∧
      freshEmployee env id (runOps env ops ⟨db, Cache.empty, []⟩).db =
        .ok (some entry.value)) := by
  have h := runOps_coherent env [] ops ⟨db, Cache.empty, []⟩ (Coherent.of_nil env _ _ rfl)
  rw [List.nil_append] at h
  exact h key entry hentry

/-- C27 at work: on the sample store, after the administrator adds an employee with an empty name
(which the store rejects) and a listing with the default arguments is served at time `5`, the
cache holds the sample page under `1_10_name_asc_`, and that page is what a fresh query gives. -/
theorem cache_coherence_witness :
    (runOps sampleEnv
        [.addEmployee ⟨"", none, none, none, none⟩ (some ⟨some sampleAdmin⟩),
          .employees noArgs (some ⟨none⟩) 0 5]
        ⟨sampleDb, Cache.empty, []⟩).cache.entry "1_10_name_asc_" = some ⟨samplePage, 5⟩ ∧
    ((∃ (args : EmployeesArgs) (context : Option Context) (now later : Int),
      Op.employees args context now later ∈
        [Op.addEmployee ⟨"", none, none, none, none⟩ (some ⟨some sampleAdmin⟩),
          Op.employees noArgs (some ⟨none⟩) 0 5] ∧
      "1_10_name_asc_" = args.cacheKey ∧ (CacheEntry.mk samplePage 5).timestamp = later ∧
      freshEmployees sampleEnv args
        (runOps sampleEnv
          [.addEmployee ⟨"", none, none, none, none⟩ (some ⟨some sampleAdmin⟩),
            .employees noArgs (some ⟨none⟩) 0 5]
          ⟨sampleDb, Cache.empty, []⟩).db = .ok (CacheEntry.mk samplePage 5).value) ∨
    (∃ (id : String) (now later : Int),
      Op.employee id now later ∈
        [Op.addEmployee ⟨"", none, none, none, none⟩ (some ⟨some sampleAdmin⟩),
          Op.employees noArgs (some ⟨none⟩) 0 5] ∧
      "1_10_name_asc_" = "employee_" ++ id ∧ (CacheEntry.mk samplePage 5).timestamp = later ∧
      freshEmployee sampleEnv id
        (runOps sampleEnv
          [.addEmployee ⟨"", none, none, none, none⟩ (some ⟨some sampleAdmin⟩),
            .employees noArgs (some ⟨none⟩) 0 5]
          ⟨sampleDb, Cache.empty, []⟩).db = .ok (some (CacheEntry.mk samplePage 5).value))) :=
  ⟨rfl, cache_coherence sampleEnv sampleDb _ "1_10_name_asc_" ⟨samplePage, 5⟩ rfl⟩

/-! ## No privilege escalation -/

/-- The guards `requireAuth` and `requireRole(user, ['ADMIN'])` do not both pass for a caller who
is absent or not an administrator. -/
theorem guards_reject (user : Option UserDoc) (h : ∀ u, user = some u → u.role ≠ "ADMIN") :
    (∃ e, requireAuth user = .error e) ∨ (∃ e, requireRole user (some ["ADMIN"]) = .error e) := by
  cases user with
  | none => exact Or.inl ⟨_, rfl⟩
  | some u => exact Or.inr ⟨_, requireRole_admin_of_not_admin u (h u rfl)⟩

/-- On the reference store `addEmployee` keeps the user collection. -/
theorem addEmployee_mem_users (test : RegExp → String → Bool) (args : EmployeeInput)
    (context : Option Context) (w : World MemDb) :
    (Mutation.addEmployee (memStorage test) args context w).2.db.users = w.db.users := by
  dsimp only [Mutation.addEmployee]
  cases requireAuth (contextUser context) with
  | error e => rfl
  | ok u =>
    cases requireRole (contextUser context) (some ["ADMIN"]) with
    | error e => rfl
    | ok u2 =>
      simp only [World.call, memStorage]
      by_cases hname : args.name = ""
      · rw [if_pos hname]
      · rw [if_neg hname]

/-- On the reference store `updateEmployee` keeps the user collection. -/
theorem updateEmployee_mem_users (test : RegExp → String → Bool) (id : String)
    (updates : EmployeeUpdates) (context : Option Context) (w : World MemDb) :
    (Mutation.updateEmployee (memStorage test) id updates context w).2.db.users = w.db.users := by
  dsimp only [Mutation.updateEmployee]
  cases requireAuth (contextUser context) with
  | error e => rfl
  | ok u =>
    cases requireRole (contextUser context) (some ["ADMIN"]) with
    | error e => rfl
    | ok u2 =>
      simp only [World.call, memStorage]
      cases w.db.employees.find? (fun d => decide (d._id.toString = id)) with
      | none => rfl
      | some d =>
        dsimp only []
        by_cases hname : updates.name = some ""
        · rw [if_pos hname]
        · rw [if_neg hname]

/-- On the reference store `deleteEmployee` keeps the user collection. -/
theorem deleteEmployee_mem_users (test : RegExp → String → Bool) (id : String)
    (context : Context) (w : World MemDb) :
    (Mutation.deleteEmployee (memStorage test) id context w).2.db.users = w.db.users := by
  dsimp only [Mutation.deleteEmployee]
  cases requireAuth context.user with
  | error e => rfl
  | ok u =>
    cases requireRole context.user (some ["ADMIN"]) with
    | error e => rfl
    | ok u2 =>
      simp only [World.call, memStorage]
      cases w.db.employees.find? (fun d => decide (d._id.toString = id)) with
      | none => rfl
      | some d => rfl

/-- The guarded user update leaves the world as it is for a caller who is absent or not an
administrator, on every store. -/
theorem updateUserGuarded_rejects {σ : Type} (S : Storage σ) (userId : String)
    (update : UserUpdate) (context : Context) (w : World σ)
    (h : ∀ u, context.user = some u → u.role ≠ "ADMIN") :
    (updateUserGuarded S userId update context w).2 = w := by
  dsimp only [updateUserGuarded]
  rcases guards_reject context.user h with ⟨e, he⟩ | ⟨e, he⟩
  · rw [he]
  · rw [he]
    cases requireAuth context.user <;> rfl

/-- On the reference store `register`, called by a caller who is absent or not an administrator,
keeps the users it finds and adds at most users whose role is not `ADMIN`. -/
theorem register_mem_users (test : RegExp → String → Bool) (bcryptHash : String → Nat → String)
    (jwtSign : ObjectId → String → Int → String) (args : RegisterArgs) (context : Context)
    (now : Int) (w : World MemDb) (h : ∀ u, context.user = some u → u.role ≠ "ADMIN") :
    ∃ added : List UserDoc,
      (Mutation.register (memStorage test) bcryptHash jwtSign args context now w).2.db.users =
        w.db.users ++ added ∧
      ∀ u ∈ added, u.role ≠ "ADMIN" := by
  obtain ⟨db, cache, log⟩ := w
  by_cases hadmin : args.role.withDefault "EMPLOYEE" = some "ADMIN"
  · have hcheck : registerAdminCheck (args.role.withDefault "EMPLOYEE") context.user =
        .error onlyAdmins := by
      unfold registerAdminCheck
      rw [if_pos hadmin]
      cases hu : context.user with
      | none => rfl
      | some u =>
        dsimp only []
        rw [if_pos (h u hu)]
    rw [register_of_check_error _ _ _ _ _ _ _ _ hcheck]
    exact ⟨[], by simp, by simp⟩
  · have hcheck : registerAdminCheck (args.role.withDefault "EMPLOYEE") context.user = .ok () := by
      unfold registerAdminCheck
      rw [if_neg hadmin]
    by_cases hex : ∃ x ∈ db.users, x.username = args.username ∨ x.email = args.email
    · obtain ⟨existing, hfound⟩ := MemDb.userFindOne_some test db args.username args.email hex
      rw [register_of_found (memStorage test) bcryptHash jwtSign args context now ⟨db, cache, log⟩
        existing hcheck hfound]
      exact ⟨[], by simp, by simp⟩
    · have hfree : ∀ x ∈ db.users, x.username ≠ args.username ∧ x.email ≠ args.email := by
        intro x hx
        exact ⟨fun h => hex ⟨x, hx, Or.inl h⟩, fun h => hex ⟨x, hx, Or.inr h⟩⟩
      by_cases hempty : args.username = "" ∨ args.password = "" ∨ args.email = "" ∨
          args.name = ""
      · rw [memStorage_register_required test bcryptHash jwtSign args context now db cache log
          hcheck hempty hfree]
        exact ⟨[], by simp, by simp⟩
      · have hreq : args.username ≠ "" ∧ args.password ≠ "" ∧ args.email ≠ "" ∧
            args.name ≠ "" := by
          refine ⟨?_, ?_, ?_, ?_⟩ <;> intro h <;> exact hempty (by simp [h])
        by_cases hrole : ∃ role, args.role.withDefault "EMPLOYEE" = some role ∧
            role ∈ MemDb.roleEnum
        · obtain ⟨role, hd, hin⟩ := hrole
          rw [memStorage_register_free test bcryptHash jwtSign args context now db cache log role
            hd (by rw [← hd]; exact hcheck) hin hreq hfree]
          refine ⟨[_], rfl, ?_⟩
          intro u hu
          simp only [List.mem_singleton] at hu
          subst hu
          intro hr
          exact hadmin (by rw [hd]; exact congrArg some hr)
        · rw [memStorage_register_role test bcryptHash jwtSign args context now db cache log
            hcheck (fun role hd hin => hrole ⟨role, hd, hin⟩) hreq hfree]
          exact ⟨[], by simp, by simp⟩

/-- Appending users whose role is not `ADMIN` keeps the administrators. -/
theorem admins_of_append (db db2 : MemDb) (added : List UserDoc)
    (h : db2.users = db.users ++ added) (hadded : ∀ u ∈ added, u.role ≠ "ADMIN") :
    admins db2 = admins db := by
  unfold admins
  rw [h, List.filter_append]
  have hnil : added.filter (fun u => decide (u.role = "ADMIN")) = [] := by
    rw [List.filter_eq_nil_iff]
    intro u hu
    simpa using hadded u hu
  rw [hnil, List.append_nil]

/-- One invocation by a caller who is absent or not an administrator keeps the users of the
store and adds at most users whose role is not `ADMIN`. -/
theorem Op.run_users (env : Env) (op : Op) (w : World MemDb)
    (hcaller : ∀ u, op.caller = some u → u.role ≠ "ADMIN") :
    ∃ added : List UserDoc,
      (op.run env w).db.users = w.db.users ++ added ∧ ∀ u ∈ added, u.role ≠ "ADMIN" := by
  cases op with
  | employees args context now later =>
    refine ⟨[], ?_, by simp⟩
    simp only [Op.run, List.append_nil]
    rw [(employees_world (memStorage env.test) env.newRegExp args context now later w).1]
  | employee id now later =>
    refine ⟨[], ?_, by simp⟩
    simp only [Op.run, List.append_nil]
    rw [(employee_world (memStorage env.test) id now later w).1]
  | me context =>
    refine ⟨[], ?_, by simp⟩
    simp only [Op.run, Query.me, List.append_nil]
    cases requireAuth context.user <;> rfl
  | users role context =>
    refine ⟨[], ?_, by simp⟩
    simp only [Op.run, List.append_nil]
    rw [(users_mem_world env.test role context w).2]
  | addEmployee args context =>
    refine ⟨[], ?_, by simp⟩
    simp only [Op.run, List.append_nil]
    exact addEmployee_mem_users env.test args context w
  | updateEmployee id updates context =>
    refine ⟨[], ?_, by simp⟩
    simp only [Op.run, List.append_nil]
    exact updateEmployee_mem_users env.test id updates context w
  | deleteEmployee id context =>
    refine ⟨[], ?_, by simp⟩
    simp only [Op.run, List.append_nil]
    exact deleteEmployee_mem_users env.test id context w
  | login username password now =>
    refine ⟨[], ?_, by simp⟩
    simp only [Op.run, List.append_nil]
    rw [(login_mem_world env.test env.bcryptCompare env.jwtSign username password now w).2]
  | register args context now =>
    exact register_mem_users env.test env.bcryptHash env.jwtSign args context now w hcaller
  | assignEmployeeToUser userId employeeId context =>
    refine ⟨[], ?_, by simp⟩
    simp only [Op.run, Mutation.assignEmployeeToUser, List.append_nil]
    rw [updateUserGuarded_rejects (memStorage env.test) userId (.employeeId employeeId) context w
      hcaller]
  | updateUserRole userId role context =>
    refine ⟨[], ?_, by simp⟩
    simp only [Op.run, Mutation.updateUserRole, List.append_nil]
    rw [updateUserGuarded_rejects (memStorage env.test) userId (.role role) context w hcaller]

/-- **C28.** No privilege escalation, for every choice of the external primitives, every world on
the reference store and every invocation of a query or mutation (`employees`, `employee`, `me`,
`users`, `addEmployee`, `updateEmployee`, `deleteEmployee`, `login`, `register`,
`assignEmployeeToUser`, `updateUserRole`, with any arguments) whose caller is absent or has a role
other than `ADMIN`: the users of the store afterwards are the users before, unchanged and in
place, followed by the users the call created, none of which has the role `ADMIN`; hence the
`ADMIN` users of the store are the same after the call as before. -/
theorem no_privilege_escalation (env : Env) (op : Op) (w : World MemDb)
    (hcaller : ∀ u, op.caller = some u → u.role ≠ "ADMIN") :
    (∃ added : List UserDoc,
      (op.run env w).db.users = w.db.users ++ added ∧ ∀ u ∈ added, u.role ≠ "ADMIN") ∧
    admins (op.run env w).db = admins w.db := by
  obtain ⟨added, husers, hadded⟩ := Op.run_users env op w hcaller
  exact ⟨⟨added, husers, hadded⟩, admins_of_append _ _ added husers hadded⟩

/-- C28 at work: the sample clerk, whose role is `EMPLOYEE`, asks for the role `ADMIN` for their
own account through `updateUserRole`; the users of the store stay as they are. -/
theorem no_privilege_escalation_witness :
    (∀ u, (Op.updateUserRole "u1" "ADMIN" ⟨some sampleClerk⟩).caller = some u →
      u.role ≠ "ADMIN") ∧
    ((∃ added : List UserDoc,
      ((Op.updateUserRole "u1" "ADMIN" ⟨some sampleClerk⟩).run sampleEnv
          ⟨⟨[sampleAlice], [sampleAdmin, sampleClerk], 1, 0⟩, Cache.empty, []⟩).db.users =
        (World.mk (MemDb.mk [sampleAlice] [sampleAdmin, sampleClerk] 1 0)
          (Cache.empty : Cache Payload) []).db.users ++ added ∧
      ∀ u ∈ added, u.role ≠ "ADMIN") ∧
    admins ((Op.updateUserRole "u1" "ADMIN" ⟨some sampleClerk⟩).run sampleEnv
        ⟨⟨[sampleAlice], [sampleAdmin, sampleClerk], 1, 0⟩, Cache.empty, []⟩).db =
      admins (World.mk (MemDb.mk [sampleAlice] [sampleAdmin, sampleClerk] 1 0)
        (Cache.empty : Cache Payload) []).db) :=
  ⟨fun u h => by cases h; decide,
    no_privilege_escalation sampleEnv (Op.updateUserRole "u1" "ADMIN" ⟨some sampleClerk⟩)
      ⟨⟨[sampleAlice], [sampleAdmin, sampleClerk], 1, 0⟩, Cache.empty, []⟩
      (fun u h => by cases h; decide)⟩

end GraphStaff
